import Mathlib

/-!
Verification of the five-round PLONK prover (`prover.py`).

The embedding models the prover pipeline as pure functions over a field `F`.
Polynomials are dense value/coefficient vectors carrying a runtime basis tag
(`LAGRANGE` or `MONOMIAL`), exactly as in the source's `Polynomial` class,
where the coset-extended representation of size `4n` is also tagged `LAGRANGE`.
Binary polynomial arithmetic checks that both operands share basis and size
and otherwise fails with a `mismatch` error; prover assertions fail with
`assertionFailed`; a missing witness key fails with `keyError`.

The field / polynomial / transcript / commitment collaborators are not part
of the source tree; where a definition is taken from the specification rather
than from `prover.py` its doc comment starts with `Modelled from the spec:`.
-/

set_option maxRecDepth 8000
set_option maxHeartbeats 4000000

namespace Plonk

/-- Basis tag of a polynomial, as in the source's `Basis` enum.  The
coset-extended Lagrange representation of size `4n` is tagged `LAGRANGE`. -/
inductive Basis
  | LAGRANGE
  | MONOMIAL
deriving DecidableEq, Repr

/-- Dense polynomial: a vector of field elements plus a basis tag. -/
structure Poly (F : Type) where
  values : List F
  basis : Basis
deriving DecidableEq, Repr

/-- Error class of a prover run: a cross-basis / cross-size polynomial
operation, a failed `assert`, or a missing dictionary key. -/
inductive PErr
  | mismatch
  | assertionFailed
  | keyError
deriving DecidableEq, Repr

instance {e a : Type} [DecidableEq e] [DecidableEq a] : DecidableEq (Except e a) :=
  fun x y =>
    match x, y with
    | Except.error u, Except.error v =>
        if h : u = v then isTrue (by rw [h]) else
          isFalse (fun hc => h (by cases hc; rfl))
    | Except.error _, Except.ok _ => isFalse (fun hc => Except.noConfusion hc)
    | Except.ok _, Except.error _ => isFalse (fun hc => Except.noConfusion hc)
    | Except.ok u, Except.ok v =>
        if h : u = v then isTrue (by rw [h]) else
          isFalse (fun hc => h (by cases hc; rfl))

/-- Modelled from the spec: arithmetic is permitted only between polynomials
of the same basis and size; in an evaluation basis it is pointwise. -/
def pbinop {F : Type} (f : F → F → F) (p q : Poly F) : Except PErr (Poly F) :=
  if p.basis = q.basis ∧ p.values.length = q.values.length then
    Except.ok ⟨List.zipWith f p.values q.values, p.basis⟩
  else Except.error PErr.mismatch

/-- Polynomial addition (checked, pointwise). -/
def padd {F : Type} [Field F] (p q : Poly F) : Except PErr (Poly F) :=
  pbinop (fun a b => a + b) p q

/-- Polynomial subtraction (checked, pointwise). -/
def psub {F : Type} [Field F] (p q : Poly F) : Except PErr (Poly F) :=
  pbinop (fun a b => a - b) p q

/-- Polynomial multiplication (checked, pointwise in an evaluation basis). -/
def pmul {F : Type} [Field F] (p q : Poly F) : Except PErr (Poly F) :=
  pbinop (fun a b => a * b) p q

/-- Polynomial division (checked, pointwise in an evaluation basis). -/
def pdiv {F : Type} [Field F] (p q : Poly F) : Except PErr (Poly F) :=
  pbinop (fun a b => a / b) p q

/-- Modelled from the spec: a bare scalar promotes to a constant polynomial of
the other operand's basis and size, so scalar operations are total maps. -/
def pmulC {F : Type} [Field F] (p : Poly F) (c : F) : Poly F :=
  ⟨p.values.map (fun a => a * c), p.basis⟩

/-- Scalar addition (promotion of the scalar, pointwise). -/
def paddC {F : Type} [Field F] (p : Poly F) (c : F) : Poly F :=
  ⟨p.values.map (fun a => a + c), p.basis⟩

/-- Scalar subtraction `p - c` (promotion of the scalar, pointwise). -/
def psubC {F : Type} [Field F] (p : Poly F) (c : F) : Poly F :=
  ⟨p.values.map (fun a => a - c), p.basis⟩

/-- Modelled from the spec: `roots_of_unity(n)` returns the list of powers of
the canonical primitive `n`-th root of unity. -/
def rootsOfUnity {F : Type} [Field F] (om : F) (m : Nat) : List F :=
  (List.range m).map (fun i => om ^ i)

/-- Modelled from the spec: evaluation of a length-`m` coefficient vector at a
point, used by the forward FFT. -/
def evalList {F : Type} [Field F] (l : List F) (x : F) : F :=
  ∑ i ∈ Finset.range l.length, l.getD i 0 * x ^ i

/-- Modelled from the spec: the forward transform (monomial coefficients to
values at the `m` powers of the root `om`). -/
def dftL {F : Type} [Field F] (m : Nat) (om : F) (l : List F) : List F :=
  (List.range m).map (fun i => evalList l (om ^ i))

/-- Modelled from the spec: the inverse transform (values at the `m` powers of
`om` back to monomial coefficients, dividing by `m`). -/
def idftL {F : Type} [Field F] (m : Nat) (om : F) (l : List F) : List F :=
  (List.range m).map
    (fun j => (∑ i ∈ Finset.range m, l.getD i 0 * om⁻¹ ^ (i * j)) / (m : F))

/-- Modelled from the spec: `to_coset_extended_lagrange(h)` — iFFT to monomial
form, scale coefficient `i` by `h^i`, zero-pad to `4n`, FFT of size `4n`.
The result carries the `LAGRANGE` tag, as in the source. -/
def to_coset {F : Type} [Field F] (rootOf : Nat → F) (h : F) (p : Poly F) : Poly F :=
  ⟨dftL (4 * p.values.length) (rootOf (4 * p.values.length))
      ((idftL p.values.length (rootOf p.values.length) p.values).enum.map
          (fun q => q.2 * h ^ q.1)
        ++ List.replicate (3 * p.values.length) 0),
    Basis.LAGRANGE⟩

/-- Modelled from the spec: `coset_extended_lagrange_to_coeffs(h)` — iFFT of
the size-`4n` value vector, then undo the `h^i` coefficient scaling. -/
def to_coeffs {F : Type} [Field F] (rootOf : Nat → F) (h : F) (p : Poly F) : Poly F :=
  ⟨(idftL p.values.length (rootOf p.values.length) p.values).enum.map
      (fun q => q.2 * h⁻¹ ^ q.1),
    Basis.MONOMIAL⟩

/-- Modelled from the spec: `fft()` — monomial coefficients to Lagrange values
on the polynomial's own size. -/
def pfft {F : Type} [Field F] (rootOf : Nat → F) (p : Poly F) : Poly F :=
  ⟨dftL p.values.length (rootOf p.values.length) p.values, Basis.LAGRANGE⟩

/-- Modelled from the spec: `shift(k)` — cyclic left rotation of the Lagrange
values, returning `P(X·om^k)` on the same domain. -/
def pshift {F : Type} (p : Poly F) (k : Nat) : Poly F :=
  ⟨p.values.rotateLeft k, p.basis⟩

/-- Modelled from the spec: barycentric evaluation of a Lagrange-basis
polynomial at an arbitrary point, with direct lookup when the point is one of
the roots of unity. -/
def barycentric_eval {F : Type} [Field F] [DecidableEq F]
    (rootOf : Nat → F) (p : Poly F) (z : F) : F :=
  match (List.range p.values.length).find? (fun i => rootOf p.values.length ^ i = z) with
  | some i => p.values.getD i 0
  | none =>
      (z ^ p.values.length - 1) / (p.values.length : F) *
        ∑ i ∈ Finset.range p.values.length,
          p.values.getD i 0 * rootOf p.values.length ^ i /
            (z - rootOf p.values.length ^ i)

/-- Wire triple of one gate (`wires()[i]`), each name an optional string. -/
structure GateWires where
  L : Option String
  R : Option String
  O : Option String
deriving DecidableEq, Repr

/-- Common preprocessed input: selector and permutation polynomials. -/
structure CommonPreprocessedInput (F : Type) where
  QL : Poly F
  QR : Poly F
  QM : Poly F
  QO : Poly F
  QC : Poly F
  S1 : Poly F
  S2 : Poly F
  S3 : Poly F
deriving DecidableEq, Repr

/-- Modelled from the spec: Round 1 message (commitments to A, B, C). -/
structure Message1 (G : Type) where
  a_1 : G
  b_1 : G
  c_1 : G
deriving DecidableEq, Repr

/-- Modelled from the spec: Round 2 message (commitment to Z). -/
structure Message2 (G : Type) where
  z_1 : G
deriving DecidableEq, Repr

/-- Modelled from the spec: Round 3 message (commitments to T1, T2, T3). -/
structure Message3 (G : Type) where
  t_lo_1 : G
  t_mid_1 : G
  t_hi_1 : G
deriving DecidableEq, Repr

/-- Modelled from the spec: Round 4 message (the six opening evaluations). -/
structure Message4 (F : Type) where
  a_eval : F
  b_eval : F
  c_eval : F
  s1_eval : F
  s2_eval : F
  z_shifted_eval : F
deriving DecidableEq, Repr

/-- Modelled from the spec: Round 5 message (the two opening-proof commitments). -/
structure Message5 (G : Type) where
  W_z_1 : G
  W_zw_1 : G
deriving DecidableEq, Repr

/-- The proof object: the five round messages (fifteen fields). -/
structure Proof (F G : Type) where
  msg_1 : Message1 G
  msg_2 : Message2 G
  msg_3 : Message3 G
  msg_4 : Message4 F
  msg_5 : Message5 G
deriving DecidableEq, Repr

/-- Flattened proof, mirroring `Proof.flatten` in the source: the fifteen
fields of the proof in fixed order. -/
structure FlatProof (F G : Type) where
  a_1 : G
  b_1 : G
  c_1 : G
  z_1 : G
  t_lo_1 : G
  t_mid_1 : G
  t_hi_1 : G
  a_eval : F
  b_eval : F
  c_eval : F
  s1_eval : F
  s2_eval : F
  z_shifted_eval : F
  W_z_1 : G
  W_zw_1 : G
deriving DecidableEq, Repr

/-- Source `Proof.flatten`: collect the fifteen proof fields. -/
def Proof.flatten {F G : Type} (p : Proof F G) : FlatProof F G :=
  ⟨p.msg_1.a_1, p.msg_1.b_1, p.msg_1.c_1, p.msg_2.z_1,
    p.msg_3.t_lo_1, p.msg_3.t_mid_1, p.msg_3.t_hi_1,
    p.msg_4.a_eval, p.msg_4.b_eval, p.msg_4.c_eval,
    p.msg_4.s1_eval, p.msg_4.s2_eval, p.msg_4.z_shifted_eval,
    p.msg_5.W_z_1, p.msg_5.W_zw_1⟩

/-- The prover's fixed data: group order, commitment scheme, program wires and
public variables, preprocessed input, canonical roots of unity, and the
(deterministic) Fiat-Shamir challenge functions of the transcript, which is
initialised with the constant label and absorbs exactly the round messages. -/
structure Prover (F G : Type) where
  group_order : Nat
  commit : Poly F → G
  wires : List GateWires
  public_vars : List String
  pk : CommonPreprocessedInput F
  rootOf : Nat → F
  tr1 : Message1 G → F × F
  tr2 : Message1 G → Message2 G → F × F
  tr3 : Message1 G → Message2 G → Message3 G → F
  tr4 : Message1 G → Message2 G → Message3 G → Message4 F → F

/-- A witness is a finite mapping from optional variable names to integers;
`none` on a key models the key's absence from the dictionary. -/
abbrev Witness : Type := Option String → Option Int

/-- Source lines 90-91: insert the key `None` with value `0` only when `None`
is absent from the witness mapping. -/
def insertNoneZero (w : Witness) : Witness :=
  if (w none).isSome then w
  else fun k => if k = none then some 0 else w k

/-- Dictionary lookup `Scalar(witness[k])`; a missing key raises. -/
def lookupW {F : Type} [Field F] (w : Witness) (k : Option String) : Except PErr F :=
  match w k with
  | some v => Except.ok ((v : Int) : F)
  | none => Except.error PErr.keyError

/-- Body of the source's wire-assignment loop: `A_values[i] = witness[g.L]`
and likewise for B and C, walking the gate list with an index. -/
def setValsAux {F : Type} [Field F] (w : Witness) :
    List GateWires → Nat → List F × List F × List F →
      Except PErr (List F × List F × List F)
  | [], _, acc => Except.ok acc
  | g :: gs, i, acc => do
      let a ← lookupW w g.L
      let b ← lookupW w g.R
      let c ← lookupW w g.O
      setValsAux w gs (i + 1) (acc.1.set i a, acc.2.1.set i b, acc.2.2.set i c)

/-- Source lines 98-105: wire value vectors A, B, C, starting from `n` zeros
and overwriting position `i` from gate `i`'s wires. -/
def setVals {F : Type} [Field F] (n : Nat) (w : Witness) (wires : List GateWires) :
    Except PErr (List F × List F × List F) :=
  setValsAux w wires 0 (List.replicate n 0, List.replicate n 0, List.replicate n 0)

/-- The all-zero Lagrange polynomial of size `n` (right side of the Round 1
assertion). -/
def zeroPolyL {F : Type} [Field F] (n : Nat) : Poly F :=
  ⟨List.replicate n 0, Basis.LAGRANGE⟩

/-- Left side of the Round 1 assertion:
`A*QL + B*QR + A*B*QM + C*QO + PI + QC`. -/
def gateConstraint {F : Type} [Field F] (pk : CommonPreprocessedInput F)
    (A B C PI : Poly F) : Except PErr (Poly F) := do
  let t1 ← pmul A pk.QL
  let t2 ← pmul B pk.QR
  let tAB ← pmul A B
  let t3 ← pmul tAB pk.QM
  let t4 ← pmul C pk.QO
  let u1 ← padd t1 t2
  let u2 ← padd u1 t3
  let u3 ← padd u2 t4
  let u4 ← padd u3 PI
  padd u4 pk.QC

/-- One public-input value `Scalar(-witness[v])`; a missing key raises. -/
def lookupPub {F : Type} [Field F] (w : Witness) (v : String) : Except PErr F :=
  match w (some v) with
  | some x => Except.ok (((-x : Int) : F))
  | none => Except.error PErr.keyError

/-- The public-input values `Scalar(-witness[v])` in order, failing at the
first public variable missing from the witness. -/
def mapPI {F : Type} [Field F] (w : Witness) : List String → Except PErr (List F)
  | [] => Except.ok []
  | v :: vs => do
      let x ← lookupPub w v
      let rest ← mapPI w vs
      Except.ok (x :: rest)

/-- Source `prove` lines 57-62: the public-input polynomial, whose value at
public-input position `i` is `-witness[pub_var_i]` and `0` elsewhere. -/
def computePI {F : Type} [Field F] {G : Type} (P : Prover F G) (w : Witness) :
    Except PErr (Poly F) := do
  let pvals ← mapPI w P.public_vars
  Except.ok ⟨pvals ++ List.replicate (P.group_order - P.public_vars.length) 0,
    Basis.LAGRANGE⟩

/-- Source `round_1`: build A, B, C in `LAGRANGE(n)`, commit, and assert the
gate constraint polynomial is identically zero. -/
def round_1 {F : Type} [Field F] [DecidableEq F] {G : Type}
    (P : Prover F G) (w : Witness) (PI : Poly F) :
    Except PErr (Poly F × Poly F × Poly F × Message1 G) := do
  let w1 := insertNoneZero w
  let vals ← setVals P.group_order w1 P.wires
  let A : Poly F := ⟨vals.1, Basis.LAGRANGE⟩
  let B : Poly F := ⟨vals.2.1, Basis.LAGRANGE⟩
  let C : Poly F := ⟨vals.2.2, Basis.LAGRANGE⟩
  let a_1 := P.commit A
  let b_1 := P.commit B
  let c_1 := P.commit C
  let gc ← gateConstraint P.pk A B C PI
  if gc = zeroPolyL P.group_order then Except.ok (A, B, C, ⟨a_1, b_1, c_1⟩)
  else Except.error PErr.assertionFailed

/-- Source `rlc`: `term_1 + term_2 * beta + gamma`. -/
def rlc {F : Type} [Field F] (beta gamma t1 t2 : F) : F :=
  t1 + t2 * beta + gamma

/-- The `rlc` convenience function applied to two polynomials (the scalar
multiple is a promotion; the sum of the two polynomials is checked). -/
def rlcP {F : Type} [Field F] (beta gamma : F) (t1 t2 : Poly F) :
    Except PErr (Poly F) := do
  let s ← padd t1 (pmulC t2 beta)
  Except.ok (paddC s gamma)

/-- Numerator factor of one step of the grand product:
`rlc(A_i, om^i) * rlc(B_i, 2 om^i) * rlc(C_i, 3 om^i)`. -/
def zNum {F : Type} [Field F] (beta gamma a b c r : F) : F :=
  rlc beta gamma a r * rlc beta gamma b (2 * r) * rlc beta gamma c (3 * r)

/-- Denominator factor of one step of the grand product:
`rlc(A_i, S1_i) * rlc(B_i, S2_i) * rlc(C_i, S3_i)`. -/
def zDen {F : Type} [Field F] (beta gamma a b c s1 s2 s3 : F) : F :=
  rlc beta gamma a s1 * rlc beta gamma b s2 * rlc beta gamma c s3

/-- The accumulator of Round 2: `Z_0 = 1` and
`Z_{i+1} = Z_i * zNum_i / zDen_i`, exactly the loop of source lines 147-155. -/
def Zval {F : Type} [Field F] (beta gamma : F)
    (roots Av Bv Cv S1v S2v S3v : List F) : Nat → F
  | 0 => 1
  | i + 1 =>
      Zval beta gamma roots Av Bv Cv S1v S2v S3v i *
        (zNum beta gamma (Av.getD i 0) (Bv.getD i 0) (Cv.getD i 0) (roots.getD i 0) /
          zDen beta gamma (Av.getD i 0) (Bv.getD i 0) (Cv.getD i 0)
            (S1v.getD i 0) (S2v.getD i 0) (S3v.getD i 0))

/-- The Round 2 accumulator on the prover's own roots of unity and
permutation polynomials. -/
def round2acc {F : Type} [Field F] {G : Type} (P : Prover F G)
    (beta gamma : F) (A B C : Poly F) : Nat → F :=
  Zval beta gamma (rootsOfUnity (P.rootOf P.group_order) P.group_order)
    A.values B.values C.values P.pk.S1.values P.pk.S2.values P.pk.S3.values

/-- Source `round_2`: accumulate the grand product, assert the final value is
`1` and pop it, assert the cyclic per-row identity, and commit to `Z`. -/
def round_2 {F : Type} [Field F] [DecidableEq F] {G : Type}
    (P : Prover F G) (beta gamma : F) (A B C : Poly F) :
    Except PErr (Poly F × Message2 G) :=
  let n := P.group_order
  let roots := rootsOfUnity (P.rootOf n) n
  let Zf := round2acc P beta gamma A B C
  if Zf n = 1 then
    if (List.range n).all
        (fun i =>
          decide
            (zNum beta gamma (A.values.getD i 0) (B.values.getD i 0)
                  (C.values.getD i 0) (roots.getD i 0) * Zf i -
                zDen beta gamma (A.values.getD i 0) (B.values.getD i 0)
                  (C.values.getD i 0) (P.pk.S1.values.getD i 0)
                  (P.pk.S2.values.getD i 0) (P.pk.S3.values.getD i 0) *
                  Zf ((i + 1) % n) =
              0)) then
      let Z : Poly F := ⟨(List.range n).map Zf, Basis.LAGRANGE⟩
      Except.ok (Z, ⟨P.commit Z⟩)
    else Except.error PErr.assertionFailed
  else Except.error PErr.assertionFailed

/-- Source `round_3` line 236-239: `Z_H` evaluated pointwise on the coset,
`Z_H_expanded[i] = (mu^i * h)^n - 1`, tagged `LAGRANGE` of size `4n`. -/
def Z_H_of {F : Type} [Field F] (n : Nat) (h : F) (roots4 : List F) : Poly F :=
  ⟨roots4.map (fun r => (r * h) ^ n - 1), Basis.LAGRANGE⟩

/-- Source `round_3` line 243: `L0`, value `1` at `om^0` and `0` elsewhere. -/
def L0_of {F : Type} [Field F] (n : Nat) : Poly F :=
  ⟨1 :: List.replicate (n - 1) 0, Basis.LAGRANGE⟩

/-- Everything Round 3 stores on the prover object. -/
structure R3Data (F : Type) where
  roots4 : List F
  A_expanded : Poly F
  B_expanded : Poly F
  C_expanded : Poly F
  PI_expanded : Poly F
  QL_expanded : Poly F
  QR_expanded : Poly F
  QM_expanded : Poly F
  QO_expanded : Poly F
  QC_expanded : Poly F
  Z_expanded : Poly F
  Z_W_expanded : Poly F
  S1_expanded : Poly F
  S2_expanded : Poly F
  S3_expanded : Poly F
  Z_H : Poly F
  L0 : Poly F
  L0_expanded : Poly F
  roots_poly : Poly F
  gates : Poly F
  permutation_grand_product : Poly F
  QUOT_expanded : Poly F
  QUOT_coefficients : Poly F
  T1 : Poly F
  T2 : Poly F
  T3 : Poly F
deriving DecidableEq, Repr

/-- Source `round_3`, computations before its assertions: expand everything to
the coset, build the gate and permutation numerators, divide both by `Z_H`
pointwise, and convert the quotient to monomial coefficients. -/
def round_3_core {F : Type} [Field F] {G : Type} (P : Prover F G)
    (beta gamma alpha h : F) (A B C PI Z : Poly F) :
    Except PErr (R3Data F) := do
  let n := P.group_order
  let roots4 := rootsOfUnity (P.rootOf (4 * n)) (4 * n)
  let Aexp := to_coset P.rootOf h A
  let Bexp := to_coset P.rootOf h B
  let Cexp := to_coset P.rootOf h C
  let PIexp := to_coset P.rootOf h PI
  let QLexp := to_coset P.rootOf h P.pk.QL
  let QRexp := to_coset P.rootOf h P.pk.QR
  let QMexp := to_coset P.rootOf h P.pk.QM
  let QOexp := to_coset P.rootOf h P.pk.QO
  let QCexp := to_coset P.rootOf h P.pk.QC
  let Zexp := to_coset P.rootOf h Z
  let ZWexp := to_coset P.rootOf h (pshift Z 1)
  let S1exp := to_coset P.rootOf h P.pk.S1
  let S2exp := to_coset P.rootOf h P.pk.S2
  let S3exp := to_coset P.rootOf h P.pk.S3
  let ZH := Z_H_of n h roots4
  let L0 := L0_of (F := F) n
  let L0exp := to_coset P.rootOf h L0
  let g1 ← pmul Aexp QLexp
  let g2 ← pmul Bexp QRexp
  let gAB ← pmul Aexp Bexp
  let g3 ← pmul gAB QMexp
  let g4 ← pmul Cexp QOexp
  let gs1 ← padd g1 g2
  let gs2 ← padd gs1 g3
  let gs3 ← padd gs2 g4
  let gs4 ← padd gs3 PIexp
  let gatesNum ← padd gs4 QCexp
  let gates ← pdiv gatesNum ZH
  let rootsPoly : Poly F := ⟨roots4, Basis.LAGRANGE⟩
  let f1 ← rlcP beta gamma Aexp (pmulC rootsPoly h)
  let f2 ← rlcP beta gamma Bexp (pmulC rootsPoly (2 * h))
  let f3 ← rlcP beta gamma Cexp (pmulC rootsPoly (3 * h))
  let f12 ← pmul f1 f2
  let f123 ← pmul f12 f3
  let fZ ← pmul f123 Zexp
  let fZa := pmulC fZ alpha
  let e1 ← rlcP beta gamma Aexp S1exp
  let e2 ← rlcP beta gamma Bexp S2exp
  let e3 ← rlcP beta gamma Cexp S3exp
  let e12 ← pmul e1 e2
  let e123 ← pmul e12 e3
  let eZ ← pmul e123 ZWexp
  let eZa := pmulC eZ alpha
  let l0t ← pmul (psubC Zexp 1) L0exp
  let l0ta := pmulC l0t (alpha * alpha)
  let pd ← psub fZa eZa
  let pgpNum ← padd pd l0ta
  let pgp ← pdiv pgpNum ZH
  let QUOT ← padd gates pgp
  let QUOTc := to_coeffs P.rootOf h QUOT
  let T1 := pfft P.rootOf ⟨QUOTc.values.take n, Basis.MONOMIAL⟩
  let T2 := pfft P.rootOf ⟨(QUOTc.values.drop n).take n, Basis.MONOMIAL⟩
  let T3 := pfft P.rootOf ⟨(QUOTc.values.drop (2 * n)).take n, Basis.MONOMIAL⟩
  Except.ok ⟨roots4, Aexp, Bexp, Cexp, PIexp, QLexp, QRexp, QMexp, QOexp, QCexp,
    Zexp, ZWexp, S1exp, S2exp, S3exp, ZH, L0, L0exp, rootsPoly,
    gates, pgp, QUOT, QUOTc, T1, T2, T3⟩

/-- Source `round_3`: the computations of `round_3_core` followed by the
degree assertion (top `n` monomial coefficients of the quotient are zero) and
the `T1/T2/T3` split sanity check, then the three commitments. -/
def round_3 {F : Type} [Field F] [DecidableEq F] {G : Type} (P : Prover F G)
    (beta gamma alpha h : F) (A B C PI Z : Poly F) :
    Except PErr (R3Data F × Message3 G) := do
  let d ← round_3_core P beta gamma alpha h A B C PI Z
  if d.QUOT_coefficients.values.drop (3 * P.group_order) =
      List.replicate P.group_order 0 then
    if barycentric_eval P.rootOf d.T1 h +
          barycentric_eval P.rootOf d.T2 h * h ^ P.group_order +
          barycentric_eval P.rootOf d.T3 h * h ^ (P.group_order * 2) =
        d.QUOT_expanded.values.getD 0 0 then
      Except.ok (d, ⟨P.commit d.T1, P.commit d.T2, P.commit d.T3⟩)
    else Except.error PErr.assertionFailed
  else Except.error PErr.assertionFailed

/-- Source `round_4`: the six barycentric opening evaluations. -/
def round_4 {F : Type} [Field F] [DecidableEq F] {G : Type} (P : Prover F G)
    (zeta : F) (A B C Z : Poly F) : Message4 F :=
  let root_of_unity := P.rootOf P.group_order
  ⟨barycentric_eval P.rootOf A zeta,
    barycentric_eval P.rootOf B zeta,
    barycentric_eval P.rootOf C zeta,
    barycentric_eval P.rootOf P.pk.S1 zeta,
    barycentric_eval P.rootOf P.pk.S2 zeta,
    barycentric_eval P.rootOf Z (zeta * root_of_unity)⟩

/-- Everything Round 5 stores on the prover object. -/
structure R5Data (F G : Type) where
  L0_eval : F
  Z_H_eval : F
  T1_expanded : Poly F
  T2_expanded : Poly F
  T3_expanded : Poly F
  PI_eval : F
  gates : Poly F
  permutation_grand_product : Poly F
  permutation : Poly F
  T_argument : Poly F
  R_argument : Poly F
  R : Poly F
  R_commit : G
  quarter_roots : Poly F
  root_of_unity : F
  W_Z_argument : Poly F
  W_z : Poly F
  W_z_1 : G
  W_zw_argument : Poly F
  W_zw : Poly F
  W_zw_1 : G
deriving DecidableEq, Repr

/-- Source `round_5`, computations without the four assertions: linearization
polynomial `R` and the two opening witness polynomials. -/
def round_5_core {F : Type} [Field F] [DecidableEq F] {G : Type} (P : Prover F G)
    (beta gamma alpha h zeta v : F) (PI : Poly F) (d : R3Data F)
    (m4 : Message4 F) : Except PErr (R5Data F G) := do
  let n := P.group_order
  let L0_eval := barycentric_eval P.rootOf d.L0 zeta
  let Z_H_eval := zeta ^ n - 1
  let T1exp := to_coset P.rootOf h d.T1
  let T2exp := to_coset P.rootOf h d.T2
  let T3exp := to_coset P.rootOf h d.T3
  let PI_eval := barycentric_eval P.rootOf PI zeta
  let cevalPoly : Poly F := ⟨List.replicate (4 * n) m4.c_eval, Basis.LAGRANGE⟩
  let ga1 ← padd (pmulC d.QL_expanded m4.a_eval) (pmulC d.QR_expanded m4.b_eval)
  let ga2 ← padd ga1 (pmulC (pmulC d.QM_expanded m4.a_eval) m4.b_eval)
  let ga3 ← padd ga2 (pmulC d.QO_expanded m4.c_eval)
  let ga4 := paddC ga3 PI_eval
  let gates ← padd ga4 d.QC_expanded
  let zterm := pmulC d.Z_expanded
    (rlc beta gamma m4.a_eval zeta * rlc beta gamma m4.b_eval (2 * zeta) *
      rlc beta gamma m4.c_eval (3 * zeta))
  let c3 ← rlcP beta gamma cevalPoly d.S3_expanded
  let cterm := pmulC (pmulC c3 (rlc beta gamma m4.a_eval m4.s1_eval))
    (rlc beta gamma m4.b_eval m4.s2_eval)
  let pgp ← psub zterm (pmulC cterm m4.z_shifted_eval)
  let permutation := pmulC (psubC d.Z_expanded 1) L0_eval
  let ta1 ← padd T1exp (pmulC T2exp (zeta ^ n))
  let T_argument ← padd ta1 (pmulC T3exp (zeta ^ (2 * n)))
  let r1 ← padd gates (pmulC pgp alpha)
  let r2 ← padd r1 (pmulC permutation (alpha ^ 2))
  let R_argument ← psub r2 (pmulC T_argument Z_H_eval)
  let Rcoeffs := (to_coeffs P.rootOf h R_argument).values
  let R := pfft P.rootOf ⟨Rcoeffs.take n, Basis.MONOMIAL⟩
  let R_commit := P.commit R
  let quarter_roots : Poly F :=
    ⟨rootsOfUnity (P.rootOf (4 * n)) (4 * n), Basis.LAGRANGE⟩
  let root_of_unity := P.rootOf n
  let w1 ← padd R_argument (pmulC (psubC d.A_expanded m4.a_eval) v)
  let w2 ← padd w1 (pmulC (psubC d.B_expanded m4.b_eval) (v ^ 2))
  let w3 ← padd w2 (pmulC (psubC d.C_expanded m4.c_eval) (v ^ 3))
  let w4 ← padd w3 (pmulC (psubC d.S1_expanded m4.s1_eval) (v ^ 4))
  let w5 ← padd w4 (pmulC (psubC d.S2_expanded m4.s2_eval) (v ^ 5))
  let W_Z_argument ← pdiv w5 (psubC (pmulC quarter_roots h) zeta)
  let Wzc := (to_coeffs P.rootOf h W_Z_argument).values
  let W_z := pfft P.rootOf ⟨Wzc.take n, Basis.MONOMIAL⟩
  let W_z_1 := P.commit W_z
  let W_zw_argument ← pdiv (psubC d.Z_expanded m4.z_shifted_eval)
    (psubC (pmulC quarter_roots h) (root_of_unity * zeta))
  let Wzwc := (to_coeffs P.rootOf h W_zw_argument).values
  let W_zw := pfft P.rootOf ⟨Wzwc.take n, Basis.MONOMIAL⟩
  let W_zw_1 := P.commit W_zw
  Except.ok ⟨L0_eval, Z_H_eval, T1exp, T2exp, T3exp, PI_eval, gates, pgp,
    permutation, T_argument, R_argument, R, R_commit, quarter_roots,
    root_of_unity, W_Z_argument, W_z, W_z_1, W_zw_argument, W_zw, W_zw_1⟩

/-- Source `round_5`: the computations of `round_5_core` with its assertions,
in source order (the duplicated degree checks of `W_z` and `W_zw` collapse to
one check each, the conditions being identical). -/
def round_5 {F : Type} [Field F] [DecidableEq F] {G : Type} (P : Prover F G)
    (beta gamma alpha h zeta v : F) (PI : Poly F) (d : R3Data F)
    (m4 : Message4 F) : Except PErr (R5Data F G × Message5 G) := do
  let n := P.group_order
  let d5 ← round_5_core P beta gamma alpha h zeta v PI d m4
  if (to_coeffs P.rootOf h d5.R_argument).values.drop n =
      List.replicate (3 * n) 0 then
    if barycentric_eval P.rootOf d5.R zeta = 0 then
      if (to_coeffs P.rootOf h d5.W_Z_argument).values.drop n =
          List.replicate (3 * n) 0 then
        if (to_coeffs P.rootOf h d5.W_zw_argument).values.drop n =
            List.replicate (3 * n) 0 then
          Except.ok (d5, ⟨d5.W_z_1, d5.W_zw_1⟩)
        else Except.error PErr.assertionFailed
      else Except.error PErr.assertionFailed
    else Except.error PErr.assertionFailed
  else Except.error PErr.assertionFailed

/-- All values created during one `prove` call, in pipeline order. -/
structure Parts (F G : Type) where
  PI : Poly F
  A : Poly F
  B : Poly F
  C : Poly F
  beta : F
  gamma : F
  Z : Poly F
  alpha : F
  fft_cofactor : F
  r3 : R3Data F
  zeta : F
  m4 : Message4 F
  v : F
  r5 : R5Data F G
  m1 : Message1 G
  m2 : Message2 G
  m3 : Message3 G
  m5 : Message5 G
deriving DecidableEq

/-- Source `prove` lines 51-84: the five-round pipeline with the transcript
challenges drawn between rounds. -/
def proveParts {F : Type} [Field F] [DecidableEq F] {G : Type}
    (P : Prover F G) (w : Witness) : Except PErr (Parts F G) := do
  let PI ← computePI P w
  let r1 ← round_1 P w PI
  let A := r1.1
  let B := r1.2.1
  let C := r1.2.2.1
  let m1 := r1.2.2.2
  let bg := P.tr1 m1
  let r2 ← round_2 P bg.1 bg.2 A B C
  let Z := r2.1
  let m2 := r2.2
  let af := P.tr2 m1 m2
  let r3 ← round_3 P bg.1 bg.2 af.1 af.2 A B C PI Z
  let m3 := r3.2
  let zeta := P.tr3 m1 m2 m3
  let m4 := round_4 P zeta A B C Z
  let v := P.tr4 m1 m2 m3 m4
  let r5 ← round_5 P bg.1 bg.2 af.1 af.2 zeta v PI r3.1 m4
  Except.ok ⟨PI, A, B, C, bg.1, bg.2, Z, af.1, af.2, r3.1, zeta, m4, v, r5.1,
    m1, m2, r3.2, r5.2⟩

/-- Source `prove`: the returned proof object. -/
def prove {F : Type} [Field F] [DecidableEq F] {G : Type}
    (P : Prover F G) (w : Witness) : Except PErr (Proof F G) :=
  (proveParts P w).map (fun d => ⟨d.m1, d.m2, d.m3, d.m4, d.m5⟩)

/-- The mutable attribute store of the `Prover` object: every `self.*` slot
assigned during `prove` (a `none` models an attribute not yet set). -/
structure ProverObj (F G : Type) where
  PI : Option (Poly F) := none
  A : Option (Poly F) := none
  B : Option (Poly F) := none
  C : Option (Poly F) := none
  beta : Option F := none
  gamma : Option F := none
  Z : Option (Poly F) := none
  alpha : Option F := none
  fft_cofactor : Option F := none
  roots_of_unity : Option (List F) := none
  A_expanded : Option (Poly F) := none
  B_expanded : Option (Poly F) := none
  C_expanded : Option (Poly F) := none
  PI_expanded : Option (Poly F) := none
  QL_expanded : Option (Poly F) := none
  QR_expanded : Option (Poly F) := none
  QM_expanded : Option (Poly F) := none
  QO_expanded : Option (Poly F) := none
  QC_expanded : Option (Poly F) := none
  Z_expanded : Option (Poly F) := none
  Z_W_expanded : Option (Poly F) := none
  S1_expanded : Option (Poly F) := none
  S2_expanded : Option (Poly F) := none
  S3_expanded : Option (Poly F) := none
  Z_H : Option (Poly F) := none
  L0 : Option (Poly F) := none
  L0_expanded : Option (Poly F) := none
  roots_of_unity_polynomial : Option (Poly F) := none
  gates : Option (Poly F) := none
  permutation_grand_product : Option (Poly F) := none
  QUOT_expanded : Option (Poly F) := none
  QUOT_coefficients : Option (Poly F) := none
  T1 : Option (Poly F) := none
  T2 : Option (Poly F) := none
  T3 : Option (Poly F) := none
  zeta : Option F := none
  a_eval : Option F := none
  b_eval : Option F := none
  c_eval : Option F := none
  s1_eval : Option F := none
  s2_eval : Option F := none
  z_shifted_eval : Option F := none
  v : Option F := none
  L0_eval : Option F := none
  Z_H_eval : Option F := none
  T1_expanded : Option (Poly F) := none
  T2_expanded : Option (Poly F) := none
  T3_expanded : Option (Poly F) := none
  PI_eval : Option F := none
  permutation : Option (Poly F) := none
  T_argument : Option (Poly F) := none
  R_argument : Option (Poly F) := none
  R : Option (Poly F) := none
  R_commit : Option G := none
  quarter_roots : Option (Poly F) := none
  root_of_unity : Option F := none
  W_Z_argument : Option (Poly F) := none
  W_z : Option (Poly F) := none
  W_z_1 : Option G := none
  W_zw_argument : Option (Poly F) := none
  W_zw : Option (Poly F) := none
  W_zw_1 : Option G := none
deriving DecidableEq

/-- The prover object before any `prove` call: no attribute set. -/
def emptyObj {F G : Type} : ProverObj F G := {}

/-- The attribute writes of one successful `prove` call applied to the object.
Every slot is assigned during a successful run, so the incoming object is
fully overwritten; `gates` and `permutation_grand_product` are each written by
Round 3 and then overwritten by Round 5, so the Round 5 values survive. -/
def writeAttrs {F G : Type} (_o : ProverObj F G) (d : Parts F G) : ProverObj F G :=
  { PI := some d.PI, A := some d.A, B := some d.B, C := some d.C,
    beta := some d.beta, gamma := some d.gamma, Z := some d.Z,
    alpha := some d.alpha, fft_cofactor := some d.fft_cofactor,
    roots_of_unity := some d.r3.roots4,
    A_expanded := some d.r3.A_expanded, B_expanded := some d.r3.B_expanded,
    C_expanded := some d.r3.C_expanded, PI_expanded := some d.r3.PI_expanded,
    QL_expanded := some d.r3.QL_expanded, QR_expanded := some d.r3.QR_expanded,
    QM_expanded := some d.r3.QM_expanded, QO_expanded := some d.r3.QO_expanded,
    QC_expanded := some d.r3.QC_expanded, Z_expanded := some d.r3.Z_expanded,
    Z_W_expanded := some d.r3.Z_W_expanded, S1_expanded := some d.r3.S1_expanded,
    S2_expanded := some d.r3.S2_expanded, S3_expanded := some d.r3.S3_expanded,
    Z_H := some d.r3.Z_H, L0 := some d.r3.L0, L0_expanded := some d.r3.L0_expanded,
    roots_of_unity_polynomial := some d.r3.roots_poly,
    gates := some d.r5.gates,
    permutation_grand_product := some d.r5.permutation_grand_product,
    QUOT_expanded := some d.r3.QUOT_expanded,
    QUOT_coefficients := some d.r3.QUOT_coefficients,
    T1 := some d.r3.T1, T2 := some d.r3.T2, T3 := some d.r3.T3,
    zeta := some d.zeta, a_eval := some d.m4.a_eval, b_eval := some d.m4.b_eval,
    c_eval := some d.m4.c_eval, s1_eval := some d.m4.s1_eval,
    s2_eval := some d.m4.s2_eval, z_shifted_eval := some d.m4.z_shifted_eval,
    v := some d.v, L0_eval := some d.r5.L0_eval, Z_H_eval := some d.r5.Z_H_eval,
    T1_expanded := some d.r5.T1_expanded, T2_expanded := some d.r5.T2_expanded,
    T3_expanded := some d.r5.T3_expanded, PI_eval := some d.r5.PI_eval,
    permutation := some d.r5.permutation, T_argument := some d.r5.T_argument,
    R_argument := some d.r5.R_argument, R := some d.r5.R,
    R_commit := some d.r5.R_commit, quarter_roots := some d.r5.quarter_roots,
    root_of_unity := some d.r5.root_of_unity,
    W_Z_argument := some d.r5.W_Z_argument, W_z := some d.r5.W_z,
    W_z_1 := some d.r5.W_z_1, W_zw_argument := some d.r5.W_zw_argument,
    W_zw := some d.r5.W_zw, W_zw_1 := some d.r5.W_zw_1 }

/-- A `prove` call as seen through the prover object: on success it returns
the mutated object together with the proof.  Attribute reads inside the rounds
are modelled by direct value threading, which is valid because in the source
every `self.*` read during `prove` follows its assignment in the same call. -/
def prove_st {F : Type} [Field F] [DecidableEq F] {G : Type} (P : Prover F G)
    (o : ProverObj F G) (w : Witness) :
    Except PErr (ProverObj F G × Proof F G) :=
  (proveParts P w).map
    (fun d => (writeAttrs o d, ⟨d.m1, d.m2, d.m3, d.m4, d.m5⟩))

/-- The field with 13 elements, wrapping `Fin 13`, with all operations
(including inversion, implemented as the power `a ^ 11`) given by
kernel-reducible functions so that concrete prover runs can be evaluated. -/
structure F13 where
  val : Fin 13
deriving DecidableEq, Repr

instance : Fintype F13 :=
  Fintype.ofEquiv (Fin 13) ⟨F13.mk, F13.val, fun _ => rfl, fun _ => rfl⟩

instance : Zero F13 := ⟨⟨0⟩⟩

instance : One F13 := ⟨⟨1⟩⟩

instance : Add F13 := ⟨fun a b => ⟨a.val + b.val⟩⟩

instance : Mul F13 := ⟨fun a b => ⟨a.val * b.val⟩⟩

instance : Neg F13 := ⟨fun a => ⟨-a.val⟩⟩

instance : Inv F13 := ⟨fun a => ⟨a.val ^ 11⟩⟩

instance : AddCommGroup F13 where
  add := (· + ·)
  zero := 0
  neg := Neg.neg
  nsmul := nsmulRec
  zsmul := zsmulRec
  add_assoc := fun ⟨a⟩ ⟨b⟩ ⟨c⟩ => congrArg F13.mk (add_assoc a b c)
  zero_add := fun ⟨a⟩ => congrArg F13.mk (zero_add a)
  add_zero := fun ⟨a⟩ => congrArg F13.mk (add_zero a)
  add_comm := fun ⟨a⟩ ⟨b⟩ => congrArg F13.mk (add_comm a b)
  neg_add_cancel := fun ⟨a⟩ => congrArg F13.mk (neg_add_cancel a)

instance : CommRing F13 where
  __ := (inferInstance : AddCommGroup F13)
  mul := (· * ·)
  one := 1
  npow := npowRec
  mul_assoc := fun ⟨a⟩ ⟨b⟩ ⟨c⟩ => congrArg F13.mk (mul_assoc a b c)
  one_mul := fun ⟨a⟩ => congrArg F13.mk (one_mul a)
  mul_one := fun ⟨a⟩ => congrArg F13.mk (mul_one a)
  left_distrib := fun ⟨a⟩ ⟨b⟩ ⟨c⟩ => congrArg F13.mk (left_distrib a b c)
  right_distrib := fun ⟨a⟩ ⟨b⟩ ⟨c⟩ => congrArg F13.mk (right_distrib a b c)
  zero_mul := fun ⟨a⟩ => congrArg F13.mk (zero_mul a)
  mul_zero := fun ⟨a⟩ => congrArg F13.mk (mul_zero a)
  mul_comm := fun ⟨a⟩ ⟨b⟩ => congrArg F13.mk (mul_comm a b)

instance : Field F13 where
  __ := (inferInstance : CommRing F13)
  inv := Inv.inv
  zpow := zpowRec
  exists_pair_ne := ⟨⟨0⟩, ⟨1⟩, by decide⟩
  mul_inv_cancel := by decide
  inv_zero := by decide
  nnqsmul := _
  qsmul := _

/-- Concrete witness assigning `0` to every variable (and to the zero wire). -/
def wAll0 : Witness := fun _ => some 0

/-- Concrete one-gate prover over `F13` (`n = 1`, all selectors zero, identity
permutation, no public inputs): `rootOf 1 = 1`, `rootOf 4 = 5` (a primitive
fourth root of unity mod 13), challenges `beta = gamma = alpha = v = 1`, coset
offset `h = 2`, opening point `zeta = 4`. -/
def cfg13 : Prover F13 Unit where
  group_order := 1
  commit := fun _ => ()
  wires := [⟨none, none, none⟩]
  public_vars := []
  pk :=
    ⟨⟨[⟨0⟩], Basis.LAGRANGE⟩, ⟨[⟨0⟩], Basis.LAGRANGE⟩, ⟨[⟨0⟩], Basis.LAGRANGE⟩,
      ⟨[⟨0⟩], Basis.LAGRANGE⟩, ⟨[⟨0⟩], Basis.LAGRANGE⟩,
      ⟨[⟨1⟩], Basis.LAGRANGE⟩, ⟨[⟨2⟩], Basis.LAGRANGE⟩, ⟨[⟨3⟩], Basis.LAGRANGE⟩⟩
  rootOf := fun m => if m = 4 then ⟨5⟩ else ⟨1⟩
  tr1 := fun _ => (⟨1⟩, ⟨1⟩)
  tr2 := fun _ _ => (⟨1⟩, ⟨2⟩)
  tr3 := fun _ _ _ => ⟨4⟩
  tr4 := fun _ _ _ _ => ⟨1⟩

/-- Variant of `cfg13` with a different `QL` selector, a different `S1`
permutation polynomial, and a public input; the wire map is unchanged. -/
def cfg13b : Prover F13 Unit where
  group_order := 1
  commit := fun _ => ()
  wires := [⟨none, none, none⟩]
  public_vars := ["x"]
  pk :=
    ⟨⟨[⟨1⟩], Basis.LAGRANGE⟩, ⟨[⟨0⟩], Basis.LAGRANGE⟩, ⟨[⟨0⟩], Basis.LAGRANGE⟩,
      ⟨[⟨0⟩], Basis.LAGRANGE⟩, ⟨[⟨0⟩], Basis.LAGRANGE⟩,
      ⟨[⟨5⟩], Basis.LAGRANGE⟩, ⟨[⟨2⟩], Basis.LAGRANGE⟩, ⟨[⟨3⟩], Basis.LAGRANGE⟩⟩
  rootOf := fun m => if m = 4 then ⟨5⟩ else ⟨1⟩
  tr1 := fun _ => (⟨1⟩, ⟨1⟩)
  tr2 := fun _ _ => (⟨1⟩, ⟨2⟩)
  tr3 := fun _ _ _ => ⟨4⟩
  tr4 := fun _ _ _ _ => ⟨1⟩

/-- Concrete witness with a pre-existing nonzero entry at the key `none`. -/
def wNone5 : Witness := fun k => if k = none then some 5 else some 0

/-- A polynomial of the Lagrange basis with a prescribed size. -/
def shaped {F : Type} (p : Poly F) (n : Nat) : Prop :=
  p.basis = Basis.LAGRANGE ∧ p.values.length = n

instance {F : Type} (p : Poly F) (n : Nat) : Decidable (shaped p n) :=
  inferInstanceAs (Decidable (And _ _))

/-- A primitive `m`-th root of unity, phrased with a decidable bounded
quantifier so that concrete instances can be checked by evaluation. -/
def PrimRoot {F : Type} [Field F] (z : F) (m : Nat) : Prop :=
  z ^ m = 1 ∧ ∀ i, i < m → 0 < i → z ^ i ≠ 1

instance {F : Type} [Field F] [DecidableEq F] (z : F) (m : Nat) :
    Decidable (PrimRoot z m) :=
  inferInstanceAs (Decidable (z ^ m = 1 ∧ ∀ i, i < m → 0 < i → z ^ i ≠ 1))

/-- Degree bound predicate: every monomial coefficient from `m` on is zero. -/
def degLT {F : Type} [Field F] (p : Polynomial F) (m : Nat) : Prop :=
  ∀ j, m ≤ j → p.coeff j = 0

instance {F : Type} : Inhabited (Poly F) :=
  ⟨⟨[], Basis.LAGRANGE⟩⟩

instance {F : Type} : Inhabited (R3Data F) :=
  ⟨⟨[], default, default, default, default, default, default, default, default,
    default, default, default, default, default, default, default, default,
    default, default, default, default, default, default, default, default,
    default⟩⟩

/-- The monomial polynomial underlying a Lagrange value vector: coefficients
given by the inverse transform. -/
noncomputable def interpPoly {F : Type} [Field F] (m : Nat) (mu : F)
    (vals : List F) : Polynomial F :=
  ∑ k ∈ Finset.range m, Polynomial.C ((idftL m mu vals).getD k 0) *
    Polynomial.X ^ k

/-- Value at index `i` of the numerator `GATES * Z_H + PERM * Z_H` of the
Round 3 quotient, written over the coset-expanded vectors exactly as
`round_3` combines them pointwise. -/
def quotNumerator {F : Type} [Field F] {G : Type} (P : Prover F G)
    (beta gamma alpha h : F) (A B C PI Z : Poly F) (i : Nat) : F :=
  let n := P.group_order
  let x := P.rootOf (4 * n) ^ i * h
  let vA := (to_coset P.rootOf h A).values.getD i 0
  let vB := (to_coset P.rootOf h B).values.getD i 0
  let vC := (to_coset P.rootOf h C).values.getD i 0
  let vPI := (to_coset P.rootOf h PI).values.getD i 0
  let vQL := (to_coset P.rootOf h P.pk.QL).values.getD i 0
  let vQR := (to_coset P.rootOf h P.pk.QR).values.getD i 0
  let vQM := (to_coset P.rootOf h P.pk.QM).values.getD i 0
  let vQO := (to_coset P.rootOf h P.pk.QO).values.getD i 0
  let vQC := (to_coset P.rootOf h P.pk.QC).values.getD i 0
  let vZ := (to_coset P.rootOf h Z).values.getD i 0
  let vZW := (to_coset P.rootOf h (pshift Z 1)).values.getD i 0
  let vS1 := (to_coset P.rootOf h P.pk.S1).values.getD i 0
  let vS2 := (to_coset P.rootOf h P.pk.S2).values.getD i 0
  let vS3 := (to_coset P.rootOf h P.pk.S3).values.getD i 0
  let vL0 := (to_coset P.rootOf h (L0_of n)).values.getD i 0
  (vA * vQL + vB * vQR + vA * vB * vQM + vC * vQO + vPI + vQC) +
    (alpha * (rlc beta gamma vA x * rlc beta gamma vB (2 * x) *
        rlc beta gamma vC (3 * x) * vZ) -
      alpha * (rlc beta gamma vA vS1 * rlc beta gamma vB vS2 *
        rlc beta gamma vC vS3 * vZW) +
      alpha * alpha * ((vZ - 1) * vL0))

/-- The numerator of the Round 3 quotient as an abstract polynomial, built
from the interpolants of the size-`n` Lagrange vectors entering Round 3. -/
noncomputable def numerPoly {F : Type} [Field F] {G : Type} (P : Prover F G)
    (beta gamma alpha : F) (A B C PI Z : Poly F) : Polynomial F :=
  let n := P.group_order
  let om := P.rootOf n
  let pA := interpPoly n om A.values
  let pB := interpPoly n om B.values
  let pC := interpPoly n om C.values
  let pPI := interpPoly n om PI.values
  let pQL := interpPoly n om P.pk.QL.values
  let pQR := interpPoly n om P.pk.QR.values
  let pQM := interpPoly n om P.pk.QM.values
  let pQO := interpPoly n om P.pk.QO.values
  let pQC := interpPoly n om P.pk.QC.values
  let pZ := interpPoly n om Z.values
  let pZW := interpPoly n om (pshift Z 1).values
  let pS1 := interpPoly n om P.pk.S1.values
  let pS2 := interpPoly n om P.pk.S2.values
  let pS3 := interpPoly n om P.pk.S3.values
  let pL0 := interpPoly n om (L0_of n).values
  (pA * pQL + pB * pQR + pA * pB * pQM + pC * pQO + pPI + pQC) +
    (Polynomial.C alpha *
        ((pA + Polynomial.C beta * Polynomial.X + Polynomial.C gamma) *
          (pB + Polynomial.C (2 * beta) * Polynomial.X + Polynomial.C gamma) *
          (pC + Polynomial.C (3 * beta) * Polynomial.X + Polynomial.C gamma) *
          pZ) -
      Polynomial.C alpha *
        ((pA + Polynomial.C beta * pS1 + Polynomial.C gamma) *
          (pB + Polynomial.C beta * pS2 + Polynomial.C gamma) *
          (pC + Polynomial.C beta * pS3 + Polynomial.C gamma) *
          pZW) +
      Polynomial.C (alpha * alpha) * ((pZ - Polynomial.C 1) * pL0))

/-- Concrete all-zero one-entry Lagrange polynomial over `F13`. -/
def pa13 : Poly F13 := ⟨[⟨0⟩], Basis.LAGRANGE⟩

/-- Concrete grand product `Z` for `cfg13` with `beta = 1`, `gamma = 2`. -/
def pz13 : Poly F13 := ⟨[⟨1⟩], Basis.LAGRANGE⟩

/-- The Round 3 data of a concrete completing run of `cfg13`. -/
def d13 : R3Data F13 :=
  (round_3_core cfg13 ⟨1⟩ ⟨2⟩ ⟨1⟩ ⟨2⟩ pa13 pa13 pa13 pa13 pz13).toOption.getD
    default

/-- Value at index `i` of the Round 5 linearization vector `R_argument`,
written over the stored Round 3 vectors exactly as `round_5` combines them
pointwise. -/
def r5Numerator {F : Type} [Field F] [DecidableEq F] {G : Type}
    (P : Prover F G) (beta gamma alpha h zeta : F) (PI : Poly F)
    (d : R3Data F) (m4 : Message4 F) (i : Nat) : F :=
  let n := P.group_order
  let L0_eval := barycentric_eval P.rootOf d.L0 zeta
  let PI_eval := barycentric_eval P.rootOf PI zeta
  let vQL := d.QL_expanded.values.getD i 0
  let vQR := d.QR_expanded.values.getD i 0
  let vQM := d.QM_expanded.values.getD i 0
  let vQO := d.QO_expanded.values.getD i 0
  let vQC := d.QC_expanded.values.getD i 0
  let vZ := d.Z_expanded.values.getD i 0
  let vS3 := d.S3_expanded.values.getD i 0
  let vT1 := (to_coset P.rootOf h d.T1).values.getD i 0
  let vT2 := (to_coset P.rootOf h d.T2).values.getD i 0
  let vT3 := (to_coset P.rootOf h d.T3).values.getD i 0
  (vQL * m4.a_eval + vQR * m4.b_eval + vQM * m4.a_eval * m4.b_eval +
      vQO * m4.c_eval + PI_eval + vQC) +
    alpha * (vZ * (rlc beta gamma m4.a_eval zeta *
        rlc beta gamma m4.b_eval (2 * zeta) *
        rlc beta gamma m4.c_eval (3 * zeta)) -
      (m4.c_eval + vS3 * beta + gamma) * rlc beta gamma m4.a_eval m4.s1_eval *
        rlc beta gamma m4.b_eval m4.s2_eval * m4.z_shifted_eval) +
    alpha ^ 2 * ((vZ - 1) * L0_eval) -
    (vT1 + vT2 * zeta ^ n + vT3 * zeta ^ (2 * n)) * (zeta ^ n - 1)

instance {F : Type} [Field F] {G : Type} [Inhabited G] :
    Inhabited (R5Data F G) :=
  ⟨⟨0, 0, default, default, default, 0, default, default, default, default,
    default, default, default, default, 0, default, default, default,
    default, default, default⟩⟩

/-- Round 4 message of the concrete completing run of `cfg13`. -/
def m4c : Message4 F13 := round_4 cfg13 ⟨4⟩ pa13 pa13 pa13 pz13

/-- The Round 5 data of the concrete completing run of `cfg13`. -/
def d5c : R5Data F13 Unit :=
  (round_5_core cfg13 ⟨1⟩ ⟨2⟩ ⟨1⟩ ⟨2⟩ ⟨4⟩ ⟨1⟩ pa13 d13 m4c).toOption.getD
    default

section Lists

theorem getD_set_self {α : Type} (d a : α) :
    ∀ (l : List α) (i : Nat), i < l.length → (l.set i a).getD i d = a
  | [], i, h => absurd h (by simp)
  | _ :: _, 0, _ => rfl
  | x :: l, i + 1, h =>
      getD_set_self d a l i (by simpa using h)

theorem getD_set_ne {α : Type} (d a : α) :
    ∀ (l : List α) (i j : Nat), i ≠ j → (l.set i a).getD j d = l.getD j d
  | [], _, _, _ => rfl
  | _ :: _, 0, 0, h => absurd rfl h
  | _ :: _, 0, _ + 1, _ => rfl
  | _ :: _, _ + 1, 0, _ => rfl
  | _ :: l, i + 1, j + 1, h =>
      getD_set_ne d a l i j (fun hc => h (by rw [hc]))

end Lists

section SetVals

variable {F : Type} [Field F]

theorem setValsAux_len (w : Witness) (gs : List GateWires) :
    ∀ (i : Nat) (acc r : List F × List F × List F),
      setValsAux w gs i acc = Except.ok r →
      r.1.length = acc.1.length ∧ r.2.1.length = acc.2.1.length ∧
        r.2.2.length = acc.2.2.length := by
  induction gs with
  | nil =>
      intro i acc r h
      simp only [setValsAux] at h
      cases h
      exact ⟨rfl, rfl, rfl⟩
  | cons g gs ih =>
      intro i acc r h
      simp only [setValsAux, bind, Except.bind] at h
      cases hA : lookupW (F := F) w g.L with
      | error e => rw [hA] at h; simp at h
      | ok a =>
          rw [hA] at h
          cases hB : lookupW (F := F) w g.R with
          | error e => rw [hB] at h; simp at h
          | ok b =>
              rw [hB] at h
              cases hC : lookupW (F := F) w g.O with
              | error e => rw [hC] at h; simp at h
              | ok c =>
                  rw [hC] at h
                  have := ih (i + 1) _ r h
                  simpa [List.length_set] using this

theorem setValsAux_preserve (w : Witness) (gs : List GateWires) :
    ∀ (i : Nat) (acc r : List F × List F × List F) (m : Nat),
      setValsAux w gs i acc = Except.ok r → m < i →
      r.1.getD m 0 = acc.1.getD m 0 ∧ r.2.1.getD m 0 = acc.2.1.getD m 0 ∧
        r.2.2.getD m 0 = acc.2.2.getD m 0 := by
  induction gs with
  | nil =>
      intro i acc r m h _
      simp only [setValsAux] at h
      cases h
      exact ⟨rfl, rfl, rfl⟩
  | cons g gs ih =>
      intro i acc r m h hm
      simp only [setValsAux, bind, Except.bind] at h
      cases hA : lookupW (F := F) w g.L with
      | error e => rw [hA] at h; simp at h
      | ok a =>
          rw [hA] at h
          cases hB : lookupW (F := F) w g.R with
          | error e => rw [hB] at h; simp at h
          | ok b =>
              rw [hB] at h
              cases hC : lookupW (F := F) w g.O with
              | error e => rw [hC] at h; simp at h
              | ok c =>
                  rw [hC] at h
                  have hrec := ih (i + 1) _ r m h (by omega)
                  have hne : i ≠ m := by omega
                  refine ⟨?_, ?_, ?_⟩
                  · rw [hrec.1]; exact getD_set_ne 0 a _ i m hne
                  · rw [hrec.2.1]; exact getD_set_ne 0 b _ i m hne
                  · rw [hrec.2.2]; exact getD_set_ne 0 c _ i m hne

theorem setValsAux_getD (w : Witness) (gs : List GateWires) :
    ∀ (i : Nat) (acc r : List F × List F × List F) (j : Nat) (g : GateWires),
      setValsAux w gs i acc = Except.ok r → gs.get? j = some g →
      i + j < acc.1.length → i + j < acc.2.1.length → i + j < acc.2.2.length →
      ∃ a b c, lookupW w g.L = Except.ok a ∧ lookupW w g.R = Except.ok b ∧
        lookupW w g.O = Except.ok c ∧
        r.1.getD (i + j) 0 = a ∧ r.2.1.getD (i + j) 0 = b ∧
          r.2.2.getD (i + j) 0 = c := by
  induction gs with
  | nil => intro i acc r j g _ hg; simp at hg
  | cons g0 gs ih =>
      intro i acc r j g h hg h1 h2 h3
      simp only [setValsAux, bind, Except.bind] at h
      cases hA : lookupW (F := F) w g0.L with
      | error e => rw [hA] at h; simp at h
      | ok a =>
          rw [hA] at h
          cases hB : lookupW (F := F) w g0.R with
          | error e => rw [hB] at h; simp at h
          | ok b =>
              rw [hB] at h
              cases hC : lookupW (F := F) w g0.O with
              | error e => rw [hC] at h; simp at h
              | ok c =>
                  rw [hC] at h
                  cases j with
                  | zero =>
                      cases hg
                      have hpres := setValsAux_preserve w gs (i + 1) _ r i h
                        (by omega)
                      refine ⟨a, b, c, hA, hB, hC, ?_, ?_, ?_⟩
                      · rw [Nat.add_zero, hpres.1]
                        exact getD_set_self 0 a _ i (by simpa using h1)
                      · rw [Nat.add_zero, hpres.2.1]
                        exact getD_set_self 0 b _ i (by simpa using h2)
                      · rw [Nat.add_zero, hpres.2.2]
                        exact getD_set_self 0 c _ i (by simpa using h3)
                  | succ j =>
                      have hidx : i + (j + 1) = (i + 1) + j := by omega
                      rw [hidx]
                      exact ih (i + 1) _ r j g h (by simpa using hg)
                        (by simpa [List.length_set] using by omega : _)
                        (by simp only [List.length_set]; omega)
                        (by simp only [List.length_set]; omega)

end SetVals

section ExceptLemmas

theorem bind_ok_iff {e a b : Type} (x : Except e a) (f : a → Except e b) (y : b) :
    (x >>= f) = Except.ok y ↔ ∃ v, x = Except.ok v ∧ f v = Except.ok y := by
  cases x with
  | error u =>
      constructor
      · intro h; exact Except.noConfusion h
      · rintro ⟨v, hv, _⟩; exact Except.noConfusion hv
  | ok v =>
      constructor
      · intro h; exact ⟨v, rfl, h⟩
      · rintro ⟨v1, hv, hf⟩; cases hv; exact hf

theorem bind_err_ne {e a b : Type} (x : Except e a) (f : a → Except e b) (u : e)
    (hx : x ≠ Except.error u) (hf : ∀ v, f v ≠ Except.error u) :
    (x >>= f) ≠ Except.error u := by
  cases x with
  | error v =>
      intro h
      rw [show (Except.error v >>= f) = (Except.error v : Except e b) from rfl] at h
      exact hx (congrArg Except.error (Except.error.inj h))
  | ok v => exact hf v

theorem ite_ok_elim {e a : Type} {c : Prop} [Decidable c] {x y : a} {u : e}
    (h : (if c then Except.ok x else Except.error u) = Except.ok y) :
    c ∧ x = y := by
  split at h
  · exact ⟨by assumption, Except.ok.inj h⟩
  · exact Except.noConfusion h

theorem ite_ok_intro {e a : Type} {c : Prop} [Decidable c] {x : a} {u : e}
    (hc : c) : (if c then Except.ok x else Except.error u) = Except.ok x :=
  if_pos hc

theorem ok_bind {e a b : Type} (v : a) (f : a → Except e b) :
    (Except.ok v >>= f) = f v := rfl

theorem error_bind {e a b : Type} (u : e) (f : a → Except e b) :
    ((Except.error u : Except e a) >>= f) = Except.error u := rfl

end ExceptLemmas

theorem getD_range_map {α : Type} (f : Nat → α) (m i : Nat) (d : α) (h : i < m) :
    ((List.range m).map f).getD i d = f i := by
  have hlen : i < ((List.range m).map f).length := by simpa using h
  rw [List.getD_eq_getElem _ _ hlen]
  simp

section PolyOps

variable {F : Type} [Field F]

@[simp] theorem to_coset_basis (r : Nat → F) (h : F) (p : Poly F) :
    (to_coset r h p).basis = Basis.LAGRANGE := rfl

@[simp] theorem to_coset_length (r : Nat → F) (h : F) (p : Poly F) :
    (to_coset r h p).values.length = 4 * p.values.length := by
  simp [to_coset, dftL]

@[simp] theorem to_coeffs_basis (r : Nat → F) (h : F) (p : Poly F) :
    (to_coeffs r h p).basis = Basis.MONOMIAL := rfl

@[simp] theorem to_coeffs_length (r : Nat → F) (h : F) (p : Poly F) :
    (to_coeffs r h p).values.length = p.values.length := by
  simp [to_coeffs, idftL]

@[simp] theorem pfft_basis (r : Nat → F) (p : Poly F) :
    (pfft r p).basis = Basis.LAGRANGE := rfl

@[simp] theorem pfft_length (r : Nat → F) (p : Poly F) :
    (pfft r p).values.length = p.values.length := by
  simp [pfft, dftL]

@[simp] theorem pmulC_basis (p : Poly F) (c : F) : (pmulC p c).basis = p.basis :=
  rfl

@[simp] theorem pmulC_length (p : Poly F) (c : F) :
    (pmulC p c).values.length = p.values.length := by
  simp [pmulC]

@[simp] theorem paddC_basis (p : Poly F) (c : F) : (paddC p c).basis = p.basis :=
  rfl

@[simp] theorem paddC_length (p : Poly F) (c : F) :
    (paddC p c).values.length = p.values.length := by
  simp [paddC]

@[simp] theorem psubC_basis (p : Poly F) (c : F) : (psubC p c).basis = p.basis :=
  rfl

@[simp] theorem psubC_length (p : Poly F) (c : F) :
    (psubC p c).values.length = p.values.length := by
  simp [psubC]

@[simp] theorem rootsOfUnity_length (om : F) (m : Nat) :
    (rootsOfUnity om m).length = m := by
  simp [rootsOfUnity]

@[simp] theorem Z_H_of_basis (n : Nat) (h : F) (l : List F) :
    (Z_H_of n h l).basis = Basis.LAGRANGE := rfl

@[simp] theorem Z_H_of_length (n : Nat) (h : F) (l : List F) :
    (Z_H_of n h l).values.length = l.length := by
  simp [Z_H_of]

@[simp] theorem pshift_basis (p : Poly F) (k : Nat) :
    (pshift p k).basis = p.basis := rfl

@[simp] theorem pshift_length (p : Poly F) (k : Nat) :
    (pshift p k).values.length = p.values.length := by
  simp only [pshift, List.rotateLeft]
  split
  · rfl
  · have hlt : k % p.values.length < p.values.length := Nat.mod_lt _ (by omega)
    simp
    omega

@[simp] theorem L0_of_basis (n : Nat) : (L0_of (F := F) n).basis = Basis.LAGRANGE :=
  rfl

theorem L0_of_length (n : Nat) (hn : 0 < n) :
    (L0_of (F := F) n).values.length = n := by
  simp [L0_of]
  omega

theorem pbinop_ok (f : F → F → F) (p q : Poly F) (hb : p.basis = q.basis)
    (hl : p.values.length = q.values.length) :
    pbinop f p q = Except.ok ⟨List.zipWith f p.values q.values, p.basis⟩ := by
  rw [pbinop, if_pos ⟨hb, hl⟩]

theorem pbinop_okL (f : F → F → F) (p q : Poly F) {n : Nat}
    (hp : shaped p n) (hq : shaped q n) :
    pbinop f p q =
        Except.ok ⟨List.zipWith f p.values q.values, Basis.LAGRANGE⟩ ∧
      shaped (⟨List.zipWith f p.values q.values, Basis.LAGRANGE⟩ : Poly F) n := by
  constructor
  · rw [pbinop_ok f p q (hp.1.trans hq.1.symm) (hp.2.trans hq.2.symm), hp.1]
  · exact ⟨rfl, by simp [List.length_zipWith, hp.2, hq.2]⟩

theorem getD_zipWith (f : F → F → F) (l1 l2 : List F) (i : Nat) (d : F)
    (h1 : i < l1.length) (h2 : i < l2.length) :
    (List.zipWith f l1 l2).getD i d = f (l1.getD i d) (l2.getD i d) := by
  rw [List.getD_eq_getElem _ _ (by simp [List.length_zipWith]; omega)]
  rw [List.getElem_zipWith]
  rw [List.getD_eq_getElem _ _ h1, List.getD_eq_getElem _ _ h2]

theorem eq_replicate_iff {α : Type} (l : List α) (n : Nat) (a : α)
    (hl : l.length = n) :
    l = List.replicate n a ↔ ∀ i, i < n → l.getD i a = a := by
  constructor
  · intro h i hi
    rw [h, List.getD_eq_getElem _ _ (by simpa using hi)]
    simp
  · intro h
    apply List.ext_getElem (by simpa using hl)
    intro i h1 h2
    have hget := h i (by omega)
    rw [List.getD_eq_getElem _ _ h1] at hget
    simpa using hget

theorem gateConstraint_ok {n : Nat}
    (pk : CommonPreprocessedInput F) (A B C PI : Poly F)
    (hA : shaped A n) (hB : shaped B n) (hC : shaped C n) (hPI : shaped PI n)
    (hQL : shaped pk.QL n) (hQR : shaped pk.QR n) (hQM : shaped pk.QM n)
    (hQO : shaped pk.QO n) (hQC : shaped pk.QC n) :
    ∃ l : List F,
      gateConstraint pk A B C PI = Except.ok ⟨l, Basis.LAGRANGE⟩ ∧
      l.length = n ∧
      ∀ i, i < n →
        l.getD i 0 =
          A.values.getD i 0 * pk.QL.values.getD i 0 +
              B.values.getD i 0 * pk.QR.values.getD i 0 +
              A.values.getD i 0 * B.values.getD i 0 * pk.QM.values.getD i 0 +
              C.values.getD i 0 * pk.QO.values.getD i 0 +
            PI.values.getD i 0 + pk.QC.values.getD i 0 := by
  obtain ⟨e1, s1⟩ := pbinop_okL (fun a b => a * b) A pk.QL hA hQL
  obtain ⟨e2, s2⟩ := pbinop_okL (fun a b => a * b) B pk.QR hB hQR
  obtain ⟨eAB, sAB⟩ := pbinop_okL (fun a b => a * b) A B hA hB
  obtain ⟨e3, s3⟩ := pbinop_okL (fun a b => a * b) _ pk.QM sAB hQM
  obtain ⟨e4, s4⟩ := pbinop_okL (fun a b => a * b) C pk.QO hC hQO
  obtain ⟨f1, t1⟩ := pbinop_okL (fun a b => a + b) _ _ s1 s2
  obtain ⟨f2, t2⟩ := pbinop_okL (fun a b => a + b) _ _ t1 s3
  obtain ⟨f3, t3⟩ := pbinop_okL (fun a b => a + b) _ _ t2 s4
  obtain ⟨f4, t4⟩ := pbinop_okL (fun a b => a + b) _ _ t3 hPI
  obtain ⟨f5, t5⟩ := pbinop_okL (fun a b => a + b) _ _ t4 hQC
  refine ⟨_, ?_, t5.2, ?_⟩
  · show gateConstraint pk A B C PI = _
    rw [gateConstraint]
    rw [show pmul A pk.QL = _ from e1, ok_bind]
    rw [show pmul B pk.QR = _ from e2, ok_bind]
    rw [show pmul A B = _ from eAB, ok_bind]
    rw [show pmul _ pk.QM = _ from e3, ok_bind]
    rw [show pmul C pk.QO = _ from e4, ok_bind]
    rw [show padd _ _ = _ from f1, ok_bind]
    rw [show padd _ _ = _ from f2, ok_bind]
    rw [show padd _ _ = _ from f3, ok_bind]
    rw [show padd _ _ = _ from f4, ok_bind]
    rw [show padd _ _ = _ from f5]
  · intro i hi
    rw [getD_zipWith _ _ _ _ _ (by simp only [List.length_zipWith, hA.2, hB.2, hC.2, hPI.2, hQL.2, hQR.2, hQM.2, hQO.2, hQC.2, Nat.min_self]; omega) (by simp only [List.length_zipWith, hA.2, hB.2, hC.2, hPI.2, hQL.2, hQR.2, hQM.2, hQO.2, hQC.2, Nat.min_self]; omega),
      getD_zipWith _ _ _ _ _ (by simp only [List.length_zipWith, hA.2, hB.2, hC.2, hPI.2, hQL.2, hQR.2, hQM.2, hQO.2, hQC.2, Nat.min_self]; omega) (by simp only [List.length_zipWith, hA.2, hB.2, hC.2, hPI.2, hQL.2, hQR.2, hQM.2, hQO.2, hQC.2, Nat.min_self]; omega),
      getD_zipWith _ _ _ _ _ (by simp only [List.length_zipWith, hA.2, hB.2, hC.2, hPI.2, hQL.2, hQR.2, hQM.2, hQO.2, hQC.2, Nat.min_self]; omega) (by simp only [List.length_zipWith, hA.2, hB.2, hC.2, hPI.2, hQL.2, hQR.2, hQM.2, hQO.2, hQC.2, Nat.min_self]; omega),
      getD_zipWith _ _ _ _ _ (by simp only [List.length_zipWith, hA.2, hB.2, hC.2, hPI.2, hQL.2, hQR.2, hQM.2, hQO.2, hQC.2, Nat.min_self]; omega) (by simp only [List.length_zipWith, hA.2, hB.2, hC.2, hPI.2, hQL.2, hQR.2, hQM.2, hQO.2, hQC.2, Nat.min_self]; omega),
      getD_zipWith _ _ _ _ _ (by simp only [List.length_zipWith, hA.2, hB.2, hC.2, hPI.2, hQL.2, hQR.2, hQM.2, hQO.2, hQC.2, Nat.min_self]; omega) (by simp only [List.length_zipWith, hA.2, hB.2, hC.2, hPI.2, hQL.2, hQR.2, hQM.2, hQO.2, hQC.2, Nat.min_self]; omega),
      getD_zipWith _ _ _ _ _ (by simp only [List.length_zipWith, hA.2, hB.2, hC.2, hPI.2, hQL.2, hQR.2, hQM.2, hQO.2, hQC.2, Nat.min_self]; omega) (by simp only [List.length_zipWith, hA.2, hB.2, hC.2, hPI.2, hQL.2, hQR.2, hQM.2, hQO.2, hQC.2, Nat.min_self]; omega),
      getD_zipWith _ _ _ _ _ (by simp only [List.length_zipWith, hA.2, hB.2, hC.2, hPI.2, hQL.2, hQR.2, hQM.2, hQO.2, hQC.2, Nat.min_self]; omega) (by simp only [List.length_zipWith, hA.2, hB.2, hC.2, hPI.2, hQL.2, hQR.2, hQM.2, hQO.2, hQC.2, Nat.min_self]; omega),
      getD_zipWith _ _ _ _ _ (by simp only [List.length_zipWith, hA.2, hB.2, hC.2, hPI.2, hQL.2, hQR.2, hQM.2, hQO.2, hQC.2, Nat.min_self]; omega) (by simp only [List.length_zipWith, hA.2, hB.2, hC.2, hPI.2, hQL.2, hQR.2, hQM.2, hQO.2, hQC.2, Nat.min_self]; omega),
      getD_zipWith _ _ _ _ _ (by simp only [List.length_zipWith, hA.2, hB.2, hC.2, hPI.2, hQL.2, hQR.2, hQM.2, hQO.2, hQC.2, Nat.min_self]; omega) (by simp only [List.length_zipWith, hA.2, hB.2, hC.2, hPI.2, hQL.2, hQR.2, hQM.2, hQO.2, hQC.2, Nat.min_self]; omega),
      getD_zipWith _ _ _ _ _ (by simp only [List.length_zipWith, hA.2, hB.2, hC.2, hPI.2, hQL.2, hQR.2, hQM.2, hQO.2, hQC.2, Nat.min_self]; omega) (by simp only [List.length_zipWith, hA.2, hB.2, hC.2, hPI.2, hQL.2, hQR.2, hQM.2, hQO.2, hQC.2, Nat.min_self]; omega)]

end PolyOps

/-- Claim C10: `round_1` inserts the key `None` with value `0` only when
`None` is absent from the witness mapping; a pre-existing `None` entry — even
one with a nonzero value — is left unchanged and is used as the wire value for
every gate wire named `None`. -/
theorem claim_C10 {F : Type} [Field F] {G : Type} (w : Witness) :
    (w none = none →
      insertNoneZero w none = some 0 ∧
        ∀ k : Option String, k ≠ none → insertNoneZero w k = w k) ∧
    (∀ v0 : Int, w none = some v0 →
      insertNoneZero w = w ∧
      ∀ (P : Prover F G) (Av Bv Cv : List F),
        setVals P.group_order (insertNoneZero w) P.wires = Except.ok (Av, Bv, Cv) →
        ∀ (i : Nat) (g : GateWires), P.wires.get? i = some g →
          i < P.group_order →
          (g.L = none → Av.getD i 0 = ((v0 : Int) : F)) ∧
          (g.R = none → Bv.getD i 0 = ((v0 : Int) : F)) ∧
          (g.O = none → Cv.getD i 0 = ((v0 : Int) : F))) := by
  constructor
  · intro hnone
    constructor
    · simp [insertNoneZero, hnone]
    · intro k hk
      simp [insertNoneZero, hnone, hk]
  · intro v0 hv0
    have hins : insertNoneZero w = w := by
      simp [insertNoneZero, hv0]
    refine ⟨hins, ?_⟩
    intro P Av Bv Cv hset i g hg hi
    have hlen := setValsAux_len (F := F) (insertNoneZero w) P.wires 0 _ _ hset
    simp only [List.length_replicate] at hlen
    obtain ⟨a, b, c, hA, hB, hC, ha, hb, hc⟩ :=
      setValsAux_getD (F := F) (insertNoneZero w) P.wires 0 _ _ i g hset hg
        (by simpa using hi) (by simpa using hi) (by simpa using hi)
    rw [hins] at hA hB hC
    refine ⟨?_, ?_, ?_⟩
    · intro hL
      rw [hL, lookupW, hv0] at hA
      cases hA
      simpa using ha
    · intro hR
      rw [hR, lookupW, hv0] at hB
      cases hB
      simpa using hb
    · intro hO
      rw [hO, lookupW, hv0] at hC
      cases hC
      simpa using hc

/-- Witness for C10 at a concrete input: the witness `wNone5` has a
pre-existing entry `5` at `None`; `round_1`'s preprocessing leaves it
unchanged, and on `cfg13` (whose single gate has all wires named `None`) the
wire value vectors pick up `5` at position `0`. -/
theorem claim_C10_witness :
    insertNoneZero wNone5 = wNone5 ∧
    ([(⟨5⟩ : F13)].getD 0 0 = ((5 : Int) : F13)) := by
  have h := (claim_C10 (F := F13) (G := Unit) wNone5).2 5 rfl
  have hset : setVals cfg13.group_order (insertNoneZero wNone5) cfg13.wires =
      Except.ok (([(⟨5⟩ : F13)], [(⟨5⟩ : F13)], [(⟨5⟩ : F13)]) :
        List F13 × List F13 × List F13) := by decide
  exact ⟨h.1,
    (h.2 cfg13 [(⟨5⟩ : F13)] [(⟨5⟩ : F13)] [(⟨5⟩ : F13)] hset 0
      ⟨none, none, none⟩ rfl (by decide)).1 rfl⟩

/-- Claim C6: two calls to `prove` with the same prover data and the same
witness produce proofs equal in all fifteen (flattened) fields; the transcript
challenge functions and `commit` are deterministic functions in the model. -/
theorem claim_C6 {F : Type} [Field F] [DecidableEq F] {G : Type}
    (P : Prover F G) (w1 w2 : Witness) (hw : w1 = w2) :
    (prove P w1).map Proof.flatten = (prove P w2).map Proof.flatten := by
  rw [hw]

/-- Witness for C6: the deterministic run on the concrete prover. -/
theorem claim_C6_witness :
    (prove cfg13 wAll0).map Proof.flatten = (prove cfg13 wAll0).map Proof.flatten :=
  claim_C6 cfg13 wAll0 wAll0 rfl

/-- Claim C1: Round 1 completes exactly when the `LAGRANGE(n)` polynomial
`A*QL + B*QR + (A*B)*QM + C*QO + PI + QC` is identically zero (its value at
every root of unity, i.e. at every Lagrange index `i`, is zero), where A, B, C
take the witness values of the gate wires and `PI` is the public-input
polynomial built by `prove`; a witness violating the identity at any index
makes the Round 1 assertion fail and `prove` aborts with an error, returning
no proof. -/
theorem claim_C1 {F : Type} [Field F] [DecidableEq F] {G : Type}
    (P : Prover F G) (w : Witness) (PI : Poly F) (Av Bv Cv : List F)
    (hPI : computePI P w = Except.ok PI)
    (hset : setVals P.group_order (insertNoneZero w) P.wires =
      Except.ok (Av, Bv, Cv))
    (hPIs : shaped PI P.group_order)
    (hQL : shaped P.pk.QL P.group_order) (hQR : shaped P.pk.QR P.group_order)
    (hQM : shaped P.pk.QM P.group_order) (hQO : shaped P.pk.QO P.group_order)
    (hQC : shaped P.pk.QC P.group_order) :
    ((∃ r, round_1 P w PI = Except.ok r) ↔
      ∀ i, i < P.group_order →
        Av.getD i 0 * P.pk.QL.values.getD i 0 +
            Bv.getD i 0 * P.pk.QR.values.getD i 0 +
            Av.getD i 0 * Bv.getD i 0 * P.pk.QM.values.getD i 0 +
            Cv.getD i 0 * P.pk.QO.values.getD i 0 +
          PI.values.getD i 0 + P.pk.QC.values.getD i 0 = 0) ∧
    (¬ (∀ i, i < P.group_order →
        Av.getD i 0 * P.pk.QL.values.getD i 0 +
            Bv.getD i 0 * P.pk.QR.values.getD i 0 +
            Av.getD i 0 * Bv.getD i 0 * P.pk.QM.values.getD i 0 +
            Cv.getD i 0 * P.pk.QO.values.getD i 0 +
          PI.values.getD i 0 + P.pk.QC.values.getD i 0 = 0) →
      prove P w = Except.error PErr.assertionFailed) := by
  have hlen := setValsAux_len (F := F) (insertNoneZero w) P.wires 0 _ _ hset
  simp only [List.length_replicate] at hlen
  have hA : shaped (⟨Av, Basis.LAGRANGE⟩ : Poly F) P.group_order :=
    ⟨rfl, hlen.1⟩
  have hB : shaped (⟨Bv, Basis.LAGRANGE⟩ : Poly F) P.group_order :=
    ⟨rfl, hlen.2.1⟩
  have hC : shaped (⟨Cv, Basis.LAGRANGE⟩ : Poly F) P.group_order :=
    ⟨rfl, hlen.2.2⟩
  obtain ⟨l, hgc, hlenl, hgetd⟩ :=
    gateConstraint_ok P.pk _ _ _ PI hA hB hC hPIs hQL hQR hQM hQO hQC
  have hr1 : round_1 P w PI =
      (if (⟨l, Basis.LAGRANGE⟩ : Poly F) = zeroPolyL P.group_order then
        Except.ok (⟨Av, Basis.LAGRANGE⟩, ⟨Bv, Basis.LAGRANGE⟩,
          ⟨Cv, Basis.LAGRANGE⟩,
          ⟨P.commit ⟨Av, Basis.LAGRANGE⟩, P.commit ⟨Bv, Basis.LAGRANGE⟩,
            P.commit ⟨Cv, Basis.LAGRANGE⟩⟩)
      else Except.error PErr.assertionFailed) := by
    rw [round_1, hset, ok_bind]
    dsimp only
    rw [hgc, ok_bind]
  have hzero : ((⟨l, Basis.LAGRANGE⟩ : Poly F) = zeroPolyL P.group_order) ↔
      (∀ i, i < P.group_order →
        Av.getD i 0 * P.pk.QL.values.getD i 0 +
            Bv.getD i 0 * P.pk.QR.values.getD i 0 +
            Av.getD i 0 * Bv.getD i 0 * P.pk.QM.values.getD i 0 +
            Cv.getD i 0 * P.pk.QO.values.getD i 0 +
          PI.values.getD i 0 + P.pk.QC.values.getD i 0 = 0) := by
    rw [zeroPolyL, Poly.mk.injEq]
    rw [show ((Basis.LAGRANGE = Basis.LAGRANGE) = True) by simp]
    rw [and_true, eq_replicate_iff l P.group_order 0 hlenl]
    constructor
    · intro hz i hi
      rw [← hgetd i hi]
      exact hz i hi
    · intro hz i hi
      rw [hgetd i hi]
      exact hz i hi
  constructor
  · rw [hr1]
    constructor
    · rintro ⟨r, hr⟩
      exact hzero.mp (ite_ok_elim hr).1
    · intro hid
      exact ⟨_, ite_ok_intro (hzero.mpr hid)⟩
  · intro hid
    have hr1e : round_1 P w PI = Except.error PErr.assertionFailed := by
      rw [hr1, if_neg (fun hc => hid (hzero.mp hc))]
    have hparts : proveParts P w = Except.error PErr.assertionFailed := by
      rw [proveParts, hPI, ok_bind, hr1e]
      rfl
    rw [prove, hparts]
    rfl

/-- Witness for C1 at the concrete prover: the all-zero witness satisfies the
all-zero-selector gate, so Round 1 completes, and the identity holds. -/
theorem claim_C1_witness :
    ((∃ r, round_1 cfg13 wAll0 ⟨[⟨0⟩], Basis.LAGRANGE⟩ = Except.ok r) ↔
      ∀ i, i < cfg13.group_order →
        ([(⟨0⟩ : F13)].getD i 0 * cfg13.pk.QL.values.getD i 0 +
            [(⟨0⟩ : F13)].getD i 0 * cfg13.pk.QR.values.getD i 0 +
            [(⟨0⟩ : F13)].getD i 0 * [(⟨0⟩ : F13)].getD i 0 *
              cfg13.pk.QM.values.getD i 0 +
            [(⟨0⟩ : F13)].getD i 0 * cfg13.pk.QO.values.getD i 0 +
          (⟨[⟨0⟩], Basis.LAGRANGE⟩ : Poly F13).values.getD i 0 +
          cfg13.pk.QC.values.getD i 0 = 0)) ∧
    (¬ (∀ i, i < cfg13.group_order →
        ([(⟨0⟩ : F13)].getD i 0 * cfg13.pk.QL.values.getD i 0 +
            [(⟨0⟩ : F13)].getD i 0 * cfg13.pk.QR.values.getD i 0 +
            [(⟨0⟩ : F13)].getD i 0 * [(⟨0⟩ : F13)].getD i 0 *
              cfg13.pk.QM.values.getD i 0 +
            [(⟨0⟩ : F13)].getD i 0 * cfg13.pk.QO.values.getD i 0 +
          (⟨[⟨0⟩], Basis.LAGRANGE⟩ : Poly F13).values.getD i 0 +
          cfg13.pk.QC.values.getD i 0 = 0)) →
      prove cfg13 wAll0 = Except.error PErr.assertionFailed) :=
  claim_C1 cfg13 wAll0 ⟨[⟨0⟩], Basis.LAGRANGE⟩ [⟨0⟩] [⟨0⟩] [⟨0⟩]
    (by decide) (by decide) (by decide) (by decide) (by decide) (by decide)
    (by decide) (by decide)

/-- Claim C2: the Round 2 accumulator satisfies `Z_0 = 1` and the stated
recurrence `Z_{i+1} = Z_i * (rlc(A_i, om^i) * rlc(B_i, 2 om^i) *
rlc(C_i, 3 om^i)) / (rlc(A_i, S1_i) * rlc(B_i, S2_i) * rlc(C_i, S3_i))`; on
success the final value `Z_n` was asserted equal to `1` and dropped, and the
committed polynomial `Z` is in `LAGRANGE(n)` with exactly the values
`Z_0 .. Z_{n-1}` and `Z.values[0] = 1`; if `Z_n` differs from `1`, Round 2
fails on its assertion and `prove` aborts with an error. -/
theorem claim_C2 {F : Type} [Field F] [DecidableEq F] {G : Type}
    (P : Prover F G) (beta gamma : F) (A B C : Poly F)
    (hn : 0 < P.group_order) :
    (round2acc P beta gamma A B C 0 = 1 ∧
      ∀ i, i < P.group_order →
        round2acc P beta gamma A B C (i + 1) =
          round2acc P beta gamma A B C i *
            ((rlc beta gamma (A.values.getD i 0) (P.rootOf P.group_order ^ i) *
                rlc beta gamma (B.values.getD i 0)
                  (2 * P.rootOf P.group_order ^ i) *
                rlc beta gamma (C.values.getD i 0)
                  (3 * P.rootOf P.group_order ^ i)) /
              (rlc beta gamma (A.values.getD i 0) (P.pk.S1.values.getD i 0) *
                rlc beta gamma (B.values.getD i 0) (P.pk.S2.values.getD i 0) *
                rlc beta gamma (C.values.getD i 0) (P.pk.S3.values.getD i 0)))) ∧
    (∀ (Z : Poly F) (mz : Message2 G),
      round_2 P beta gamma A B C = Except.ok (Z, mz) →
      Z.basis = Basis.LAGRANGE ∧
      Z.values =
        (List.range P.group_order).map (round2acc P beta gamma A B C) ∧
      Z.values.length = P.group_order ∧
      Z.values.getD 0 0 = 1 ∧
      round2acc P beta gamma A B C P.group_order = 1) ∧
    (round2acc P beta gamma A B C P.group_order ≠ 1 →
      round_2 P beta gamma A B C = Except.error PErr.assertionFailed ∧
      ∀ (w : Witness) (PI : Poly F) (m1 : Message1 G),
        computePI P w = Except.ok PI →
        round_1 P w PI = Except.ok (A, B, C, m1) →
        P.tr1 m1 = (beta, gamma) →
        prove P w = Except.error PErr.assertionFailed) := by
  refine ⟨⟨rfl, ?_⟩, ?_, ?_⟩
  · intro i hi
    show Zval beta gamma (rootsOfUnity (P.rootOf P.group_order) P.group_order)
        A.values B.values C.values P.pk.S1.values P.pk.S2.values P.pk.S3.values
        (i + 1) = _
    rw [Zval]
    rw [show (rootsOfUnity (P.rootOf P.group_order) P.group_order).getD i 0 =
        P.rootOf P.group_order ^ i from getD_range_map _ _ _ _ hi]
    rfl
  · intro Z mz h
    rw [round_2] at h
    split at h
    · split at h
      · cases h
        refine ⟨rfl, rfl, by simp, ?_, by assumption⟩
        rw [getD_range_map _ _ _ _ hn]
        rfl
      · exact Except.noConfusion h
    · exact Except.noConfusion h
  · intro hzn
    have hr2 : round_2 P beta gamma A B C = Except.error PErr.assertionFailed := by
      rw [round_2]
      exact if_neg hzn
    refine ⟨hr2, ?_⟩
    intro w PI m1 hPI hr1 htr
    have hparts : proveParts P w = Except.error PErr.assertionFailed := by
      rw [proveParts, hPI, ok_bind, hr1, ok_bind]
      dsimp only
      rw [htr]
      dsimp only
      rw [hr2]
      rfl
    rw [prove, hparts]
    rfl

/-- Witness for C2 at the concrete prover: the all-zero wire polynomials with
the identity permutation. -/
theorem claim_C2_witness :
    round2acc cfg13 ⟨1⟩ ⟨1⟩ ⟨[⟨0⟩], Basis.LAGRANGE⟩ ⟨[⟨0⟩], Basis.LAGRANGE⟩
        ⟨[⟨0⟩], Basis.LAGRANGE⟩ 0 = 1 ∧
      round2acc cfg13 ⟨1⟩ ⟨1⟩ ⟨[⟨0⟩], Basis.LAGRANGE⟩ ⟨[⟨0⟩], Basis.LAGRANGE⟩
        ⟨[⟨0⟩], Basis.LAGRANGE⟩ cfg13.group_order = 1 := by
  have h := claim_C2 (G := Unit) cfg13 ⟨1⟩ ⟨1⟩ ⟨[⟨0⟩], Basis.LAGRANGE⟩
    ⟨[⟨0⟩], Basis.LAGRANGE⟩ ⟨[⟨0⟩], Basis.LAGRANGE⟩ (by decide)
  exact ⟨h.1.1, (h.2.1 ⟨[⟨1⟩], Basis.LAGRANGE⟩ ⟨()⟩ (by decide)).2.2.2.2⟩

/-- Claim C4 counterexample: over `F13` with `n = 1` and the primitive fourth
root of unity `mu = 5`, the offset `h = 8` satisfies `h^n ≠ 1` and yet
`Z_H_expanded[1] = (mu^1 * h)^n - 1 = 40 - 1 = 0 (mod 13)`: the condition
`h^n ≠ 1` alone does not make `Z_H` nonzero everywhere on the coset. -/
theorem claim_C4_counterexample :
    (⟨5⟩ : F13) ^ 4 = 1 ∧ (⟨5⟩ : F13) ^ 2 ≠ 1 ∧
    ¬ (∀ h : F13, h ^ 1 ≠ 1 →
        ∀ x ∈ (Z_H_of 1 h (rootsOfUnity (⟨5⟩ : F13) (4 * 1))).values, x ≠ 0) := by
  refine ⟨by decide, by decide, ?_⟩
  intro hall
  exact hall ⟨8⟩ (by decide) 0 (by decide) rfl

/-- Claim C4 amended: if the coset offset satisfies `h^(4n) ≠ 1` (rather than
merely `h^n ≠ 1`), then every entry `Z_H_expanded[i] = (mu^i * h)^n - 1`, for
`mu` any `4n`-th root of unity, is nonzero, so the two pointwise divisions by
`Z_H` in `round_3` never divide by zero. -/
theorem claim_C4 {F : Type} [Field F] (n : Nat) (mu h : F)
    (hmu : mu ^ (4 * n) = 1) (hh : h ^ (4 * n) ≠ 1) :
    ∀ x ∈ (Z_H_of n h (rootsOfUnity mu (4 * n))).values, x ≠ 0 := by
  intro x hx
  rw [Z_H_of] at hx
  simp only [List.mem_map] at hx
  obtain ⟨r, hr, hxr⟩ := hx
  rw [rootsOfUnity] at hr
  simp only [List.mem_map, List.mem_range] at hr
  obtain ⟨i, hi, hri⟩ := hr
  rw [← hxr, ← hri]
  intro h0
  have h1 : (mu ^ i * h) ^ n = 1 := sub_eq_zero.mp h0
  apply hh
  calc h ^ (4 * n) = (mu ^ (4 * n)) ^ i * h ^ (4 * n) := by rw [hmu]; ring
    _ = ((mu ^ i * h) ^ n) ^ 4 := by ring
    _ = 1 := by rw [h1]; ring

/-- Witness for the amended C4: the concrete offset `h = 2` of `cfg13` has
`h^4 = 3 ≠ 1`, so the `Z_H` entries — in particular the first — are
nonzero. -/
theorem claim_C4_witness :
    ((⟨5⟩ : F13) ^ (4 * 1) = 1 ∧ (⟨2⟩ : F13) ^ (4 * 1) ≠ 1) ∧
      (Z_H_of 1 (⟨2⟩ : F13)
        (rootsOfUnity (⟨5⟩ : F13) (4 * 1))).values.getD 0 0 ≠ 0 :=
  ⟨⟨by decide, by decide⟩,
    claim_C4 1 (⟨5⟩ : F13) (⟨2⟩ : F13) (by decide) (by decide) _ (by decide)⟩

section NoMismatch

variable {F : Type} [Field F] [DecidableEq F] {G : Type}

theorem bind_ne {e a b : Type} (x : Except e a) (f : a → Except e b) (u : e)
    (hx : x ≠ Except.error u)
    (hf : ∀ v, x = Except.ok v → f v ≠ Except.error u) :
    (x >>= f) ≠ Except.error u := by
  cases x with
  | error v =>
      intro h
      rw [show ((Except.error v : Except e a) >>= f) =
          (Except.error v : Except e b) from rfl] at h
      exact hx (congrArg Except.error (Except.error.inj h))
  | ok v => exact hf v rfl

theorem err_assert_ne_mismatch {a : Type} :
    (Except.error PErr.assertionFailed : Except PErr a) ≠
      Except.error PErr.mismatch := by
  intro h
  cases Except.error.inj h

theorem err_key_ne_mismatch {a : Type} :
    (Except.error PErr.keyError : Except PErr a) ≠
      Except.error PErr.mismatch := by
  intro h
  cases Except.error.inj h

theorem lookupW_ne_mismatch (w : Witness) (k : Option String) :
    lookupW (F := F) w k ≠ Except.error PErr.mismatch := by
  simp only [lookupW]
  cases w k
  · exact err_key_ne_mismatch
  · intro h; exact Except.noConfusion h

theorem mapPI_ne_mismatch (w : Witness) (l : List String) :
    mapPI (F := F) w l ≠ Except.error PErr.mismatch := by
  induction l with
  | nil => intro h; exact Except.noConfusion h
  | cons v vs ih =>
      simp only [mapPI]
      apply bind_ne
      · simp only [lookupPub]
        cases w (some v)
        · exact err_key_ne_mismatch
        · intro h; exact Except.noConfusion h
      · intro x _
        apply bind_ne
        · exact ih
        · intro rest _ h
          exact Except.noConfusion h

theorem computePI_ne_mismatch (P : Prover F G) (w : Witness) :
    computePI P w ≠ Except.error PErr.mismatch := by
  rw [computePI]
  apply bind_ne
  · exact mapPI_ne_mismatch w _
  · intro pvals _ h
    exact Except.noConfusion h

theorem mapPI_length (w : Witness) (l : List String) :
    ∀ xs : List F, mapPI w l = Except.ok xs → xs.length = l.length := by
  induction l with
  | nil =>
      intro xs h
      rw [mapPI] at h
      cases h
      rfl
  | cons v vs ih =>
      intro xs h
      rw [mapPI] at h
      obtain ⟨x, _, h⟩ := (bind_ok_iff _ _ _).mp h
      obtain ⟨rest, hrest, h⟩ := (bind_ok_iff _ _ _).mp h
      cases h
      simp [ih rest hrest]

theorem computePI_shape (P : Prover F G) (w : Witness) (PI : Poly F)
    (hpub : P.public_vars.length ≤ P.group_order)
    (h : computePI P w = Except.ok PI) : shaped PI P.group_order := by
  rw [computePI] at h
  obtain ⟨pvals, hp, h⟩ := (bind_ok_iff _ _ _).mp h
  cases h
  refine ⟨rfl, ?_⟩
  simp only [List.length_append, List.length_replicate,
    mapPI_length w _ _ hp]
  omega

theorem setValsAux_ne_mismatch (w : Witness) (gs : List GateWires) :
    ∀ (i : Nat) (acc : List F × List F × List F),
      setValsAux w gs i acc ≠ Except.error PErr.mismatch := by
  induction gs with
  | nil => intro i acc h; exact Except.noConfusion h
  | cons g gs ih =>
      intro i acc
      simp only [setValsAux]
      apply bind_ne
      · exact lookupW_ne_mismatch w _
      · intro a _
        apply bind_ne
        · exact lookupW_ne_mismatch w _
        · intro b _
          apply bind_ne
          · exact lookupW_ne_mismatch w _
          · intro c _
            exact ih _ _

theorem round_1_ne_mismatch (P : Prover F G) (w : Witness) (PI : Poly F)
    (hPIs : shaped PI P.group_order)
    (hQL : shaped P.pk.QL P.group_order) (hQR : shaped P.pk.QR P.group_order)
    (hQM : shaped P.pk.QM P.group_order) (hQO : shaped P.pk.QO P.group_order)
    (hQC : shaped P.pk.QC P.group_order) :
    round_1 P w PI ≠ Except.error PErr.mismatch := by
  rw [round_1]
  apply bind_ne
  · show setValsAux (F := F) (insertNoneZero w) P.wires 0
        (List.replicate P.group_order 0, List.replicate P.group_order 0,
          List.replicate P.group_order 0) ≠ Except.error PErr.mismatch
    exact setValsAux_ne_mismatch (F := F) (insertNoneZero w) P.wires 0 _
  · intro vals hvals
    dsimp only
    have hlen := setValsAux_len (F := F) (insertNoneZero w) P.wires 0 _ _ hvals
    simp only [List.length_replicate] at hlen
    obtain ⟨l, hgc, -, -⟩ := gateConstraint_ok P.pk ⟨vals.1, Basis.LAGRANGE⟩
      ⟨vals.2.1, Basis.LAGRANGE⟩ ⟨vals.2.2, Basis.LAGRANGE⟩ PI
      ⟨rfl, hlen.1⟩ ⟨rfl, hlen.2.1⟩ ⟨rfl, hlen.2.2⟩ hPIs hQL hQR hQM hQO hQC
    apply bind_ne
    · rw [hgc]; intro hc; exact Except.noConfusion hc
    · intro gc _
      split
      · intro hc; exact Except.noConfusion hc
      · exact err_assert_ne_mismatch

theorem round_1_shapes (P : Prover F G) (w : Witness) (PI A B C : Poly F)
    (m : Message1 G) (h : round_1 P w PI = Except.ok (A, B, C, m)) :
    shaped A P.group_order ∧ shaped B P.group_order ∧
      shaped C P.group_order := by
  simp only [round_1, bind_ok_iff] at h
  obtain ⟨vals, hv, gc, hgc, hite⟩ := h
  obtain ⟨-, he⟩ := ite_ok_elim hite
  have hlen := setValsAux_len (F := F) (insertNoneZero w) P.wires 0 _ _ hv
  simp only [List.length_replicate] at hlen
  simp only [Prod.mk.injEq] at he
  exact ⟨he.1 ▸ ⟨rfl, hlen.1⟩, he.2.1 ▸ ⟨rfl, hlen.2.1⟩,
    he.2.2.1 ▸ ⟨rfl, hlen.2.2⟩⟩

theorem round_2_ne_mismatch (P : Prover F G) (beta gamma : F) (A B C : Poly F) :
    round_2 P beta gamma A B C ≠ Except.error PErr.mismatch := by
  simp only [round_2]
  split
  · split
    · intro h; exact Except.noConfusion h
    · exact err_assert_ne_mismatch
  · exact err_assert_ne_mismatch

theorem round_2_shape (P : Prover F G) (beta gamma : F) (A B C Z : Poly F)
    (m : Message2 G) (h : round_2 P beta gamma A B C = Except.ok (Z, m)) :
    shaped Z P.group_order := by
  simp only [round_2] at h
  split at h
  · split at h
    · cases h; exact ⟨rfl, by simp⟩
    · exact Except.noConfusion h
  · exact Except.noConfusion h

theorem round_3_core_ok (P : Prover F G) (beta gamma alpha h : F)
    (A B C PI Z : Poly F) (hn : 0 < P.group_order)
    (hA : shaped A P.group_order) (hB : shaped B P.group_order)
    (hC : shaped C P.group_order) (hPI : shaped PI P.group_order)
    (hZ : shaped Z P.group_order)
    (hQL : shaped P.pk.QL P.group_order) (hQR : shaped P.pk.QR P.group_order)
    (hQM : shaped P.pk.QM P.group_order) (hQO : shaped P.pk.QO P.group_order)
    (hQC : shaped P.pk.QC P.group_order) (hS1 : shaped P.pk.S1 P.group_order)
    (hS2 : shaped P.pk.S2 P.group_order) (hS3 : shaped P.pk.S3 P.group_order) :
    ∃ d, round_3_core P beta gamma alpha h A B C PI Z = Except.ok d := by
  simp only [round_3_core, pdiv, pmul, padd, psub, rlcP, pbinop, bind,
    Except.bind, to_coset_basis, to_coset_length, pmulC_basis, pmulC_length,
    psubC_basis, psubC_length, paddC_basis, paddC_length, Z_H_of_basis,
    Z_H_of_length, rootsOfUnity_length, pshift_length, pshift_basis,
    L0_of_basis, L0_of_length _ hn,
    List.length_zipWith, hA.2, hB.2, hC.2, hPI.2, hZ.2, hQL.2, hQR.2, hQM.2,
    hQO.2, hQC.2, hS1.2, hS2.2, hS3.2, Nat.min_self, and_self, ite_true,
    and_true, true_and, if_true, eq_self_iff_true, ok_bind]
  exact ⟨_, rfl⟩

theorem round_3_ne_mismatch (P : Prover F G) (beta gamma alpha h : F)
    (A B C PI Z : Poly F) (hn : 0 < P.group_order)
    (hA : shaped A P.group_order) (hB : shaped B P.group_order)
    (hC : shaped C P.group_order) (hPI : shaped PI P.group_order)
    (hZ : shaped Z P.group_order)
    (hQL : shaped P.pk.QL P.group_order) (hQR : shaped P.pk.QR P.group_order)
    (hQM : shaped P.pk.QM P.group_order) (hQO : shaped P.pk.QO P.group_order)
    (hQC : shaped P.pk.QC P.group_order) (hS1 : shaped P.pk.S1 P.group_order)
    (hS2 : shaped P.pk.S2 P.group_order) (hS3 : shaped P.pk.S3 P.group_order) :
    round_3 P beta gamma alpha h A B C PI Z ≠ Except.error PErr.mismatch := by
  rw [round_3]
  apply bind_ne
  · obtain ⟨d, hd⟩ := round_3_core_ok P beta gamma alpha h A B C PI Z hn
      hA hB hC hPI hZ hQL hQR hQM hQO hQC hS1 hS2 hS3
    rw [hd]
    intro hc; exact Except.noConfusion hc
  · intro d _
    dsimp only
    split
    · split
      · intro hc; exact Except.noConfusion hc
      · exact err_assert_ne_mismatch
    · exact err_assert_ne_mismatch

theorem round_3_core_of_ok (P : Prover F G) (beta gamma alpha h : F)
    (A B C PI Z : Poly F) (d : R3Data F) (m3 : Message3 G)
    (hr : round_3 P beta gamma alpha h A B C PI Z = Except.ok (d, m3)) :
    round_3_core P beta gamma alpha h A B C PI Z = Except.ok d := by
  rw [round_3] at hr
  obtain ⟨d0, hd0, hif⟩ := (bind_ok_iff _ _ _).mp hr
  split at hif
  · split at hif
    · cases hif; exact hd0
    · exact Except.noConfusion hif
  · exact Except.noConfusion hif

theorem round_5_core_ok (P : Prover F G) (beta gamma alpha h zeta v : F)
    (A B C PI Z : Poly F) (d : R3Data F) (m4 : Message4 F)
    (hn : 0 < P.group_order)
    (hA : shaped A P.group_order) (hB : shaped B P.group_order)
    (hC : shaped C P.group_order) (hPI : shaped PI P.group_order)
    (hZ : shaped Z P.group_order)
    (hQL : shaped P.pk.QL P.group_order) (hQR : shaped P.pk.QR P.group_order)
    (hQM : shaped P.pk.QM P.group_order) (hQO : shaped P.pk.QO P.group_order)
    (hQC : shaped P.pk.QC P.group_order) (hS1 : shaped P.pk.S1 P.group_order)
    (hS2 : shaped P.pk.S2 P.group_order) (hS3 : shaped P.pk.S3 P.group_order)
    (hcore : round_3_core P beta gamma alpha h A B C PI Z = Except.ok d) :
    ∃ d5, round_5_core P beta gamma alpha h zeta v PI d m4 = Except.ok d5 := by
  simp only [round_3_core, pdiv, pmul, padd, psub, rlcP, pbinop, bind,
    Except.bind, to_coset_basis, to_coset_length, pmulC_basis, pmulC_length,
    psubC_basis, psubC_length, paddC_basis, paddC_length, Z_H_of_basis,
    Z_H_of_length, rootsOfUnity_length, pshift_length, pshift_basis,
    L0_of_basis, L0_of_length _ hn,
    List.length_zipWith, hA.2, hB.2, hC.2, hPI.2, hZ.2, hQL.2, hQR.2, hQM.2,
    hQO.2, hQC.2, hS1.2, hS2.2, hS3.2, Nat.min_self, and_self, ite_true,
    and_true, true_and, if_true, eq_self_iff_true, ok_bind] at hcore
  cases hcore
  have e1 : min P.group_order (4 * P.group_order) = P.group_order := by omega
  have e2 : min P.group_order (4 * P.group_order - P.group_order) =
      P.group_order := by omega
  have e3 : min P.group_order (4 * P.group_order - 2 * P.group_order) =
      P.group_order := by omega
  simp only [round_5_core, pdiv, pmul, padd, psub, rlcP, pbinop, bind,
    Except.bind, to_coset_basis, to_coset_length, pmulC_basis, pmulC_length,
    psubC_basis, psubC_length, paddC_basis, paddC_length, Z_H_of_basis,
    Z_H_of_length, rootsOfUnity_length, pshift_length, pshift_basis,
    L0_of_basis, L0_of_length _ hn, pfft_basis, pfft_length, to_coeffs_basis,
    to_coeffs_length, List.length_take, List.length_drop,
    List.length_replicate, e1, e2, e3,
    List.length_zipWith, hA.2, hB.2, hC.2, hPI.2, hZ.2, hQL.2, hQR.2, hQM.2,
    hQO.2, hQC.2, hS1.2, hS2.2, hS3.2, Nat.min_self, and_self, ite_true,
    and_true, true_and, if_true, eq_self_iff_true, ok_bind]
  exact ⟨_, rfl⟩

theorem round_5_ne_mismatch (P : Prover F G) (beta gamma alpha h zeta v : F)
    (A B C PI Z : Poly F) (d : R3Data F) (m4 : Message4 F)
    (hn : 0 < P.group_order)
    (hA : shaped A P.group_order) (hB : shaped B P.group_order)
    (hC : shaped C P.group_order) (hPI : shaped PI P.group_order)
    (hZ : shaped Z P.group_order)
    (hQL : shaped P.pk.QL P.group_order) (hQR : shaped P.pk.QR P.group_order)
    (hQM : shaped P.pk.QM P.group_order) (hQO : shaped P.pk.QO P.group_order)
    (hQC : shaped P.pk.QC P.group_order) (hS1 : shaped P.pk.S1 P.group_order)
    (hS2 : shaped P.pk.S2 P.group_order) (hS3 : shaped P.pk.S3 P.group_order)
    (hcore : round_3_core P beta gamma alpha h A B C PI Z = Except.ok d) :
    round_5 P beta gamma alpha h zeta v PI d m4 ≠
      Except.error PErr.mismatch := by
  rw [round_5]
  apply bind_ne
  · obtain ⟨d5, hd5⟩ := round_5_core_ok P beta gamma alpha h zeta v A B C PI Z
      d m4 hn hA hB hC hPI hZ hQL hQR hQM hQO hQC hS1 hS2 hS3 hcore
    rw [hd5]
    intro hc; exact Except.noConfusion hc
  · intro d5 _
    dsimp only
    split
    · split
      · split
        · split
          · intro hc; exact Except.noConfusion hc
          · exact err_assert_ne_mismatch
        · exact err_assert_ne_mismatch
      · exact err_assert_ne_mismatch
    · exact err_assert_ne_mismatch

end NoMismatch

/-- Claim C8: with a well-formed preprocessed input (all eight `pk`
polynomials in `LAGRANGE(n)` and at most `n` public inputs), no
polynomial-polynomial operation executed during `prove` is between operands of
different basis tags or lengths: the pipeline never fails with the `mismatch`
error of the duck-typed operators.  In particular the size-`4n`
`LAGRANGE`-tagged constant polynomial built for `c_eval` in Round 5 shares
basis and size with every coset-extended operand. -/
theorem claim_C8 {F : Type} [Field F] [DecidableEq F] {G : Type}
    (P : Prover F G) (w : Witness) (hn : 0 < P.group_order)
    (hQL : shaped P.pk.QL P.group_order) (hQR : shaped P.pk.QR P.group_order)
    (hQM : shaped P.pk.QM P.group_order) (hQO : shaped P.pk.QO P.group_order)
    (hQC : shaped P.pk.QC P.group_order) (hS1 : shaped P.pk.S1 P.group_order)
    (hS2 : shaped P.pk.S2 P.group_order) (hS3 : shaped P.pk.S3 P.group_order)
    (hpub : P.public_vars.length ≤ P.group_order) :
    proveParts P w ≠ Except.error PErr.mismatch ∧
    (∀ (c hh : F) (p : Poly F), p.values.length = P.group_order →
      (⟨List.replicate (4 * P.group_order) c, Basis.LAGRANGE⟩ : Poly F).basis =
          (to_coset P.rootOf hh p).basis ∧
        (List.replicate (4 * P.group_order) c).length =
          (to_coset P.rootOf hh p).values.length) := by
  constructor
  · rw [proveParts]
    apply bind_ne
    · exact computePI_ne_mismatch P w
    · intro PI hPI
      have hPIs := computePI_shape P w PI hpub hPI
      apply bind_ne
      · exact round_1_ne_mismatch P w PI hPIs hQL hQR hQM hQO hQC
      · intro r1 hr1
        obtain ⟨hA, hB, hC⟩ := round_1_shapes P w PI r1.1 r1.2.1 r1.2.2.1
          r1.2.2.2 (by rw [hr1])
        dsimp only
        apply bind_ne
        · exact round_2_ne_mismatch P _ _ _ _ _
        · intro r2 hr2
          have hZ := round_2_shape P _ _ _ _ _ r2.1 r2.2 (by rw [hr2])
          apply bind_ne
          · exact round_3_ne_mismatch P _ _ _ _ _ _ _ _ _ hn hA hB hC hPIs hZ
              hQL hQR hQM hQO hQC hS1 hS2 hS3
          · intro r3 hr3
            have hcore := round_3_core_of_ok P _ _ _ _ _ _ _ _ _ r3.1 r3.2
              (by rw [hr3])
            apply bind_ne
            · exact round_5_ne_mismatch P _ _ _ _ _ _ _ _ _ _ _ r3.1 _ hn
                hA hB hC hPIs hZ hQL hQR hQM hQO hQC hS1 hS2 hS3 hcore
            · intro r5 _ hc
              exact Except.noConfusion hc
  · intro c hh p hp
    constructor
    · rfl
    · simp [hp]

/-- Witness for C8: the concrete prover has a well-formed preprocessed input,
so its run never hits a cross-basis or cross-size operation. -/
theorem claim_C8_witness :
    proveParts cfg13 wAll0 ≠ Except.error PErr.mismatch ∧
    (∀ (c hh : F13) (p : Poly F13), p.values.length = cfg13.group_order →
      (⟨List.replicate (4 * cfg13.group_order) c, Basis.LAGRANGE⟩ :
            Poly F13).basis =
          (to_coset cfg13.rootOf hh p).basis ∧
        (List.replicate (4 * cfg13.group_order) c).length =
          (to_coset cfg13.rootOf hh p).values.length) :=
  claim_C8 cfg13 wAll0 (by decide) (by decide) (by decide) (by decide)
    (by decide) (by decide) (by decide) (by decide) (by decide) (by decide)

section Bridge

variable {F : Type} [Field F]

theorem PrimRoot.ne_zero {z : F} {m : Nat} (hz : PrimRoot z m) (hm : 0 < m) :
    z ≠ 0 := by
  intro h0
  have := hz.1
  rw [h0, zero_pow (by omega)] at this
  exact zero_ne_one this

theorem PrimRoot.pow_lift {z : F} {m : Nat} (hz : PrimRoot z m) (a b : Nat)
    (hab : a = b + m) : z ^ a = z ^ b := by
  rw [hab, pow_add, hz.1, mul_one]

theorem PrimRoot.pow_inj_aux {z : F} {m : Nat} (hz : PrimRoot z m)
    (hm : 0 < m) {i j : Nat} (hle : i ≤ j) (hj : j < m)
    (he : z ^ i = z ^ j) : i = j := by
  have hji : z ^ j = z ^ i * z ^ (j - i) := by
    rw [← pow_add]
    congr 1
    omega
  have hz0 : z ^ i ≠ 0 := pow_ne_zero _ (hz.ne_zero hm)
  have h1 : z ^ i * z ^ (j - i) = z ^ i * 1 := by rw [mul_one, ← hji, he]
  have h2 : z ^ (j - i) = 1 := mul_left_cancel₀ hz0 h1
  by_contra hne
  exact hz.2 (j - i) (by omega) (by omega) h2

theorem PrimRoot.pow_inj {z : F} {m : Nat} (hz : PrimRoot z m) (hm : 0 < m)
    {i j : Nat} (hi : i < m) (hj : j < m) (hij : z ^ i = z ^ j) : i = j := by
  rcases Nat.le_total i j with hle | hle
  · exact hz.pow_inj_aux hm hle hj hij
  · exact (hz.pow_inj_aux hm hle hi hij.symm).symm

theorem geom_sum_zero {t : F} {m : Nat} (h1 : t ^ m = 1) (hne : t ≠ 1) :
    ∑ i ∈ Finset.range m, t ^ i = 0 := by
  rw [geom_sum_eq hne m, h1, sub_self, zero_div]

/-- Orthogonality of the characters `i ↦ (z^k z⁻¹^j)^i` of a primitive root. -/
theorem prim_ortho {z : F} {m : Nat} (hz : PrimRoot z m) (hm : 0 < m)
    {k j : Nat} (hk : k < m) (hj : j < m) :
    ∑ i ∈ Finset.range m, (z ^ k * z⁻¹ ^ j) ^ i =
      if k = j then (m : F) else 0 := by
  have hz0 : z ≠ 0 := hz.ne_zero hm
  by_cases hkj : k = j
  · subst hkj
    rw [if_pos rfl]
    have ht : z ^ k * z⁻¹ ^ k = 1 := by
      rw [inv_pow, mul_inv_cancel₀ (pow_ne_zero _ hz0)]
    calc ∑ i ∈ Finset.range m, (z ^ k * z⁻¹ ^ k) ^ i
        = ∑ i ∈ Finset.range m, (1 : F) ^ i :=
          Finset.sum_congr rfl (fun i _ => by rw [ht])
      _ = m := by simp
  · rw [if_neg hkj]
    apply geom_sum_zero
    · calc (z ^ k * z⁻¹ ^ j) ^ m
          = (z ^ m) ^ k * ((z ^ m)⁻¹) ^ j := by
            rw [mul_pow, ← pow_mul z k m, ← pow_mul z⁻¹ j m,
              mul_comm k m, mul_comm j m, pow_mul z m k, pow_mul z⁻¹ m j,
              inv_pow z m]
        _ = 1 := by rw [hz.1]; simp
    · intro ht
      apply hkj
      apply hz.pow_inj hm hk hj
      have hzj : z⁻¹ ^ j = (z ^ j)⁻¹ := inv_pow z j
      have hone : z ^ k * (z ^ j)⁻¹ = 1 := by rw [← hzj]; exact ht
      have hj0 : (z ^ j) ≠ 0 := pow_ne_zero _ hz0
      field_simp at hone
      exact hone

theorem degLT.mono {p : Polynomial F} {m m' : Nat} (h : degLT p m)
    (hm : m ≤ m') : degLT p m' :=
  fun j hj => h j (le_trans hm hj)

theorem degLT_zero (m : Nat) : degLT (0 : Polynomial F) m :=
  fun j _ => Polynomial.coeff_zero j

theorem degLT_C (c : F) {m : Nat} (hm : 0 < m) : degLT (Polynomial.C c) m :=
  fun j hj => by rw [Polynomial.coeff_C, if_neg (by omega)]

theorem degLT_X : degLT (Polynomial.X : Polynomial F) 2 := by
  intro j hj
  rw [Polynomial.coeff_X, if_neg (by omega)]

theorem degLT.add {p q : Polynomial F} {m : Nat} (hp : degLT p m)
    (hq : degLT q m) : degLT (p + q) m := by
  intro j hj
  rw [Polynomial.coeff_add, hp j hj, hq j hj, add_zero]

theorem degLT.sub {p q : Polynomial F} {m : Nat} (hp : degLT p m)
    (hq : degLT q m) : degLT (p - q) m := by
  intro j hj
  rw [Polynomial.coeff_sub, hp j hj, hq j hj, sub_zero]

theorem degLT.Cmul {p : Polynomial F} {m : Nat} (c : F) (hp : degLT p m) :
    degLT (Polynomial.C c * p) m := by
  intro j hj
  rw [Polynomial.coeff_C_mul, hp j hj, mul_zero]

theorem degLT.mul {p q : Polynomial F} {a b : Nat} (hp : degLT p a)
    (hq : degLT q b) (ha : 0 < a) : degLT (p * q) (a + b - 1) := by
  intro j hj
  rw [Polynomial.coeff_mul]
  apply Finset.sum_eq_zero
  intro x hx
  rw [Finset.mem_antidiagonal] at hx
  by_cases hxa : a ≤ x.1
  · rw [hp x.1 hxa, zero_mul]
  · rw [hq x.2 (by omega), mul_zero]

theorem degLT.natDegree_lt {p : Polynomial F} {m : Nat} (hp : degLT p m)
    (hm : 0 < m) (hp0 : p ≠ 0) : p.natDegree < m := by
  by_contra hge
  push_neg at hge
  exact hp0 (Polynomial.leadingCoeff_eq_zero.mp (hp _ hge))

theorem degLT.eval_sum {p : Polynomial F} {m : Nat} (hp : degLT p m)
    (hm : 0 < m) (x : F) :
    p.eval x = ∑ j ∈ Finset.range m, p.coeff j * x ^ j := by
  by_cases hp0 : p = 0
  · subst hp0; simp
  · exact Polynomial.eval_eq_sum_range' (hp.natDegree_lt hm hp0) x

theorem coeff_sum_CX (f : Nat → F) (m k : Nat) :
    (∑ i ∈ Finset.range m, Polynomial.C (f i) * Polynomial.X ^ i).coeff k =
      if k < m then f k else 0 := by
  rw [Polynomial.finset_sum_coeff]
  simp only [Polynomial.coeff_C_mul, Polynomial.coeff_X_pow]
  by_cases hk : k < m
  · rw [if_pos hk]
    rw [Finset.sum_eq_single k]
    · rw [if_pos rfl, mul_one]
    · intro i _ hik
      rw [if_neg (by omega), mul_zero]
    · intro hkn
      exact absurd (Finset.mem_range.mpr hk) hkn
  · rw [if_neg hk]
    apply Finset.sum_eq_zero
    intro i hi
    rw [Finset.mem_range] at hi
    rw [if_neg (by omega), mul_zero]

theorem degLT_sum_CX (f : Nat → F) (m : Nat) :
    degLT (∑ i ∈ Finset.range m, Polynomial.C (f i) * Polynomial.X ^ i) m := by
  intro j hj
  rw [coeff_sum_CX, if_neg (by omega)]

theorem eval_sum_CX (f : Nat → F) (m : Nat) (x : F) :
    (∑ i ∈ Finset.range m, Polynomial.C (f i) * Polynomial.X ^ i).eval x =
      ∑ i ∈ Finset.range m, f i * x ^ i := by
  rw [Polynomial.eval_finset_sum]
  refine Finset.sum_congr rfl (fun i _ => ?_)
  rw [Polynomial.eval_mul, Polynomial.eval_C, Polynomial.eval_pow,
    Polynomial.eval_X]

theorem getD_replicate_self {α : Type} (k i : Nat) (a : α) :
    (List.replicate k a).getD i a = a := by
  by_cases hi : i < k
  · rw [List.getD_eq_getElem _ _ (by simpa using hi)]
    simp
  · rw [List.getD_eq_default _ _ (by simpa using hi)]

theorem evalList_append_zeros (l : List F) (k : Nat) (x : F) :
    evalList (l ++ List.replicate k 0) x = evalList l x := by
  rw [evalList, evalList, List.length_append, List.length_replicate]
  rw [← Finset.sum_subset (Finset.range_subset.mpr (Nat.le_add_right _ _))
    (fun i hi hni => ?_)]
  · refine Finset.sum_congr rfl (fun i hi => ?_)
    rw [Finset.mem_range] at hi
    rw [List.getD_append _ _ _ _ hi]
  · rw [Finset.mem_range] at hi hni
    have hz : (l ++ List.replicate k (0 : F)).getD i 0 = 0 := by
      rw [List.getD_append_right _ _ _ _ (by omega)]
      exact getD_replicate_self _ _ _
    rw [hz, zero_mul]

theorem getD_scale_enum (l : List F) (h : F) (i : Nat) (hi : i < l.length) :
    (l.enum.map (fun q => q.2 * h ^ q.1)).getD i 0 = l.getD i 0 * h ^ i := by
  rw [List.getD_eq_getElem _ _ (by simpa [List.enum_length] using hi)]
  rw [List.getElem_map, List.getElem_enum, List.getD_eq_getElem _ _ hi]

@[simp] theorem idftL_length (m : Nat) (mu : F) (l : List F) :
    (idftL m mu l).length = m := by
  simp [idftL]

theorem interpPoly_degLT (m : Nat) (mu : F) (vals : List F) :
    degLT (interpPoly m mu vals) m :=
  degLT_sum_CX _ m

theorem interpPoly_coeff (m : Nat) (mu : F) (vals : List F) (k : Nat) :
    (interpPoly m mu vals).coeff k =
      if k < m then (idftL m mu vals).getD k 0 else 0 :=
  coeff_sum_CX _ m k

/-- Evaluating the interpolation polynomial at the `i`-th power of the root
recovers the `i`-th value. -/
theorem interpPoly_eval {m : Nat} {mu : F} (hmu : PrimRoot mu m) (hm : 0 < m)
    (hmF : (m : F) ≠ 0) (vals : List F) {i : Nat} (hi : i < m) :
    (interpPoly m mu vals).eval (mu ^ i) = vals.getD i 0 := by
  rw [interpPoly, eval_sum_CX]
  have h1 : ∀ k ∈ Finset.range m,
      (idftL m mu vals).getD k 0 * (mu ^ i) ^ k =
        (∑ l ∈ Finset.range m,
          vals.getD l 0 * (mu ^ i * mu⁻¹ ^ l) ^ k) / (m : F) := by
    intro k hk
    rw [Finset.mem_range] at hk
    rw [idftL, getD_range_map _ _ _ _ hk, div_mul_eq_mul_div, Finset.sum_mul]
    congr 1
    refine Finset.sum_congr rfl (fun l _ => ?_)
    rw [mul_pow, mul_assoc]
    congr 1
    rw [← pow_mul, ← pow_mul, mul_comm l k, mul_comm]
  rw [Finset.sum_congr rfl h1, ← Finset.sum_div, Finset.sum_comm]
  have h2 : ∀ l ∈ Finset.range m,
      (∑ k ∈ Finset.range m, vals.getD l 0 * (mu ^ i * mu⁻¹ ^ l) ^ k) =
        vals.getD l 0 * (if i = l then (m : F) else 0) := by
    intro l hl
    rw [← Finset.mul_sum, prim_ortho hmu hm hi (Finset.mem_range.mp hl)]
  rw [Finset.sum_congr rfl h2, Finset.sum_eq_single i]
  · rw [if_pos rfl, mul_div_assoc, div_self hmF, mul_one]
  · intro l _ hli
    rw [if_neg (fun hc => hli hc.symm), mul_zero]
  · intro hin
    exact absurd (Finset.mem_range.mpr hi) hin

/-- The inverse transform of the evaluations of a polynomial of degree below
`m` at the powers of a primitive `m`-th root recovers its coefficients. -/
theorem idftL_coeff {m : Nat} {mu : F} (hmu : PrimRoot mu m) (hm : 0 < m)
    (hmF : (m : F) ≠ 0) (vals : List F) (p : Polynomial F) (hdeg : degLT p m)
    (hev : ∀ i, i < m → vals.getD i 0 = p.eval (mu ^ i)) :
    ∀ j, j < m → (idftL m mu vals).getD j 0 = p.coeff j := by
  intro j hj
  rw [idftL, getD_range_map _ _ _ _ hj]
  have h1 : ∀ i ∈ Finset.range m,
      vals.getD i 0 * mu⁻¹ ^ (i * j) =
        ∑ k ∈ Finset.range m, p.coeff k * (mu ^ k * mu⁻¹ ^ j) ^ i := by
    intro i hi
    rw [Finset.mem_range] at hi
    rw [hev i hi, hdeg.eval_sum hm, Finset.sum_mul]
    refine Finset.sum_congr rfl (fun k _ => ?_)
    rw [mul_pow, ← pow_mul, ← pow_mul, ← pow_mul, mul_comm k i, mul_comm j i]
    ring
  rw [Finset.sum_congr rfl h1, Finset.sum_comm]
  have h2 : ∀ k ∈ Finset.range m,
      (∑ i ∈ Finset.range m, p.coeff k * (mu ^ k * mu⁻¹ ^ j) ^ i) =
        p.coeff k * (if k = j then (m : F) else 0) := by
    intro k hk
    rw [← Finset.mul_sum, prim_ortho hmu hm (Finset.mem_range.mp hk) hj]
  rw [Finset.sum_congr rfl h2, Finset.sum_eq_single j]
  · rw [if_pos rfl, mul_div_assoc, div_self hmF, mul_one]
  · intro k _ hkj
    rw [if_neg hkj, mul_zero]
  · intro hjn
    exact absurd (Finset.mem_range.mpr hj) hjn

/-- A polynomial of degree below `m` equals the interpolation of its own
evaluations. -/
theorem eq_interpPoly {m : Nat} {mu : F} (hmu : PrimRoot mu m) (hm : 0 < m)
    (hmF : (m : F) ≠ 0) (vals : List F) (p : Polynomial F) (hdeg : degLT p m)
    (hev : ∀ i, i < m → vals.getD i 0 = p.eval (mu ^ i)) :
    interpPoly m mu vals = p := by
  apply Polynomial.ext
  intro k
  rw [interpPoly_coeff]
  by_cases hk : k < m
  · rw [if_pos hk]
    exact idftL_coeff hmu hm hmF vals p hdeg hev k hk
  · rw [if_neg hk, hdeg k (by omega)]

/-- Two polynomials of degree below `m` agreeing on the `m` powers of a
primitive `m`-th root of unity are equal. -/
theorem degLT_ext {m : Nat} {mu : F} (hmu : PrimRoot mu m) (hm : 0 < m)
    (hmF : (m : F) ≠ 0) {p q : Polynomial F} (hp : degLT p m) (hq : degLT q m)
    (hev : ∀ i, i < m → p.eval (mu ^ i) = q.eval (mu ^ i)) : p = q := by
  have h1 := eq_interpPoly hmu hm hmF
    ((List.range m).map (fun i => p.eval (mu ^ i))) p hp
    (fun i hi => getD_range_map _ _ _ _ hi)
  have h2 := eq_interpPoly hmu hm hmF
    ((List.range m).map (fun i => p.eval (mu ^ i))) q hq
    (fun i hi => by rw [getD_range_map _ _ _ _ hi]; exact hev i hi)
  rw [← h1, h2]

/-- The coset expansion of a Lagrange vector of size `n` evaluates, at index
`i`, the interpolation polynomial at the coset point `mu^i * h`. -/
theorem to_coset_getD {rootOf : Nat → F} {h : F} {p : Poly F} {n : Nat}
    (hlen : p.values.length = n) :
    ∀ i, i < 4 * n →
      (to_coset rootOf h p).values.getD i 0 =
        (interpPoly n (rootOf n) p.values).eval (rootOf (4 * n) ^ i * h) := by
  intro i hi
  rw [to_coset]
  simp only [hlen]
  rw [show (dftL (4 * n) (rootOf (4 * n))
      ((idftL n (rootOf n) p.values).enum.map (fun q => q.2 * h ^ q.1) ++
        List.replicate (3 * n) 0)) =
      (List.range (4 * n)).map (fun i => evalList
        ((idftL n (rootOf n) p.values).enum.map (fun q => q.2 * h ^ q.1) ++
          List.replicate (3 * n) 0) (rootOf (4 * n) ^ i)) from rfl]
  rw [getD_range_map _ _ _ _ hi, evalList_append_zeros, evalList]
  have hlen2 : ((idftL n (rootOf n) p.values).enum.map
      (fun q => q.2 * h ^ q.1)).length = n := by
    simp [List.enum_length]
  rw [hlen2, interpPoly, eval_sum_CX]
  refine Finset.sum_congr rfl (fun j hj => ?_)
  rw [Finset.mem_range] at hj
  rw [getD_scale_enum _ _ _ (by simpa using hj)]
  rw [mul_pow, mul_comm ((rootOf (4 * n) ^ i) ^ j) (h ^ j), ← mul_assoc]

theorem getD_replicate_lt {α : Type} (k i : Nat) (a d : α) (hi : i < k) :
    (List.replicate k a).getD i d = a := by
  rw [List.getD_eq_getElem _ _ (by simpa using hi)]
  simp

theorem getD_take {α : Type} (l : List α) (k i : Nat) (d : α) (hik : i < k)
    (hil : i < l.length) :
    (l.take k).getD i d = l.getD i d := by
  rw [List.getD_eq_getElem _ _ (by rw [List.length_take]; omega),
    List.getD_eq_getElem _ _ hil]
  rw [List.getElem_take]

theorem sum_range_split (f : Nat → F) (a b : Nat) :
    ∑ i ∈ Finset.range (a + b), f i =
      (∑ i ∈ Finset.range a, f i) + ∑ i ∈ Finset.range b, f (a + i) := by
  induction b with
  | zero => simp
  | succ k ih =>
      rw [show a + (k + 1) = (a + k) + 1 from rfl, Finset.sum_range_succ, ih,
        Finset.sum_range_succ, add_assoc]

theorem degLT_finset_sum {m : Nat} (s : Finset Nat) (f : Nat → Polynomial F)
    (h : ∀ i ∈ s, degLT (f i) m) : degLT (∑ i ∈ s, f i) m := by
  intro j hj
  rw [Polynomial.finset_sum_coeff]
  exact Finset.sum_eq_zero (fun i hi => h i hi j hj)

theorem sum_CX_coeff_eq {p : Polynomial F} {m : Nat} (hp : degLT p m) :
    ∑ j ∈ Finset.range m, Polynomial.C (p.coeff j) * Polynomial.X ^ j = p := by
  apply Polynomial.ext
  intro k
  rw [coeff_sum_CX]
  by_cases hk : k < m
  · rw [if_pos hk]
  · rw [if_neg hk, hp k (by omega)]

theorem pow_mod_eq {z : F} {m : Nat} (h1 : z ^ m = 1) (hm : 0 < m) (a : Nat) :
    z ^ (a % m) = z ^ a := by
  conv_rhs => rw [show a = m * (a / m) + a % m from (Nat.div_add_mod a m).symm]
  rw [pow_add, pow_mul, h1, one_pow, one_mul]

/-- The interpolant of the values of `fft` of a length-`n` coefficient list is
the polynomial with exactly those coefficients. -/
theorem pfft_interp {rootOf : Nat → F} {n : Nat} (hom : PrimRoot (rootOf n) n)
    (hn : 0 < n) (hnF : ((n : Nat) : F) ≠ 0) (l : List F) (hl : l.length = n) :
    interpPoly n (rootOf n) (pfft rootOf ⟨l, Basis.MONOMIAL⟩).values =
      ∑ j ∈ Finset.range n, Polynomial.C (l.getD j 0) * Polynomial.X ^ j := by
  apply eq_interpPoly hom hn hnF _ _ (degLT_sum_CX _ n)
  intro i hi
  show (dftL l.length (rootOf l.length) l).getD i 0 = _
  rw [hl, dftL, getD_range_map _ _ _ _ hi, evalList, hl, eval_sum_CX]

theorem pmulC_getD (p : Poly F) (c : F) (i : Nat) (hi : i < p.values.length) :
    (pmulC p c).values.getD i 0 = p.values.getD i 0 * c := by
  rw [pmulC]
  rw [List.getD_eq_getElem _ _ (by simpa using hi), List.getElem_map,
    List.getD_eq_getElem _ _ hi]

theorem paddC_getD (p : Poly F) (c : F) (i : Nat) (hi : i < p.values.length) :
    (paddC p c).values.getD i 0 = p.values.getD i 0 + c := by
  rw [paddC]
  rw [List.getD_eq_getElem _ _ (by simpa using hi), List.getElem_map,
    List.getD_eq_getElem _ _ hi]

theorem psubC_getD (p : Poly F) (c : F) (i : Nat) (hi : i < p.values.length) :
    (psubC p c).values.getD i 0 = p.values.getD i 0 - c := by
  rw [psubC]
  rw [List.getD_eq_getElem _ _ (by simpa using hi), List.getElem_map,
    List.getD_eq_getElem _ _ hi]

theorem rootsOfUnity_getD (om : F) (m i : Nat) (hi : i < m) :
    (rootsOfUnity om m).getD i 0 = om ^ i := by
  rw [rootsOfUnity]
  exact getD_range_map _ _ _ _ hi

theorem Z_H_of_getD (n : Nat) (h : F) (l : List F) (i : Nat)
    (hi : i < l.length) :
    (Z_H_of n h l).values.getD i 0 = (l.getD i 0 * h) ^ n - 1 := by
  rw [Z_H_of]
  rw [List.getD_eq_getElem _ _ (by simpa using hi), List.getElem_map,
    List.getD_eq_getElem _ _ hi]

theorem getD_rotateLeft_one {α : Type} (l : List α) (d : α) (i : Nat)
    (hi : i < l.length) :
    (l.rotateLeft 1).getD i d = l.getD ((i + 1) % l.length) d := by
  rw [List.rotateLeft]
  by_cases h1 : l.length ≤ 1
  · rw [if_pos h1]
    have hl1 : l.length = 1 := by omega
    have hi0 : i = 0 := by omega
    rw [hi0, hl1]
  · rw [if_neg h1]
    have hm : 1 % l.length = 1 := Nat.mod_eq_of_lt (by omega)
    rw [hm]
    by_cases h2 : i < l.length - 1
    · have hmod : (i + 1) % l.length = i + 1 := Nat.mod_eq_of_lt (by omega)
      rw [hmod]
      rw [List.getD_append _ _ _ _ (by rw [List.length_drop]; omega)]
      rw [List.getD_eq_getElem _ _ (by rw [List.length_drop]; omega),
        List.getD_eq_getElem _ _ (by omega)]
      rw [List.getElem_drop]
      congr 1
      omega
    · have hieq : i = l.length - 1 := by omega
      have hmod : (i + 1) % l.length = 0 := by
        rw [hieq, show l.length - 1 + 1 = l.length from by omega]
        exact Nat.mod_self _
      rw [hmod]
      rw [List.getD_append_right _ _ _ _ (by rw [List.length_drop]; omega)]
      rw [List.length_drop]
      rw [show i - (l.length - 1) = 0 from by omega]
      rw [List.getD_eq_getElem _ _ (by rw [List.length_take]; omega),
        List.getD_eq_getElem _ _ (by omega)]
      rw [List.getElem_take]

theorem getD_drop' {α : Type} (l : List α) (k i : Nat) (d : α)
    (h : k + i < l.length) :
    (l.drop k).getD i d = l.getD (k + i) d := by
  rw [List.getD_eq_getElem _ _ (by rw [List.length_drop]; omega),
    List.getD_eq_getElem _ _ h]
  rw [List.getElem_drop]

/-- The interpolant of the rotated value list is the original interpolant with
its `j`-th coefficient scaled by `om^j` (that is, `P(om·X)`). -/
theorem interp_rotate {om : F} {n : Nat} (hom : PrimRoot om n) (hn : 0 < n)
    (hnF : ((n : Nat) : F) ≠ 0) (l : List F) (hl : l.length = n) :
    interpPoly n om (l.rotateLeft 1) =
      ∑ j ∈ Finset.range n,
        Polynomial.C ((interpPoly n om l).coeff j * om ^ j) *
          Polynomial.X ^ j := by
  apply eq_interpPoly hom hn hnF _ _ (degLT_sum_CX _ n)
  intro i hi
  rw [getD_rotateLeft_one _ _ _ (by omega), hl]
  rw [(interpPoly_eval hom hn hnF l (Nat.mod_lt _ hn)).symm]
  rw [pow_mod_eq hom.1 hn, eval_sum_CX]
  rw [(interpPoly_degLT n om l).eval_sum hn]
  refine Finset.sum_congr rfl (fun j _ => ?_)
  rw [mul_assoc]
  congr 1
  rw [← pow_mul, ← pow_mul, ← pow_add]
  congr 1
  ring

/-- A polynomial vanishing at distinct powers of a primitive root is divisible
by the product of the corresponding linear factors. -/
theorem prod_X_sub_C_dvd {m : Nat} {mu : F} (hmu : PrimRoot mu m)
    (hm : 0 < m) (N : Polynomial F) :
    ∀ s : Finset Nat, (∀ l ∈ s, l < m) → (∀ l ∈ s, N.eval (mu ^ l) = 0) →
      (∏ l ∈ s, (Polynomial.X - Polynomial.C (mu ^ l))) ∣ N := by
  intro s
  induction s using Finset.induction_on with
  | empty =>
      intro _ _
      simpa using one_dvd N
  | @insert a s ha ih =>
      intro hs hroot
      obtain ⟨Q, hQ⟩ := ih (fun l hl => hs l (Finset.mem_insert_of_mem hl))
        (fun l hl => hroot l (Finset.mem_insert_of_mem hl))
      have hNa : N.eval (mu ^ a) = 0 := hroot a (Finset.mem_insert_self a s)
      have hprod :
          (∏ l ∈ s, (Polynomial.X - Polynomial.C (mu ^ l))).eval (mu ^ a) ≠
            0 := by
        rw [Polynomial.eval_prod]
        apply Finset.prod_ne_zero_iff.mpr
        intro l hl
        rw [Polynomial.eval_sub, Polynomial.eval_X, Polynomial.eval_C]
        intro hc
        have hal : a = l := hmu.pow_inj hm (hs a (Finset.mem_insert_self a s))
          (hs l (Finset.mem_insert_of_mem hl)) (by
            rw [sub_eq_zero] at hc
            exact hc)
        exact ha (hal ▸ hl)
      have hQa : Q.eval (mu ^ a) = 0 := by
        rw [hQ, Polynomial.eval_mul] at hNa
        rcases mul_eq_zero.mp hNa with hz | hz
        · exact absurd hz hprod
        · exact hz
      obtain ⟨R, hR⟩ := Polynomial.dvd_iff_isRoot.mpr hQa
      refine ⟨R, ?_⟩
      rw [Finset.prod_insert ha, hQ, hR]
      ring

/-- Factorisation of `X^m - 1` over the powers of a primitive `m`-th root. -/
theorem X_pow_sub_one_eq {m : Nat} {mu : F} (hmu : PrimRoot mu m) (hm : 0 < m)
    (hmF : (m : F) ≠ 0) :
    (Polynomial.X ^ m - Polynomial.C 1 : Polynomial F) =
      ∏ l ∈ Finset.range m, (Polynomial.X - Polynomial.C (mu ^ l)) := by
  have hmonic :
      (∏ l ∈ Finset.range m,
        (Polynomial.X - Polynomial.C (mu ^ l))).Monic :=
    Polynomial.monic_prod_of_monic _ _
      (fun l _ => Polynomial.monic_X_sub_C _)
  have hdeg :
      (∏ l ∈ Finset.range m,
        (Polynomial.X - Polynomial.C (mu ^ l))).natDegree = m := by
    rw [Polynomial.natDegree_prod_of_monic _ _
      (fun l _ => Polynomial.monic_X_sub_C _)]
    simp only [Polynomial.natDegree_X_sub_C, Finset.sum_const,
      Finset.card_range, smul_eq_mul, mul_one]
  have hc1 :
      (∏ l ∈ Finset.range m,
        (Polynomial.X - Polynomial.C (mu ^ l))).coeff m = 1 := by
    have hc := hmonic.coeff_natDegree
    rw [hdeg] at hc
    exact hc
  have hD : degLT ((Polynomial.X ^ m - Polynomial.C 1) -
      ∏ l ∈ Finset.range m, (Polynomial.X - Polynomial.C (mu ^ l))) m := by
    intro j hj
    rw [Polynomial.coeff_sub, Polynomial.coeff_sub, Polynomial.coeff_X_pow,
      Polynomial.coeff_C]
    rcases Nat.lt_or_ge m j with hlt | hge
    · rw [if_neg (by omega), if_neg (by omega),
        Polynomial.coeff_eq_zero_of_natDegree_lt (by rw [hdeg]; omega)]
      ring
    · have hjm : j = m := by omega
      subst hjm
      rw [if_pos rfl, if_neg (by omega), hc1]
      ring
  have hvan : ∀ i, i < m →
      ((Polynomial.X ^ m - Polynomial.C 1) -
        ∏ l ∈ Finset.range m, (Polynomial.X - Polynomial.C (mu ^ l))).eval
          (mu ^ i) = (0 : Polynomial F).eval (mu ^ i) := by
    intro i hi
    rw [Polynomial.eval_zero, Polynomial.eval_sub, Polynomial.eval_sub,
      Polynomial.eval_pow, Polynomial.eval_X, Polynomial.eval_C]
    have h1 : (mu ^ i) ^ m = 1 := by
      rw [← pow_mul, mul_comm, pow_mul, hmu.1, one_pow]
    have h2 :
        (∏ l ∈ Finset.range m,
          (Polynomial.X - Polynomial.C (mu ^ l))).eval (mu ^ i) = 0 := by
      rw [Polynomial.eval_prod]
      apply Finset.prod_eq_zero (Finset.mem_range.mpr hi)
      rw [Polynomial.eval_sub, Polynomial.eval_X, Polynomial.eval_C, sub_self]
    rw [h1, h2, sub_self, sub_zero]
  have hzero := degLT_ext hmu hm hmF hD (degLT_zero m) hvan
  exact sub_eq_zero.mp hzero

/-- A polynomial vanishing at all `m` powers of a primitive `m`-th root is
divisible by `X^m - 1`. -/
theorem X_pow_sub_one_dvd {m : Nat} {mu : F} (hmu : PrimRoot mu m)
    (hm : 0 < m) (hmF : (m : F) ≠ 0) {N : Polynomial F}
    (hroot : ∀ l, l < m → N.eval (mu ^ l) = 0) :
    (Polynomial.X ^ m - Polynomial.C 1) ∣ N := by
  rw [X_pow_sub_one_eq hmu hm hmF]
  exact prod_X_sub_C_dvd hmu hm N (Finset.range m)
    (fun l hl => Finset.mem_range.mp hl)
    (fun l hl => hroot l (Finset.mem_range.mp hl))

/-- Dividing a polynomial of degree below `4n` by `X^n - 1` leaves a quotient
of degree below `3n`. -/
theorem exists_quotient {n : Nat} (hn : 0 < n) {N : Polynomial F}
    (hN : degLT N (4 * n))
    (hdvd : (Polynomial.X ^ n - Polynomial.C 1) ∣ N) :
    ∃ T, N = (Polynomial.X ^ n - Polynomial.C 1) * T ∧ degLT T (3 * n) := by
  obtain ⟨T, hT⟩ := hdvd
  refine ⟨T, hT, ?_⟩
  by_cases hT0 : T = 0
  · subst hT0
    exact degLT_zero _
  · have hXn : (Polynomial.X ^ n - Polynomial.C 1 : Polynomial F) ≠ 0 :=
      (Polynomial.monic_X_pow_sub_C 1 (by omega)).ne_zero
    have hdeg : (Polynomial.X ^ n - Polynomial.C 1 : Polynomial F).natDegree =
        n := Polynomial.natDegree_X_pow_sub_C
    have hNne : N ≠ 0 := by
      rw [hT]
      exact mul_ne_zero hXn hT0
    have h1 : N.natDegree = n + T.natDegree := by
      rw [hT, Polynomial.natDegree_mul hXn hT0, hdeg]
    have h2 : N.natDegree < 4 * n := hN.natDegree_lt (by omega) hNne
    intro j hj
    apply Polynomial.coeff_eq_zero_of_natDegree_lt
    omega

/-- Every value of `Z_H` on the coset is nonzero as soon as the coset offset
satisfies `h^(4n) ≠ 1`. -/
theorem coset_val_ne_one {n : Nat} {mu h : F} (hmu : mu ^ (4 * n) = 1)
    (hh4 : h ^ (4 * n) ≠ 1) (i : Nat) :
    (mu ^ i * h) ^ n - 1 ≠ 0 := by
  intro hc
  rw [sub_eq_zero] at hc
  have h2 : (mu ^ i * h) ^ (4 * n) = 1 := by
    have h4 : ((mu ^ i * h) ^ n) ^ 4 = 1 := by rw [hc, one_pow]
    rw [← pow_mul, show n * 4 = 4 * n from by ring] at h4
    exact h4
  rw [mul_pow] at h2
  have h3 : (mu ^ i) ^ (4 * n) = 1 := by
    rw [← pow_mul, show i * (4 * n) = 4 * n * i from by ring, pow_mul, hmu,
      one_pow]
  rw [h3, one_mul] at h2
  exact hh4 h2

theorem degLT_prod_X_sub_C (s : Finset Nat) (f : Nat → F) :
    degLT (∏ l ∈ s, (Polynomial.X - Polynomial.C (f l))) (s.card + 1) := by
  induction s using Finset.induction_on with
  | empty =>
      intro j hj
      rw [Finset.prod_empty, Polynomial.coeff_one,
        if_neg (by simp at hj; omega)]
  | @insert a s ha ih =>
      rw [Finset.prod_insert ha, Finset.card_insert_of_not_mem ha]
      have h2 : degLT (Polynomial.X - Polynomial.C (f a)) 2 :=
        degLT.sub degLT_X (degLT_C _ (by omega))
      exact (h2.mul ih (by omega)).mono (by omega)

/-- The barycentric evaluation formula of the spec agrees with the true
evaluation of the interpolant at every point, both on and off the root
domain. -/
theorem barycentric_eval_eq [DecidableEq F] {rootOf : Nat → F} {p : Poly F}
    {n : Nat} (hlen : p.values.length = n) (hom : PrimRoot (rootOf n) n)
    (hn : 0 < n) (hnF : ((n : Nat) : F) ≠ 0) (z : F) :
    barycentric_eval rootOf p z =
      (interpPoly n (rootOf n) p.values).eval z := by
  rw [barycentric_eval]
  simp only [hlen]
  split
  next k hfind =>
    have hk : k < n := List.mem_range.mp (List.mem_of_find?_eq_some hfind)
    have hp := List.find?_some hfind
    have hp2 : decide (rootOf n ^ k = z) = true := hp
    have hz : rootOf n ^ k = z := of_decide_eq_true hp2
    rw [← hz, interpPoly_eval hom hn hnF p.values hk]
  next hfind =>
    have hne : ∀ i, i < n → rootOf n ^ i ≠ z := by
      intro i hi
      have hfa := List.find?_eq_none.mp hfind i (List.mem_range.mpr hi)
      simpa using hfa
    have hfac : ∀ i, i < n →
        (Polynomial.X - Polynomial.C (rootOf n ^ i)) *
          (∏ l ∈ (Finset.range n).erase i,
            (Polynomial.X - Polynomial.C (rootOf n ^ l))) =
          Polynomial.X ^ n - Polynomial.C 1 := by
      intro i hi
      rw [X_pow_sub_one_eq hom hn hnF]
      exact Finset.mul_prod_erase (Finset.range n)
        (fun l => Polynomial.X - Polynomial.C (rootOf n ^ l))
        (Finset.mem_range.mpr hi)
    have hMdeg : ∀ i, i < n →
        degLT (∏ l ∈ (Finset.range n).erase i,
          (Polynomial.X - Polynomial.C (rootOf n ^ l))) n := by
      intro i hi
      have hcard : ((Finset.range n).erase i).card = n - 1 := by
        rw [Finset.card_erase_of_mem (Finset.mem_range.mpr hi),
          Finset.card_range]
      have hd := degLT_prod_X_sub_C ((Finset.range n).erase i)
        (fun l => rootOf n ^ l)
      rw [hcard] at hd
      exact hd.mono (by omega)
    have hMeval : ∀ i, i < n →
        (∏ l ∈ (Finset.range n).erase i,
          (Polynomial.X - Polynomial.C (rootOf n ^ l))).eval (rootOf n ^ i) =
          ((n : Nat) : F) * (rootOf n ^ i) ^ (n - 1) := by
      intro i hi
      have hder := congrArg Polynomial.derivative (hfac i hi)
      rw [Polynomial.derivative_mul, Polynomial.derivative_sub,
        Polynomial.derivative_X, Polynomial.derivative_C,
        Polynomial.derivative_sub, Polynomial.derivative_X_pow,
        Polynomial.derivative_C] at hder
      have hev := congrArg (Polynomial.eval (rootOf n ^ i)) hder
      simp only [Polynomial.eval_add, Polynomial.eval_mul,
        Polynomial.eval_sub, Polynomial.eval_C, Polynomial.eval_X,
        Polynomial.eval_pow, Polynomial.eval_zero, Polynomial.eval_one] at hev
      linear_combination hev
    have hMz : ∀ i, i < n →
        (∏ l ∈ (Finset.range n).erase i,
          (Polynomial.X - Polynomial.C (rootOf n ^ l))).eval z =
          (z ^ n - 1) / (z - rootOf n ^ i) := by
      intro i hi
      have h1 := congrArg (Polynomial.eval z) (hfac i hi)
      rw [Polynomial.eval_mul, Polynomial.eval_sub, Polynomial.eval_X,
        Polynomial.eval_C, Polynomial.eval_sub, Polynomial.eval_pow,
        Polynomial.eval_X, Polynomial.eval_C] at h1
      rw [eq_div_iff (sub_ne_zero_of_ne (Ne.symm (hne i hi)))]
      linear_combination h1
    have hiden : interpPoly n (rootOf n) p.values =
        ∑ i ∈ Finset.range n,
          Polynomial.C (p.values.getD i 0 * rootOf n ^ i / ((n : Nat) : F)) *
            ∏ l ∈ (Finset.range n).erase i,
              (Polynomial.X - Polynomial.C (rootOf n ^ l)) := by
      apply degLT_ext hom hn hnF (interpPoly_degLT n (rootOf n) p.values)
        (degLT_finset_sum _ _
          (fun i hi => degLT.Cmul _ (hMdeg i (Finset.mem_range.mp hi))))
      intro k hk
      rw [interpPoly_eval hom hn hnF p.values hk]
      rw [Polynomial.eval_finset_sum]
      rw [Finset.sum_eq_single k]
      · rw [Polynomial.eval_mul, Polynomial.eval_C, hMeval k hk]
        have hone : rootOf n ^ k * (rootOf n ^ k) ^ (n - 1) = 1 := by
          rw [← pow_succ', show n - 1 + 1 = n from by omega, ← pow_mul,
            mul_comm k n, pow_mul, hom.1, one_pow]
        calc p.values.getD k 0
            = p.values.getD k 0 *
                (rootOf n ^ k * (rootOf n ^ k) ^ (n - 1)) *
                (((n : Nat) : F) / ((n : Nat) : F)) := by
              rw [hone, div_self hnF]
              ring
          _ = p.values.getD k 0 * rootOf n ^ k / ((n : Nat) : F) *
                (((n : Nat) : F) * (rootOf n ^ k) ^ (n - 1)) := by
              ring
      · intro b hb hbk
        have hzero : ∏ l ∈ (Finset.range n).erase b,
            Polynomial.eval (rootOf n ^ k)
              (Polynomial.X - Polynomial.C (rootOf n ^ l)) = 0 :=
          Finset.prod_eq_zero
            (Finset.mem_erase.mpr
              ⟨fun hkb => hbk hkb.symm, Finset.mem_range.mpr hk⟩)
            (by rw [Polynomial.eval_sub, Polynomial.eval_X,
                Polynomial.eval_C, sub_self])
        rw [Polynomial.eval_mul, Polynomial.eval_prod, hzero, mul_zero]
      · intro hkn
        exact absurd (Finset.mem_range.mpr hk) hkn
    rw [hiden, Polynomial.eval_finset_sum, Finset.mul_sum]
    refine Finset.sum_congr rfl (fun i hi => ?_)
    rw [Polynomial.eval_mul, Polynomial.eval_C,
      hMz i (Finset.mem_range.mp hi)]
    ring

/-- The coefficient list produced by `coset_extended_lagrange_to_coeffs`
recovers the coefficients of any degree-below-`m` polynomial whose values on
the coset the input list holds. -/
theorem to_coeffs_getD {rootOf : Nat → F} {h : F} {p : Poly F} {m : Nat}
    (hlen : p.values.length = m) (hmu : PrimRoot (rootOf m) m) (hm : 0 < m)
    (hmF : ((m : Nat) : F) ≠ 0) (hh0 : h ≠ 0) (T : Polynomial F)
    (hT : degLT T m)
    (hev : ∀ i, i < m → p.values.getD i 0 = T.eval (rootOf m ^ i * h)) :
    ∀ j, j < m → (to_coeffs rootOf h p).values.getD j 0 = T.coeff j := by
  intro j hj
  simp only [to_coeffs, hlen]
  rw [getD_scale_enum _ _ _ (by rw [idftL_length]; exact hj)]
  have hTh : ∀ i, i < m →
      p.values.getD i 0 =
        (∑ k ∈ Finset.range m,
          Polynomial.C (T.coeff k * h ^ k) * Polynomial.X ^ k).eval
          (rootOf m ^ i) := by
    intro i hi
    rw [hev i hi, eval_sum_CX, hT.eval_sum hm]
    refine Finset.sum_congr rfl (fun k _ => ?_)
    rw [mul_pow]
    ring
  rw [idftL_coeff hmu hm hmF p.values _ (degLT_sum_CX _ m) hTh j hj]
  rw [coeff_sum_CX, if_pos hj, mul_assoc, ← mul_pow, mul_inv_cancel₀ hh0,
    one_pow, mul_one]

end Bridge

section RoundFacts

variable {F : Type} [Field F] [DecidableEq F] {G : Type}

/-- A completing Round 1 certifies the gate identity at every row. -/
theorem round_1_gate (P : Prover F G) (w : Witness) (PI A B C : Poly F)
    (m1 : Message1 G)
    (hr1 : round_1 P w PI = Except.ok (A, B, C, m1))
    (hPI : shaped PI P.group_order)
    (hQL : shaped P.pk.QL P.group_order) (hQR : shaped P.pk.QR P.group_order)
    (hQM : shaped P.pk.QM P.group_order) (hQO : shaped P.pk.QO P.group_order)
    (hQC : shaped P.pk.QC P.group_order) :
    ∀ l, l < P.group_order →
      A.values.getD l 0 * P.pk.QL.values.getD l 0 +
          B.values.getD l 0 * P.pk.QR.values.getD l 0 +
          A.values.getD l 0 * B.values.getD l 0 * P.pk.QM.values.getD l 0 +
          C.values.getD l 0 * P.pk.QO.values.getD l 0 +
        PI.values.getD l 0 + P.pk.QC.values.getD l 0 = 0 := by
  simp only [round_1, bind_ok_iff] at hr1
  obtain ⟨vals, hv, gc, hgc, hite⟩ := hr1
  obtain ⟨hcond, he⟩ := ite_ok_elim hite
  have hlen := setValsAux_len (F := F) (insertNoneZero w) P.wires 0 _ _ hv
  simp only [List.length_replicate] at hlen
  simp only [Prod.mk.injEq] at he
  obtain ⟨l0, hgc2, hl0len, hl0⟩ := gateConstraint_ok P.pk
    ⟨vals.1, Basis.LAGRANGE⟩ ⟨vals.2.1, Basis.LAGRANGE⟩
    ⟨vals.2.2, Basis.LAGRANGE⟩ PI
    ⟨rfl, hlen.1⟩ ⟨rfl, hlen.2.1⟩ ⟨rfl, hlen.2.2⟩ hPI hQL hQR hQM hQO hQC
  rw [hgc2] at hgc
  cases hgc
  have hvals0 : l0 = List.replicate P.group_order 0 :=
    congrArg Poly.values hcond
  intro l hl
  have hz : l0.getD l 0 = 0 := by
    rw [hvals0]
    exact getD_replicate_self _ _ _
  rw [← he.1, ← he.2.1, ← he.2.2.1]
  exact (hl0 l hl).symm.trans hz

/-- A completing Round 2 certifies the shape of `Z`, the popped `Z_n = 1`
assertion, and the cyclic per-row identity. -/
theorem round_2_props (P : Prover F G) (beta gamma : F) (A B C Z : Poly F)
    (m2 : Message2 G)
    (hr2 : round_2 P beta gamma A B C = Except.ok (Z, m2)) :
    Z = ⟨(List.range P.group_order).map (round2acc P beta gamma A B C),
        Basis.LAGRANGE⟩ ∧
      round2acc P beta gamma A B C P.group_order = 1 ∧
      ∀ l, l < P.group_order →
        zNum beta gamma (A.values.getD l 0) (B.values.getD l 0)
            (C.values.getD l 0)
            ((rootsOfUnity (P.rootOf P.group_order) P.group_order).getD l 0) *
            round2acc P beta gamma A B C l -
          zDen beta gamma (A.values.getD l 0) (B.values.getD l 0)
            (C.values.getD l 0) (P.pk.S1.values.getD l 0)
            (P.pk.S2.values.getD l 0) (P.pk.S3.values.getD l 0) *
            round2acc P beta gamma A B C ((l + 1) % P.group_order) = 0 := by
  simp only [round_2] at hr2
  split at hr2
  next h1 =>
    split at hr2
    next h2 =>
      cases hr2
      refine ⟨rfl, h1, ?_⟩
      intro l hl
      have hmem := List.all_eq_true.mp h2 l (List.mem_range.mpr hl)
      exact of_decide_eq_true hmem
    next h2 => exact Except.noConfusion hr2
  next h1 => exact Except.noConfusion hr2

/-- The data computed by `round_3_core`: the quotient's coefficient form is
`to_coeffs` of its coset values, and each coset value is the pointwise
numerator divided by the `Z_H` value. -/
theorem round_3_core_data (P : Prover F G) (beta gamma alpha h : F)
    (A B C PI Z : Poly F) (hn : 0 < P.group_order)
    (hA : shaped A P.group_order) (hB : shaped B P.group_order)
    (hC : shaped C P.group_order) (hPI : shaped PI P.group_order)
    (hZ : shaped Z P.group_order)
    (hQL : shaped P.pk.QL P.group_order) (hQR : shaped P.pk.QR P.group_order)
    (hQM : shaped P.pk.QM P.group_order) (hQO : shaped P.pk.QO P.group_order)
    (hQC : shaped P.pk.QC P.group_order) (hS1 : shaped P.pk.S1 P.group_order)
    (hS2 : shaped P.pk.S2 P.group_order) (hS3 : shaped P.pk.S3 P.group_order)
    (d : R3Data F)
    (hcore : round_3_core P beta gamma alpha h A B C PI Z = Except.ok d) :
    d.QUOT_coefficients = to_coeffs P.rootOf h d.QUOT_expanded ∧
      d.QUOT_expanded.values.length = 4 * P.group_order ∧
      ∀ i, i < 4 * P.group_order →
        d.QUOT_expanded.values.getD i 0 =
          quotNumerator P beta gamma alpha h A B C PI Z i /
            ((P.rootOf (4 * P.group_order) ^ i * h) ^ P.group_order - 1) := by
  simp only [round_3_core, pdiv, pmul, padd, psub, rlcP, pbinop, bind,
    Except.bind, to_coset_basis, to_coset_length, pmulC_basis, pmulC_length,
    psubC_basis, psubC_length, paddC_basis, paddC_length, Z_H_of_basis,
    Z_H_of_length, rootsOfUnity_length, pshift_length, pshift_basis,
    L0_of_basis, L0_of_length _ hn,
    List.length_zipWith, hA.2, hB.2, hC.2, hPI.2, hZ.2, hQL.2, hQR.2, hQM.2,
    hQO.2, hQC.2, hS1.2, hS2.2, hS3.2, Nat.min_self, and_self, ite_true,
    and_true, true_and, if_true, eq_self_iff_true, ok_bind] at hcore
  cases hcore
  refine ⟨rfl, ?_, ?_⟩
  · simp only [List.length_zipWith, to_coset_length, Z_H_of_length,
      rootsOfUnity_length, pmulC_length, psubC_length, paddC_length,
      pshift_length, L0_of_length _ hn, hA.2, hB.2, hC.2, hPI.2, hZ.2, hQL.2,
      hQR.2, hQM.2, hQO.2, hQC.2, hS1.2, hS2.2, hS3.2, Nat.min_self]
  · intro i hi
    simp only [getD_zipWith, pmulC_getD, paddC_getD, psubC_getD, Z_H_of_getD,
      rootsOfUnity_getD, to_coset_length, pmulC_length, paddC_length,
      psubC_length, Z_H_of_length, rootsOfUnity_length, pshift_length,
      L0_of_length _ hn, List.length_zipWith, Nat.min_self, hA.2, hB.2, hC.2,
      hPI.2, hZ.2, hQL.2, hQR.2, hQM.2, hQO.2, hQC.2, hS1.2, hS2.2, hS3.2, hi]
    simp only [quotNumerator, rlc]
    ring

/-- The stored fields of `round_3_core`: every `*_expanded` slot is the coset
expansion of its source vector, `L0` is the indicator vector, and `T1/T2/T3`
are the size-`n` slices of the quotient coefficients. -/
theorem round_3_core_fields (P : Prover F G) (beta gamma alpha h : F)
    (A B C PI Z : Poly F) (hn : 0 < P.group_order)
    (hA : shaped A P.group_order) (hB : shaped B P.group_order)
    (hC : shaped C P.group_order) (hPI : shaped PI P.group_order)
    (hZ : shaped Z P.group_order)
    (hQL : shaped P.pk.QL P.group_order) (hQR : shaped P.pk.QR P.group_order)
    (hQM : shaped P.pk.QM P.group_order) (hQO : shaped P.pk.QO P.group_order)
    (hQC : shaped P.pk.QC P.group_order) (hS1 : shaped P.pk.S1 P.group_order)
    (hS2 : shaped P.pk.S2 P.group_order) (hS3 : shaped P.pk.S3 P.group_order)
    (d : R3Data F)
    (hcore : round_3_core P beta gamma alpha h A B C PI Z = Except.ok d) :
    d.Z_expanded = to_coset P.rootOf h Z ∧
      d.QL_expanded = to_coset P.rootOf h P.pk.QL ∧
      d.QR_expanded = to_coset P.rootOf h P.pk.QR ∧
      d.QM_expanded = to_coset P.rootOf h P.pk.QM ∧
      d.QO_expanded = to_coset P.rootOf h P.pk.QO ∧
      d.QC_expanded = to_coset P.rootOf h P.pk.QC ∧
      d.S3_expanded = to_coset P.rootOf h P.pk.S3 ∧
      d.L0 = L0_of P.group_order ∧
      d.T1 = pfft P.rootOf
        ⟨d.QUOT_coefficients.values.take P.group_order, Basis.MONOMIAL⟩ ∧
      d.T2 = pfft P.rootOf
        ⟨(d.QUOT_coefficients.values.drop P.group_order).take P.group_order,
          Basis.MONOMIAL⟩ ∧
      d.T3 = pfft P.rootOf
        ⟨(d.QUOT_coefficients.values.drop (2 * P.group_order)).take
          P.group_order, Basis.MONOMIAL⟩ := by
  simp only [round_3_core, pdiv, pmul, padd, psub, rlcP, pbinop, bind,
    Except.bind, to_coset_basis, to_coset_length, pmulC_basis, pmulC_length,
    psubC_basis, psubC_length, paddC_basis, paddC_length, Z_H_of_basis,
    Z_H_of_length, rootsOfUnity_length, pshift_length, pshift_basis,
    L0_of_basis, L0_of_length _ hn,
    List.length_zipWith, hA.2, hB.2, hC.2, hPI.2, hZ.2, hQL.2, hQR.2, hQM.2,
    hQO.2, hQC.2, hS1.2, hS2.2, hS3.2, Nat.min_self, and_self, ite_true,
    and_true, true_and, if_true, eq_self_iff_true, ok_bind] at hcore
  cases hcore
  exact ⟨rfl, rfl, rfl, rfl, rfl, rfl, rfl, rfl, rfl, rfl, rfl⟩

/-- The data computed by `round_5_core`: the committed `R` is the `fft` of the
lower `n` coefficients of `R_argument`, and each `R_argument` value is the
pointwise linearization combination. -/
theorem round_5_core_data (P : Prover F G) (beta gamma alpha h zeta v : F)
    (A B C PI Z : Poly F) (d : R3Data F) (m4 : Message4 F) (d5 : R5Data F G)
    (hn : 0 < P.group_order)
    (hA : shaped A P.group_order) (hB : shaped B P.group_order)
    (hC : shaped C P.group_order) (hPI : shaped PI P.group_order)
    (hZ : shaped Z P.group_order)
    (hQL : shaped P.pk.QL P.group_order) (hQR : shaped P.pk.QR P.group_order)
    (hQM : shaped P.pk.QM P.group_order) (hQO : shaped P.pk.QO P.group_order)
    (hQC : shaped P.pk.QC P.group_order) (hS1 : shaped P.pk.S1 P.group_order)
    (hS2 : shaped P.pk.S2 P.group_order) (hS3 : shaped P.pk.S3 P.group_order)
    (hcore : round_3_core P beta gamma alpha h A B C PI Z = Except.ok d)
    (hd5 : round_5_core P beta gamma alpha h zeta v PI d m4 =
      Except.ok d5) :
    d5.R = pfft P.rootOf
        ⟨(to_coeffs P.rootOf h d5.R_argument).values.take P.group_order,
          Basis.MONOMIAL⟩ ∧
      d5.R_argument.values.length = 4 * P.group_order ∧
      ∀ i, i < 4 * P.group_order →
        d5.R_argument.values.getD i 0 =
          r5Numerator P beta gamma alpha h zeta PI d m4 i := by
  simp only [round_3_core, pdiv, pmul, padd, psub, rlcP, pbinop, bind,
    Except.bind, to_coset_basis, to_coset_length, pmulC_basis, pmulC_length,
    psubC_basis, psubC_length, paddC_basis, paddC_length, Z_H_of_basis,
    Z_H_of_length, rootsOfUnity_length, pshift_length, pshift_basis,
    L0_of_basis, L0_of_length _ hn,
    List.length_zipWith, hA.2, hB.2, hC.2, hPI.2, hZ.2, hQL.2, hQR.2, hQM.2,
    hQO.2, hQC.2, hS1.2, hS2.2, hS3.2, Nat.min_self, and_self, ite_true,
    and_true, true_and, if_true, eq_self_iff_true, ok_bind] at hcore
  cases hcore
  have e1 : min P.group_order (4 * P.group_order) = P.group_order := by omega
  have e2 : min P.group_order (4 * P.group_order - P.group_order) =
      P.group_order := by omega
  have e3 : min P.group_order (4 * P.group_order - 2 * P.group_order) =
      P.group_order := by omega
  simp only [round_5_core, pdiv, pmul, padd, psub, rlcP, pbinop, bind,
    Except.bind, to_coset_basis, to_coset_length, pmulC_basis, pmulC_length,
    psubC_basis, psubC_length, paddC_basis, paddC_length, Z_H_of_basis,
    Z_H_of_length, rootsOfUnity_length, pshift_length, pshift_basis,
    L0_of_basis, L0_of_length _ hn, pfft_basis, pfft_length, to_coeffs_basis,
    to_coeffs_length, List.length_take, List.length_drop,
    List.length_replicate, e1, e2, e3,
    List.length_zipWith, hA.2, hB.2, hC.2, hPI.2, hZ.2, hQL.2, hQR.2, hQM.2,
    hQO.2, hQC.2, hS1.2, hS2.2, hS3.2, Nat.min_self, and_self, ite_true,
    and_true, true_and, if_true, eq_self_iff_true, ok_bind] at hd5
  cases hd5
  refine ⟨rfl, ?_, ?_⟩
  · simp only [List.length_zipWith, to_coset_length, Z_H_of_length,
      rootsOfUnity_length, pmulC_length, psubC_length, paddC_length,
      pshift_length, pfft_length, to_coeffs_length, List.length_take,
      List.length_drop, List.length_replicate, L0_of_length _ hn, e1, e2, e3,
      hA.2, hB.2, hC.2, hPI.2, hZ.2, hQL.2, hQR.2, hQM.2, hQO.2, hQC.2,
      hS1.2, hS2.2, hS3.2, Nat.min_self]
  · intro i hi
    simp only [getD_zipWith, pmulC_getD, paddC_getD, psubC_getD, Z_H_of_getD,
      rootsOfUnity_getD, getD_replicate_lt, to_coset_length, pmulC_length,
      paddC_length, psubC_length, Z_H_of_length, rootsOfUnity_length,
      pshift_length, pfft_length, to_coeffs_length, List.length_take,
      List.length_drop, List.length_replicate, L0_of_length _ hn, e1, e2, e3,
      List.length_zipWith, Nat.min_self, hA.2, hB.2, hC.2, hPI.2, hZ.2,
      hQL.2, hQR.2, hQM.2, hQO.2, hQC.2, hS1.2, hS2.2, hS3.2, hi]
    simp only [r5Numerator, rlc]
    ring

/-- The Round 3 numerator polynomial has degree below `4n`. -/
theorem numerPoly_degLT (P : Prover F G) (beta gamma alpha : F)
    (A B C PI Z : Poly F) (hn : 0 < P.group_order) :
    degLT (numerPoly P beta gamma alpha A B C PI Z) (4 * P.group_order) := by
  simp only [numerPoly]
  refine degLT.add ?_ ?_
  · refine degLT.add (degLT.add (degLT.add (degLT.add (degLT.add ?_ ?_) ?_)
      ?_) ?_) ?_
    · exact ((interpPoly_degLT _ _ _).mul (interpPoly_degLT _ _ _)
        hn).mono (by omega)
    · exact ((interpPoly_degLT _ _ _).mul (interpPoly_degLT _ _ _)
        hn).mono (by omega)
    · exact (((interpPoly_degLT _ _ _).mul (interpPoly_degLT _ _ _) hn).mul
        (interpPoly_degLT _ _ _) (by omega)).mono (by omega)
    · exact ((interpPoly_degLT _ _ _).mul (interpPoly_degLT _ _ _)
        hn).mono (by omega)
    · exact (interpPoly_degLT _ _ _).mono (by omega)
    · exact (interpPoly_degLT _ _ _).mono (by omega)
  · refine degLT.add (degLT.sub ?_ ?_) ?_
    · refine degLT.Cmul _ (degLT.mono (degLT.mul (degLT.mul (degLT.mul
        (?_ : degLT _ (P.group_order + 1))
        (?_ : degLT _ (P.group_order + 1)) (by omega))
        (?_ : degLT _ (P.group_order + 1)) (by omega))
        (interpPoly_degLT _ _ _) (by omega)) (by omega))
      · exact (degLT.add (degLT.add ((interpPoly_degLT _ _ _).mono (by omega))
          ((degLT.Cmul _ degLT_X).mono (by omega))) (degLT_C _ (by omega)))
      · exact (degLT.add (degLT.add ((interpPoly_degLT _ _ _).mono (by omega))
          ((degLT.Cmul _ degLT_X).mono (by omega))) (degLT_C _ (by omega)))
      · exact (degLT.add (degLT.add ((interpPoly_degLT _ _ _).mono (by omega))
          ((degLT.Cmul _ degLT_X).mono (by omega))) (degLT_C _ (by omega)))
    · refine degLT.Cmul _ (degLT.mono (degLT.mul (degLT.mul (degLT.mul
        (?_ : degLT _ P.group_order)
        (?_ : degLT _ P.group_order) hn)
        (?_ : degLT _ P.group_order) (by omega))
        (interpPoly_degLT _ _ _) (by omega)) (by omega))
      · exact (degLT.add (degLT.add (interpPoly_degLT _ _ _)
          (degLT.Cmul _ (interpPoly_degLT _ _ _))) (degLT_C _ hn))
      · exact (degLT.add (degLT.add (interpPoly_degLT _ _ _)
          (degLT.Cmul _ (interpPoly_degLT _ _ _))) (degLT_C _ hn))
      · exact (degLT.add (degLT.add (interpPoly_degLT _ _ _)
          (degLT.Cmul _ (interpPoly_degLT _ _ _))) (degLT_C _ hn))
    · exact degLT.Cmul _ (degLT.mono (degLT.mul (degLT.sub
        (interpPoly_degLT _ _ _) (degLT_C _ hn)) (interpPoly_degLT _ _ _) hn)
        (by omega))

/-- Each pointwise Round 3 numerator value is the evaluation of the numerator
polynomial at the corresponding coset point. -/
theorem quotNumerator_eval (P : Prover F G) (beta gamma alpha h : F)
    (A B C PI Z : Poly F) (hn : 0 < P.group_order)
    (hA : A.values.length = P.group_order)
    (hB : B.values.length = P.group_order)
    (hC : C.values.length = P.group_order)
    (hPI : PI.values.length = P.group_order)
    (hZ : Z.values.length = P.group_order)
    (hQL : P.pk.QL.values.length = P.group_order)
    (hQR : P.pk.QR.values.length = P.group_order)
    (hQM : P.pk.QM.values.length = P.group_order)
    (hQO : P.pk.QO.values.length = P.group_order)
    (hQC : P.pk.QC.values.length = P.group_order)
    (hS1 : P.pk.S1.values.length = P.group_order)
    (hS2 : P.pk.S2.values.length = P.group_order)
    (hS3 : P.pk.S3.values.length = P.group_order)
    (i : Nat) (hi : i < 4 * P.group_order) :
    quotNumerator P beta gamma alpha h A B C PI Z i =
      (numerPoly P beta gamma alpha A B C PI Z).eval
        (P.rootOf (4 * P.group_order) ^ i * h) := by
  simp only [quotNumerator, numerPoly]
  rw [to_coset_getD hA i hi, to_coset_getD hB i hi, to_coset_getD hC i hi,
    to_coset_getD hPI i hi, to_coset_getD hQL i hi, to_coset_getD hQR i hi,
    to_coset_getD hQM i hi, to_coset_getD hQO i hi, to_coset_getD hQC i hi,
    to_coset_getD hZ i hi,
    to_coset_getD (show (pshift Z 1).values.length = P.group_order from by
      rw [pshift_length, hZ]) i hi,
    to_coset_getD hS1 i hi, to_coset_getD hS2 i hi, to_coset_getD hS3 i hi,
    to_coset_getD (show (L0_of (F := F) P.group_order).values.length =
      P.group_order from L0_of_length _ hn) i hi]
  simp only [Polynomial.eval_add, Polynomial.eval_mul, Polynomial.eval_sub,
    Polynomial.eval_C, Polynomial.eval_X, rlc]
  ring

/-- The numerator polynomial vanishes at every `n`-th root of unity after
Rounds 1 and 2 complete: the gate identity kills the gate part and the popped
and cyclic grand-product assertions kill the permutation part. -/
theorem numerPoly_vanish (P : Prover F G) (w : Witness)
    (beta gamma alpha : F) (PI A B C Z : Poly F) (m1 : Message1 G)
    (m2 : Message2 G) (hn : 0 < P.group_order)
    (hnF : ((P.group_order : Nat) : F) ≠ 0)
    (hom : PrimRoot (P.rootOf P.group_order) P.group_order)
    (hPI : shaped PI P.group_order)
    (hQL : shaped P.pk.QL P.group_order) (hQR : shaped P.pk.QR P.group_order)
    (hQM : shaped P.pk.QM P.group_order) (hQO : shaped P.pk.QO P.group_order)
    (hQC : shaped P.pk.QC P.group_order)
    (hr1 : round_1 P w PI = Except.ok (A, B, C, m1))
    (hr2 : round_2 P beta gamma A B C = Except.ok (Z, m2)) :
    ∀ l, l < P.group_order →
      (numerPoly P beta gamma alpha A B C PI Z).eval
        (P.rootOf P.group_order ^ l) = 0 := by
  intro l hl
  have hg := round_1_gate P w PI A B C m1 hr1 hPI hQL hQR hQM hQO hQC
  obtain ⟨hZeq, hZn, hsan⟩ := round_2_props P beta gamma A B C Z m2 hr2
  have hZs : shaped Z P.group_order := round_2_shape P beta gamma A B C Z m2 hr2
  simp only [numerPoly]
  simp only [Polynomial.eval_add, Polynomial.eval_mul, Polynomial.eval_sub,
    Polynomial.eval_C, Polynomial.eval_X]
  rw [interpPoly_eval hom hn hnF A.values hl,
    interpPoly_eval hom hn hnF B.values hl,
    interpPoly_eval hom hn hnF C.values hl,
    interpPoly_eval hom hn hnF PI.values hl,
    interpPoly_eval hom hn hnF P.pk.QL.values hl,
    interpPoly_eval hom hn hnF P.pk.QR.values hl,
    interpPoly_eval hom hn hnF P.pk.QM.values hl,
    interpPoly_eval hom hn hnF P.pk.QO.values hl,
    interpPoly_eval hom hn hnF P.pk.QC.values hl,
    interpPoly_eval hom hn hnF Z.values hl,
    interpPoly_eval hom hn hnF (pshift Z 1).values hl,
    interpPoly_eval hom hn hnF P.pk.S1.values hl,
    interpPoly_eval hom hn hnF P.pk.S2.values hl,
    interpPoly_eval hom hn hnF P.pk.S3.values hl,
    interpPoly_eval hom hn hnF (L0_of (F := F) P.group_order).values hl]
  have hrot : (pshift Z 1).values.getD l 0 =
      Z.values.getD ((l + 1) % P.group_order) 0 := by
    show (Z.values.rotateLeft 1).getD l 0 = _
    rw [getD_rotateLeft_one _ _ _ (by rw [hZs.2]; exact hl), hZs.2]
  have hZl : ∀ j, j < P.group_order →
      Z.values.getD j 0 = round2acc P beta gamma A B C j := by
    intro j hj
    rw [hZeq]
    exact getD_range_map _ _ _ _ hj
  rw [hrot, hZl l hl, hZl ((l + 1) % P.group_order) (Nat.mod_lt _ hn)]
  have hgl := hg l hl
  have hsl := hsan l hl
  rw [rootsOfUnity_getD _ _ _ hl] at hsl
  simp only [zNum, zDen, rlc] at hsl
  rcases Nat.eq_zero_or_pos l with hl0 | hl0
  · subst hl0
    have hL0 : (L0_of (F := F) P.group_order).values.getD 0 0 = 1 := by
      rw [L0_of]
      rfl
    rw [hL0]
    have hZ0 : round2acc P beta gamma A B C 0 = 1 := rfl
    linear_combination hgl + alpha * hsl + alpha * alpha * hZ0
  · have hL0 : (L0_of (F := F) P.group_order).values.getD l 0 = 0 := by
      rw [L0_of]
      rcases l with _ | l'
      · omega
      · show (List.replicate (P.group_order - 1) (0 : F)).getD l' 0 = 0
        exact getD_replicate_self _ _ _
    rw [hL0]
    linear_combination hgl + alpha * hsl

/-- The Round 3 numerator polynomial factors through `X^n - 1` with a
quotient of degree below `3n`. -/
theorem numerPoly_factor (P : Prover F G) (w : Witness)
    (beta gamma alpha : F) (PI A B C Z : Poly F) (m1 : Message1 G)
    (m2 : Message2 G) (hn : 0 < P.group_order)
    (hnF : ((P.group_order : Nat) : F) ≠ 0)
    (hom : PrimRoot (P.rootOf P.group_order) P.group_order)
    (hPI : shaped PI P.group_order)
    (hQL : shaped P.pk.QL P.group_order) (hQR : shaped P.pk.QR P.group_order)
    (hQM : shaped P.pk.QM P.group_order) (hQO : shaped P.pk.QO P.group_order)
    (hQC : shaped P.pk.QC P.group_order)
    (hr1 : round_1 P w PI = Except.ok (A, B, C, m1))
    (hr2 : round_2 P beta gamma A B C = Except.ok (Z, m2)) :
    ∃ T, numerPoly P beta gamma alpha A B C PI Z =
        (Polynomial.X ^ P.group_order - Polynomial.C 1) * T ∧
      degLT T (3 * P.group_order) :=
  exists_quotient hn (numerPoly_degLT P beta gamma alpha A B C PI Z hn)
    (X_pow_sub_one_dvd hom hn hnF
      (numerPoly_vanish P w beta gamma alpha PI A B C Z m1 m2 hn hnF hom hPI
        hQL hQR hQM hQO hQC hr1 hr2))

end RoundFacts

/-- Claim C3: for every witness for which Rounds 1 and 2 complete (the gate
identity holds on all `n` roots of unity and `Z_n = 1`), the quotient
`T = (GATES + PERM) / Z_H` computed pointwise on the coset in Round 3 has all
of the top `n` of its `4n` monomial coefficients equal to zero, so Round 3's
divisibility assertion passes. Stated under the arithmetic facts of the real
setup: `n` and `4n` invertible in the field, the configured roots primitive,
and a coset offset `h ≠ 0` with `h^(4n) ≠ 1` (the latter is what makes every
`Z_H` value on the coset nonzero). -/
theorem claim_C3 {F : Type} [Field F] [DecidableEq F] {G : Type}
    (P : Prover F G) (w : Witness) (beta gamma alpha h : F)
    (PI A B C Z : Poly F) (m1 : Message1 G) (m2 : Message2 G) (d : R3Data F)
    (hn : 0 < P.group_order)
    (hnF : ((P.group_order : Nat) : F) ≠ 0)
    (h4nF : ((4 * P.group_order : Nat) : F) ≠ 0)
    (hom : PrimRoot (P.rootOf P.group_order) P.group_order)
    (hmu : PrimRoot (P.rootOf (4 * P.group_order)) (4 * P.group_order))
    (hh0 : h ≠ 0) (hh4 : h ^ (4 * P.group_order) ≠ 1)
    (hPI : shaped PI P.group_order)
    (hQL : shaped P.pk.QL P.group_order) (hQR : shaped P.pk.QR P.group_order)
    (hQM : shaped P.pk.QM P.group_order) (hQO : shaped P.pk.QO P.group_order)
    (hQC : shaped P.pk.QC P.group_order) (hS1 : shaped P.pk.S1 P.group_order)
    (hS2 : shaped P.pk.S2 P.group_order) (hS3 : shaped P.pk.S3 P.group_order)
    (hr1 : round_1 P w PI = Except.ok (A, B, C, m1))
    (hr2 : round_2 P beta gamma A B C = Except.ok (Z, m2))
    (hcore : round_3_core P beta gamma alpha h A B C PI Z = Except.ok d) :
    d.QUOT_coefficients.values.drop (3 * P.group_order) =
      List.replicate P.group_order 0 := by
  obtain ⟨hAs, hBs, hCs⟩ := round_1_shapes P w PI A B C m1 hr1
  have hZs := round_2_shape P beta gamma A B C Z m2 hr2
  obtain ⟨hco, hqlen, hq⟩ := round_3_core_data P beta gamma alpha h A B C PI Z
    hn hAs hBs hCs hPI hZs hQL hQR hQM hQO hQC hS1 hS2 hS3 d hcore
  obtain ⟨T, hfac, hTdeg⟩ := numerPoly_factor P w beta gamma alpha PI A B C Z
    m1 m2 hn hnF hom hPI hQL hQR hQM hQO hQC hr1 hr2
  have hvals : ∀ i, i < 4 * P.group_order →
      d.QUOT_expanded.values.getD i 0 =
        T.eval (P.rootOf (4 * P.group_order) ^ i * h) := by
    intro i hi
    rw [hq i hi, quotNumerator_eval P beta gamma alpha h A B C PI Z hn hAs.2
      hBs.2 hCs.2 hPI.2 hZs.2 hQL.2 hQR.2 hQM.2 hQO.2 hQC.2 hS1.2 hS2.2 hS3.2
      i hi, hfac]
    rw [Polynomial.eval_mul, Polynomial.eval_sub, Polynomial.eval_pow,
      Polynomial.eval_X, Polynomial.eval_C]
    exact mul_div_cancel_left₀ _ (coset_val_ne_one hmu.1 hh4 i)
  have hcoef : ∀ j, j < 4 * P.group_order →
      d.QUOT_coefficients.values.getD j 0 = T.coeff j := by
    rw [hco]
    exact to_coeffs_getD hqlen hmu (by omega) h4nF hh0 T
      (hTdeg.mono (by omega)) hvals
  have hclen : d.QUOT_coefficients.values.length = 4 * P.group_order := by
    rw [hco, to_coeffs_length, hqlen]
  apply (eq_replicate_iff _ _ _
    (by rw [List.length_drop, hclen]; omega)).mpr
  intro i hi
  rw [getD_drop' _ _ _ _ (by rw [hclen]; omega)]
  rw [hcoef (3 * P.group_order + i) (by omega)]
  exact hTdeg _ (by omega)

/-- Concrete instance for Claim C3: the one-gate `F13` prover with
`beta = 1`, `gamma = 2`, `alpha = 1`, coset offset `h = 2`; Rounds 1 and 2
complete and the top coefficient of the quotient vanishes. -/
theorem claim_C3_witness :
    (0 < cfg13.group_order ∧
      ((cfg13.group_order : Nat) : F13) ≠ 0 ∧
      ((4 * cfg13.group_order : Nat) : F13) ≠ 0 ∧
      PrimRoot (cfg13.rootOf cfg13.group_order) cfg13.group_order ∧
      PrimRoot (cfg13.rootOf (4 * cfg13.group_order))
        (4 * cfg13.group_order) ∧
      (⟨2⟩ : F13) ≠ 0 ∧ (⟨2⟩ : F13) ^ (4 * cfg13.group_order) ≠ 1 ∧
      shaped pa13 cfg13.group_order ∧
      round_1 cfg13 wAll0 pa13 = Except.ok (pa13, pa13, pa13, ⟨(), (), ()⟩) ∧
      round_2 cfg13 ⟨1⟩ ⟨2⟩ pa13 pa13 pa13 = Except.ok (pz13, ⟨()⟩) ∧
      round_3_core cfg13 ⟨1⟩ ⟨2⟩ ⟨1⟩ ⟨2⟩ pa13 pa13 pa13 pa13 pz13 =
        Except.ok d13) ∧
    d13.QUOT_coefficients.values.drop (3 * cfg13.group_order) =
      List.replicate cfg13.group_order 0 :=
  ⟨⟨by decide, by decide, by decide, by decide, by decide, by decide,
      by decide, by decide, by decide, by decide, by decide⟩,
    claim_C3 cfg13 wAll0 ⟨1⟩ ⟨2⟩ ⟨1⟩ ⟨2⟩ pa13 pa13 pa13 pa13 pz13
      ⟨(), (), ()⟩ ⟨()⟩ d13 (by decide) (by decide) (by decide) (by decide)
      (by decide) (by decide) (by decide) (by decide) (by decide) (by decide)
      (by decide) (by decide) (by decide) (by decide) (by decide) (by decide)
      (by decide) (by decide) (by decide)⟩

/-- Claim C5: for every run in which Rounds 1-4 complete, the linearization
polynomial `R` built in Round 5 has its top `3n` monomial coefficients equal
to zero and satisfies `R(ζ) = 0`; and whenever either of those two Round 5
assertions fails on the output of the Round 5 computations, `round_5` (and
hence `prove`) aborts with an assertion failure. Stated under the arithmetic
facts of the real setup, as for C3. -/
theorem claim_C5 {F : Type} [Field F] [DecidableEq F] {G : Type}
    (P : Prover F G) (w : Witness) (beta gamma alpha h zeta v : F)
    (PI A B C Z : Poly F) (m1 : Message1 G) (m2 : Message2 G) (d : R3Data F)
    (m3 : Message3 G) (m4 : Message4 F) (d5 : R5Data F G)
    (hn : 0 < P.group_order)
    (hnF : ((P.group_order : Nat) : F) ≠ 0)
    (h4nF : ((4 * P.group_order : Nat) : F) ≠ 0)
    (hom : PrimRoot (P.rootOf P.group_order) P.group_order)
    (hmu : PrimRoot (P.rootOf (4 * P.group_order)) (4 * P.group_order))
    (hh0 : h ≠ 0) (hh4 : h ^ (4 * P.group_order) ≠ 1)
    (hPI : shaped PI P.group_order)
    (hQL : shaped P.pk.QL P.group_order) (hQR : shaped P.pk.QR P.group_order)
    (hQM : shaped P.pk.QM P.group_order) (hQO : shaped P.pk.QO P.group_order)
    (hQC : shaped P.pk.QC P.group_order) (hS1 : shaped P.pk.S1 P.group_order)
    (hS2 : shaped P.pk.S2 P.group_order) (hS3 : shaped P.pk.S3 P.group_order)
    (hr1 : round_1 P w PI = Except.ok (A, B, C, m1))
    (hr2 : round_2 P beta gamma A B C = Except.ok (Z, m2))
    (hr3 : round_3 P beta gamma alpha h A B C PI Z = Except.ok (d, m3))
    (hm4 : m4 = round_4 P zeta A B C Z)
    (hd5 : round_5_core P beta gamma alpha h zeta v PI d m4 =
      Except.ok d5) :
    ((to_coeffs P.rootOf h d5.R_argument).values.drop P.group_order =
        List.replicate (3 * P.group_order) 0 ∧
      barycentric_eval P.rootOf d5.R zeta = 0) ∧
    ∀ (P2 : Prover F G) (b2 g2 a2 h2 z2 v2 : F) (PI2 : Poly F)
        (d2 : R3Data F) (m42 : Message4 F) (d52 : R5Data F G),
      round_5_core P2 b2 g2 a2 h2 z2 v2 PI2 d2 m42 = Except.ok d52 →
      ((to_coeffs P2.rootOf h2 d52.R_argument).values.drop P2.group_order ≠
          List.replicate (3 * P2.group_order) 0 ∨
        barycentric_eval P2.rootOf d52.R z2 ≠ 0) →
      round_5 P2 b2 g2 a2 h2 z2 v2 PI2 d2 m42 =
        Except.error PErr.assertionFailed := by
  subst hm4
  obtain ⟨hAs, hBs, hCs⟩ := round_1_shapes P w PI A B C m1 hr1
  have hZs := round_2_shape P beta gamma A B C Z m2 hr2
  have hcore := round_3_core_of_ok P beta gamma alpha h A B C PI Z d m3 hr3
  obtain ⟨hco, hqlen, hq⟩ := round_3_core_data P beta gamma alpha h A B C PI Z
    hn hAs hBs hCs hPI hZs hQL hQR hQM hQO hQC hS1 hS2 hS3 d hcore
  obtain ⟨hZe, hQLe, hQRe, hQMe, hQOe, hQCe, hS3e, hL0e, hT1e, hT2e, hT3e⟩ :=
    round_3_core_fields P beta gamma alpha h A B C PI Z hn hAs hBs hCs hPI
      hZs hQL hQR hQM hQO hQC hS1 hS2 hS3 d hcore
  obtain ⟨T, hfac, hTdeg⟩ := numerPoly_factor P w beta gamma alpha PI A B C Z
    m1 m2 hn hnF hom hPI hQL hQR hQM hQO hQC hr1 hr2
  have hvals : ∀ i, i < 4 * P.group_order →
      d.QUOT_expanded.values.getD i 0 =
        T.eval (P.rootOf (4 * P.group_order) ^ i * h) := by
    intro i hi
    rw [hq i hi, quotNumerator_eval P beta gamma alpha h A B C PI Z hn hAs.2
      hBs.2 hCs.2 hPI.2 hZs.2 hQL.2 hQR.2 hQM.2 hQO.2 hQC.2 hS1.2 hS2.2 hS3.2
      i hi, hfac]
    rw [Polynomial.eval_mul, Polynomial.eval_sub, Polynomial.eval_pow,
      Polynomial.eval_X, Polynomial.eval_C]
    exact mul_div_cancel_left₀ _ (coset_val_ne_one hmu.1 hh4 i)
  have hcoef : ∀ j, j < 4 * P.group_order →
      d.QUOT_coefficients.values.getD j 0 = T.coeff j := by
    rw [hco]
    exact to_coeffs_getD hqlen hmu (by omega) h4nF hh0 T
      (hTdeg.mono (by omega)) hvals
  have hclen : d.QUOT_coefficients.values.length = 4 * P.group_order := by
    rw [hco, to_coeffs_length, hqlen]
  obtain ⟨hR5eq, hRlen, hRval⟩ := round_5_core_data P beta gamma alpha h zeta
    v A B C PI Z d (round_4 P zeta A B C Z) d5 hn hAs hBs hCs hPI hZs hQL hQR
    hQM hQO hQC hS1 hS2 hS3 hcore hd5
  set pA := interpPoly P.group_order (P.rootOf P.group_order) A.values
    with hpA
  set pB := interpPoly P.group_order (P.rootOf P.group_order) B.values
    with hpB
  set pC := interpPoly P.group_order (P.rootOf P.group_order) C.values
    with hpC
  set pPI := interpPoly P.group_order (P.rootOf P.group_order) PI.values
    with hpPI
  set pQL := interpPoly P.group_order (P.rootOf P.group_order) P.pk.QL.values
    with hpQL
  set pQR := interpPoly P.group_order (P.rootOf P.group_order) P.pk.QR.values
    with hpQR
  set pQM := interpPoly P.group_order (P.rootOf P.group_order) P.pk.QM.values
    with hpQM
  set pQO := interpPoly P.group_order (P.rootOf P.group_order) P.pk.QO.values
    with hpQO
  set pQC := interpPoly P.group_order (P.rootOf P.group_order) P.pk.QC.values
    with hpQC
  set pS1 := interpPoly P.group_order (P.rootOf P.group_order) P.pk.S1.values
    with hpS1
  set pS2 := interpPoly P.group_order (P.rootOf P.group_order) P.pk.S2.values
    with hpS2
  set pS3 := interpPoly P.group_order (P.rootOf P.group_order) P.pk.S3.values
    with hpS3
  set pZ := interpPoly P.group_order (P.rootOf P.group_order) Z.values
    with hpZ
  set pZW := interpPoly P.group_order (P.rootOf P.group_order)
    (pshift Z 1).values with hpZW
  set pL0 := interpPoly P.group_order (P.rootOf P.group_order)
    (L0_of (F := F) P.group_order).values with hpL0
  set T1p := ∑ j ∈ Finset.range P.group_order,
    Polynomial.C (T.coeff j) * Polynomial.X ^ j with hT1p
  set T2p := ∑ j ∈ Finset.range P.group_order,
    Polynomial.C (T.coeff (P.group_order + j)) * Polynomial.X ^ j with hT2p
  set T3p := ∑ j ∈ Finset.range P.group_order,
    Polynomial.C (T.coeff (2 * P.group_order + j)) * Polynomial.X ^ j
    with hT3p
  have hT1len : d.T1.values.length = P.group_order := by
    rw [hT1e, pfft_length]
    show (d.QUOT_coefficients.values.take P.group_order).length = _
    rw [List.length_take, hclen]
    omega
  have hT2len : d.T2.values.length = P.group_order := by
    rw [hT2e, pfft_length]
    show ((d.QUOT_coefficients.values.drop P.group_order).take
      P.group_order).length = _
    rw [List.length_take, List.length_drop, hclen]
    omega
  have hT3len : d.T3.values.length = P.group_order := by
    rw [hT3e, pfft_length]
    show ((d.QUOT_coefficients.values.drop (2 * P.group_order)).take
      P.group_order).length = _
    rw [List.length_take, List.length_drop, hclen]
    omega
  have hq1 : interpPoly P.group_order (P.rootOf P.group_order) d.T1.values =
      T1p := by
    rw [hT1e, pfft_interp hom hn hnF _
      (by rw [List.length_take, hclen]; omega), hT1p]
    refine Finset.sum_congr rfl (fun j hj => ?_)
    rw [getD_take _ _ _ _ (Finset.mem_range.mp hj)
      (by have := Finset.mem_range.mp hj; rw [hclen]; omega),
      hcoef j (by have := Finset.mem_range.mp hj; omega)]
  have hq2 : interpPoly P.group_order (P.rootOf P.group_order) d.T2.values =
      T2p := by
    rw [hT2e, pfft_interp hom hn hnF _
      (by rw [List.length_take, List.length_drop, hclen]; omega), hT2p]
    refine Finset.sum_congr rfl (fun j hj => ?_)
    rw [getD_take _ _ _ _ (Finset.mem_range.mp hj)
      (by have := Finset.mem_range.mp hj
          rw [List.length_drop, hclen]; omega),
      getD_drop' _ _ _ _
        (by have := Finset.mem_range.mp hj; rw [hclen]; omega),
      hcoef (P.group_order + j) (by have := Finset.mem_range.mp hj; omega)]
  have hq3 : interpPoly P.group_order (P.rootOf P.group_order) d.T3.values =
      T3p := by
    rw [hT3e, pfft_interp hom hn hnF _
      (by rw [List.length_take, List.length_drop, hclen]; omega), hT3p]
    refine Finset.sum_congr rfl (fun j hj => ?_)
    rw [getD_take _ _ _ _ (Finset.mem_range.mp hj)
      (by have := Finset.mem_range.mp hj
          rw [List.length_drop, hclen]; omega),
      getD_drop' _ _ _ _
        (by have := Finset.mem_range.mp hj; rw [hclen]; omega),
      hcoef (2 * P.group_order + j)
        (by have := Finset.mem_range.mp hj; omega)]
  have haE : (round_4 P zeta A B C Z).a_eval = pA.eval zeta := by
    rw [hpA]
    show barycentric_eval P.rootOf A zeta = _
    exact barycentric_eval_eq hAs.2 hom hn hnF zeta
  have hbE : (round_4 P zeta A B C Z).b_eval = pB.eval zeta := by
    rw [hpB]
    show barycentric_eval P.rootOf B zeta = _
    exact barycentric_eval_eq hBs.2 hom hn hnF zeta
  have hcE : (round_4 P zeta A B C Z).c_eval = pC.eval zeta := by
    rw [hpC]
    show barycentric_eval P.rootOf C zeta = _
    exact barycentric_eval_eq hCs.2 hom hn hnF zeta
  have hs1E : (round_4 P zeta A B C Z).s1_eval = pS1.eval zeta := by
    rw [hpS1]
    show barycentric_eval P.rootOf P.pk.S1 zeta = _
    exact barycentric_eval_eq hS1.2 hom hn hnF zeta
  have hs2E : (round_4 P zeta A B C Z).s2_eval = pS2.eval zeta := by
    rw [hpS2]
    show barycentric_eval P.rootOf P.pk.S2 zeta = _
    exact barycentric_eval_eq hS2.2 hom hn hnF zeta
  have hzsE : (round_4 P zeta A B C Z).z_shifted_eval =
      pZ.eval (zeta * P.rootOf P.group_order) := by
    rw [hpZ]
    show barycentric_eval P.rootOf Z (zeta * P.rootOf P.group_order) = _
    exact barycentric_eval_eq hZs.2 hom hn hnF _
  have hPIE : barycentric_eval P.rootOf PI zeta = pPI.eval zeta := by
    rw [hpPI]
    exact barycentric_eval_eq hPI.2 hom hn hnF zeta
  have hL0E : barycentric_eval P.rootOf d.L0 zeta = pL0.eval zeta := by
    rw [hL0e, hpL0]
    exact barycentric_eval_eq (L0_of_length _ hn) hom hn hnF zeta
  have hZWeval : pZW.eval zeta = pZ.eval (zeta * P.rootOf P.group_order) := by
    rw [hpZW, hpZ]
    show (interpPoly P.group_order (P.rootOf P.group_order)
      (Z.values.rotateLeft 1)).eval zeta = _
    rw [interp_rotate hom hn hnF Z.values hZs.2, eval_sum_CX,
      (interpPoly_degLT _ _ _).eval_sum hn]
    refine Finset.sum_congr rfl (fun j _ => ?_)
    rw [mul_assoc]
    congr 1
    rw [mul_pow]
    ring
  set NR : Polynomial F :=
    (pQL * Polynomial.C (pA.eval zeta) + pQR * Polynomial.C (pB.eval zeta) +
        pQM * Polynomial.C (pA.eval zeta) * Polynomial.C (pB.eval zeta) +
        pQO * Polynomial.C (pC.eval zeta) + Polynomial.C (pPI.eval zeta) +
        pQC) +
      Polynomial.C alpha *
        (pZ * Polynomial.C (rlc beta gamma (pA.eval zeta) zeta *
            rlc beta gamma (pB.eval zeta) (2 * zeta) *
            rlc beta gamma (pC.eval zeta) (3 * zeta)) -
          (Polynomial.C (pC.eval zeta) + pS3 * Polynomial.C beta +
              Polynomial.C gamma) *
            Polynomial.C (rlc beta gamma (pA.eval zeta) (pS1.eval zeta)) *
            Polynomial.C (rlc beta gamma (pB.eval zeta) (pS2.eval zeta)) *
            Polynomial.C (pZ.eval (zeta * P.rootOf P.group_order))) +
      Polynomial.C (alpha ^ 2) *
        ((pZ - Polynomial.C 1) * Polynomial.C (pL0.eval zeta)) -
      (T1p + T2p * Polynomial.C (zeta ^ P.group_order) +
          T3p * Polynomial.C (zeta ^ (2 * P.group_order))) *
        Polynomial.C (zeta ^ P.group_order - 1) with hNReq
  have hdT1 : degLT T1p P.group_order := by
    rw [hT1p]; exact degLT_sum_CX _ _
  have hdT2 : degLT T2p P.group_order := by
    rw [hT2p]; exact degLT_sum_CX _ _
  have hdT3 : degLT T3p P.group_order := by
    rw [hT3p]; exact degLT_sum_CX _ _
  have hdA : degLT pA P.group_order := by rw [hpA]; exact interpPoly_degLT _ _ _
  have hdQL : degLT pQL P.group_order := by
    rw [hpQL]; exact interpPoly_degLT _ _ _
  have hdQR : degLT pQR P.group_order := by
    rw [hpQR]; exact interpPoly_degLT _ _ _
  have hdQM : degLT pQM P.group_order := by
    rw [hpQM]; exact interpPoly_degLT _ _ _
  have hdQO : degLT pQO P.group_order := by
    rw [hpQO]; exact interpPoly_degLT _ _ _
  have hdQC : degLT pQC P.group_order := by
    rw [hpQC]; exact interpPoly_degLT _ _ _
  have hdS3 : degLT pS3 P.group_order := by
    rw [hpS3]; exact interpPoly_degLT _ _ _
  have hdZ : degLT pZ P.group_order := by rw [hpZ]; exact interpPoly_degLT _ _ _
  have hNRdeg : degLT NR P.group_order := by
    rw [hNReq]
    refine degLT.sub (degLT.add (degLT.add ?_ ?_) ?_) ?_
    · refine degLT.add (degLT.add (degLT.add (degLT.add (degLT.add ?_ ?_) ?_)
        ?_) ?_) hdQC
      · exact (hdQL.mul (degLT_C _ Nat.one_pos) hn).mono (by omega)
      · exact (hdQR.mul (degLT_C _ Nat.one_pos) hn).mono (by omega)
      · exact ((hdQM.mul (degLT_C _ Nat.one_pos) hn).mul
          (degLT_C _ Nat.one_pos) (by omega)).mono (by omega)
      · exact (hdQO.mul (degLT_C _ Nat.one_pos) hn).mono (by omega)
      · exact degLT_C _ hn
    · refine degLT.Cmul _ (degLT.sub ?_ ?_)
      · exact (hdZ.mul (degLT_C _ Nat.one_pos) hn).mono (by omega)
      · refine degLT.mono (degLT.mul (degLT.mul (degLT.mul
          (?_ : degLT _ P.group_order) (degLT_C _ Nat.one_pos) hn)
          (degLT_C _ Nat.one_pos) (by omega)) (degLT_C _ Nat.one_pos)
          (by omega)) (by omega)
        exact degLT.add (degLT.add (degLT_C _ hn)
          ((hdS3.mul (degLT_C _ Nat.one_pos) hn).mono (by omega)))
          (degLT_C _ hn)
    · exact degLT.Cmul _ (((hdZ.sub (degLT_C _ hn)).mul
        (degLT_C _ Nat.one_pos) hn).mono (by omega))
    · refine degLT.mono (degLT.mul (degLT.add (degLT.add hdT1
        ((hdT2.mul (degLT_C _ Nat.one_pos) hn).mono (by omega)))
        ((hdT3.mul (degLT_C _ Nat.one_pos) hn).mono (by omega)))
        (degLT_C _ Nat.one_pos) hn) (by omega)
  have hNRpt : ∀ i, i < 4 * P.group_order →
      r5Numerator P beta gamma alpha h zeta PI d (round_4 P zeta A B C Z) i =
        NR.eval (P.rootOf (4 * P.group_order) ^ i * h) := by
    intro i hi
    simp only [r5Numerator]
    rw [hZe, hQLe, hQRe, hQMe, hQOe, hQCe, hS3e]
    rw [to_coset_getD hZs.2 i hi, to_coset_getD hQL.2 i hi,
      to_coset_getD hQR.2 i hi, to_coset_getD hQM.2 i hi,
      to_coset_getD hQO.2 i hi, to_coset_getD hQC.2 i hi,
      to_coset_getD hS3.2 i hi, to_coset_getD hT1len i hi,
      to_coset_getD hT2len i hi, to_coset_getD hT3len i hi]
    rw [hq1, hq2, hq3]
    rw [haE, hbE, hcE, hs1E, hs2E, hzsE, hPIE, hL0E]
    rw [← hpZ, ← hpQL, ← hpQR, ← hpQM, ← hpQO, ← hpQC, ← hpS3]
    rw [hNReq]
    simp only [Polynomial.eval_add, Polynomial.eval_mul, Polynomial.eval_sub,
      Polynomial.eval_C, Polynomial.eval_X, rlc]
  have hRco : ∀ j, j < 4 * P.group_order →
      (to_coeffs P.rootOf h d5.R_argument).values.getD j 0 = NR.coeff j :=
    to_coeffs_getD hRlen hmu (by omega) h4nF hh0 NR (hNRdeg.mono (by omega))
      (fun i hi => by rw [hRval i hi, hNRpt i hi])
  have hRclen : (to_coeffs P.rootOf h d5.R_argument).values.length =
      4 * P.group_order := by
    rw [to_coeffs_length, hRlen]
  constructor
  · constructor
    · apply (eq_replicate_iff _ _ _
        (by rw [List.length_drop, hRclen]; omega)).mpr
      intro i hi
      rw [getD_drop' _ _ _ _ (by rw [hRclen]; omega),
        hRco (P.group_order + i) (by omega)]
      exact hNRdeg _ (by omega)
    · rw [hR5eq]
      rw [barycentric_eval_eq
        (show (pfft P.rootOf
            ⟨(to_coeffs P.rootOf h d5.R_argument).values.take P.group_order,
              Basis.MONOMIAL⟩).values.length = P.group_order from by
          rw [pfft_length]
          show ((to_coeffs P.rootOf h d5.R_argument).values.take
            P.group_order).length = _
          rw [List.length_take, hRclen]
          omega) hom hn hnF zeta]
      rw [pfft_interp hom hn hnF _ (by rw [List.length_take, hRclen]; omega)]
      have hsum : ∑ j ∈ Finset.range P.group_order,
          Polynomial.C
            (((to_coeffs P.rootOf h d5.R_argument).values.take
              P.group_order).getD j 0) * Polynomial.X ^ j =
          ∑ j ∈ Finset.range P.group_order,
            Polynomial.C (NR.coeff j) * Polynomial.X ^ j :=
        Finset.sum_congr rfl (fun j hj => by
          rw [getD_take _ _ _ _ (Finset.mem_range.mp hj)
            (by have := Finset.mem_range.mp hj; rw [hRclen]; omega),
            hRco j (by have := Finset.mem_range.mp hj; omega)])
      rw [hsum, sum_CX_coeff_eq hNRdeg]
      have hT123 : T1p.eval zeta + T2p.eval zeta * zeta ^ P.group_order +
          T3p.eval zeta * zeta ^ (2 * P.group_order) = T.eval zeta := by
        rw [hT1p, hT2p, hT3p, eval_sum_CX, eval_sum_CX, eval_sum_CX]
        rw [hTdeg.eval_sum (by omega)]
        rw [show 3 * P.group_order =
          P.group_order + (P.group_order + P.group_order) from by ring]
        rw [sum_range_split, sum_range_split]
        have h2 : (∑ j ∈ Finset.range P.group_order,
            T.coeff (P.group_order + j) * zeta ^ j) *
              zeta ^ P.group_order =
            ∑ j ∈ Finset.range P.group_order,
              T.coeff (P.group_order + j) * zeta ^ (P.group_order + j) := by
          rw [Finset.sum_mul]
          refine Finset.sum_congr rfl (fun j _ => ?_)
          rw [pow_add]
          ring
        have h3 : (∑ j ∈ Finset.range P.group_order,
            T.coeff (2 * P.group_order + j) * zeta ^ j) *
              zeta ^ (2 * P.group_order) =
            ∑ j ∈ Finset.range P.group_order,
              T.coeff (P.group_order + (P.group_order + j)) *
                zeta ^ (P.group_order + (P.group_order + j)) := by
          rw [Finset.sum_mul]
          refine Finset.sum_congr rfl (fun j _ => ?_)
          rw [show P.group_order + (P.group_order + j) =
            2 * P.group_order + j from by ring, pow_add]
          ring
        linear_combination h2 + h3
      have hNfac : (numerPoly P beta gamma alpha A B C PI Z).eval zeta =
          (zeta ^ P.group_order - 1) * T.eval zeta := by
        rw [hfac, Polynomial.eval_mul, Polynomial.eval_sub,
          Polynomial.eval_pow, Polynomial.eval_X, Polynomial.eval_C]
      have hNRz : NR.eval zeta =
          (numerPoly P beta gamma alpha A B C PI Z).eval zeta -
            (T1p.eval zeta + T2p.eval zeta * zeta ^ P.group_order +
              T3p.eval zeta * zeta ^ (2 * P.group_order)) *
              (zeta ^ P.group_order - 1) := by
        rw [hNReq]
        simp only [numerPoly]
        rw [← hpA, ← hpB, ← hpC, ← hpPI, ← hpQL, ← hpQR, ← hpQM, ← hpQO,
          ← hpQC, ← hpS1, ← hpS2, ← hpS3, ← hpZ, ← hpZW, ← hpL0]
        simp only [Polynomial.eval_add, Polynomial.eval_mul,
          Polynomial.eval_sub, Polynomial.eval_C, Polynomial.eval_X, rlc]
        rw [hZWeval]
        ring
      rw [hNRz, hNfac, hT123]
      ring
  · intro P2 b2 g2 a2 h2 z2 v2 PI2 d2 m42 d52 h52 hbad
    simp only [round_5, h52, ok_bind]
    rcases hbad with hb | hb
    · rw [if_neg hb]
    · by_cases hc1 : (to_coeffs P2.rootOf h2 d52.R_argument).values.drop
          P2.group_order = List.replicate (3 * P2.group_order) 0
      · rw [if_pos hc1, if_neg hb]
      · rw [if_neg hc1]

/-- Concrete instance for Claim C5: the one-gate `F13` prover; Rounds 1-4
complete and both Round 5 linearization assertions hold on the resulting
data. -/
theorem claim_C5_witness :
    (round_3 cfg13 ⟨1⟩ ⟨2⟩ ⟨1⟩ ⟨2⟩ pa13 pa13 pa13 pa13 pz13 =
        Except.ok (d13, ⟨(), (), ()⟩) ∧
      m4c = round_4 cfg13 ⟨4⟩ pa13 pa13 pa13 pz13 ∧
      round_5_core cfg13 ⟨1⟩ ⟨2⟩ ⟨1⟩ ⟨2⟩ ⟨4⟩ ⟨1⟩ pa13 d13 m4c =
        Except.ok d5c) ∧
    ((to_coeffs cfg13.rootOf ⟨2⟩ d5c.R_argument).values.drop
        cfg13.group_order = List.replicate (3 * cfg13.group_order) 0 ∧
      barycentric_eval cfg13.rootOf d5c.R ⟨4⟩ = 0) :=
  ⟨⟨by decide, rfl, by decide⟩,
    (claim_C5 cfg13 wAll0 ⟨1⟩ ⟨2⟩ ⟨1⟩ ⟨2⟩ ⟨4⟩ ⟨1⟩ pa13 pa13 pa13 pa13 pz13
      ⟨(), (), ()⟩ ⟨()⟩ d13 ⟨(), (), ()⟩ m4c d5c (by decide) (by decide)
      (by decide) (by decide) (by decide) (by decide) (by decide) (by decide)
      (by decide) (by decide) (by decide) (by decide) (by decide) (by decide)
      (by decide) (by decide) (by decide) (by decide) (by decide) rfl
      (by decide)).1⟩

/-- Claim C9 counterexample: per-proof state does persist on the prover
object.  On the concrete run, `prove` succeeds and afterwards the `beta`
attribute is set (where the fresh object had none), and the
`permutation_grand_product` value written by Round 3 differs from the value
written over it by Round 5 — the same field is assigned by two rounds. -/
theorem claim_C9_counterexample :
    (prove_st cfg13 emptyObj wAll0).map (fun r => r.1.beta) =
        Except.ok (some ⟨1⟩) ∧
    (emptyObj (F := F13) (G := Unit)).beta = none ∧
    (proveParts cfg13 wAll0).map
        (fun d =>
          decide (d.r3.permutation_grand_product = d.r5.permutation_grand_product)) =
      Except.ok false := by
  exact ⟨by decide, rfl, by decide⟩

/-- Claim C7: the transcript is initialised only with the constant label and
absorbs only the round messages, so the Round 1 message — and hence the
Round 1 challenges `(beta, gamma)` — depend only on the wire map, the witness,
the group order, the commitment function and the challenge function: two
provers agreeing on those but differing arbitrarily in selector polynomials,
permutation polynomials, or public-input assignments obtain the same
`(beta, gamma)` whenever both complete Round 1. -/
theorem claim_C7 {F : Type} [Field F] [DecidableEq F] {G : Type}
    (P1 P2 : Prover F G) (w : Witness) (PI1 PI2 : Poly F)
    (A1 B1 C1 : Poly F) (m1 : Message1 G) (A2 B2 C2 : Poly F) (m2 : Message1 G)
    (hwires : P1.wires = P2.wires) (hn : P1.group_order = P2.group_order)
    (hcommit : P1.commit = P2.commit) (htr : P1.tr1 = P2.tr1)
    (h1 : round_1 P1 w PI1 = Except.ok (A1, B1, C1, m1))
    (h2 : round_1 P2 w PI2 = Except.ok (A2, B2, C2, m2)) :
    m1 = m2 ∧ P1.tr1 m1 = P2.tr1 m2 := by
  simp only [round_1, bind_ok_iff] at h1 h2
  obtain ⟨vals1, hs1, gc1, hg1, hi1⟩ := h1
  obtain ⟨vals2, hs2, gc2, hg2, hi2⟩ := h2
  rw [hwires, hn] at hs1
  rw [hs2] at hs1
  cases hs1
  obtain ⟨-, h1e⟩ := ite_ok_elim hi1
  obtain ⟨-, h2e⟩ := ite_ok_elim hi2
  simp only [Prod.mk.injEq] at h1e h2e
  rw [← h1e.2.2.2, ← h2e.2.2.2, hcommit, htr]
  exact ⟨rfl, rfl⟩

/-- Witness for C7: `cfg13` and `cfg13b` share wires, group order, `commit`
and `tr1` but differ in `QL`, `S1` and the public-input list; both complete
Round 1 on the all-zero witness and obtain equal challenges. -/
theorem claim_C7_witness :
    (⟨(), (), ()⟩ : Message1 Unit) = (⟨(), (), ()⟩ : Message1 Unit) ∧
      cfg13.tr1 ⟨(), (), ()⟩ = cfg13b.tr1 ⟨(), (), ()⟩ := by
  refine claim_C7 cfg13 cfg13b wAll0
    (⟨[⟨0⟩], Basis.LAGRANGE⟩ : Poly F13) (⟨[⟨0⟩], Basis.LAGRANGE⟩ : Poly F13)
    (⟨[⟨0⟩], Basis.LAGRANGE⟩ : Poly F13) (⟨[⟨0⟩], Basis.LAGRANGE⟩ : Poly F13)
    (⟨[⟨0⟩], Basis.LAGRANGE⟩ : Poly F13) ⟨(), (), ()⟩
    (⟨[⟨0⟩], Basis.LAGRANGE⟩ : Poly F13) (⟨[⟨0⟩], Basis.LAGRANGE⟩ : Poly F13)
    (⟨[⟨0⟩], Basis.LAGRANGE⟩ : Poly F13) ⟨(), (), ()⟩
    rfl rfl rfl rfl ?_ ?_
  · decide
  · decide

/-- Claim C9 amended: per-proof state persists on the prover object after
`prove` returns, and `gates` / `permutation_grand_product` are each assigned
by Round 3 and reassigned by Round 5; however, no state left by one call
influences a later call — the outcome of `prove_st` is independent of the
incoming object state. -/
theorem claim_C9 {F : Type} [Field F] [DecidableEq F] {G : Type}
    (P : Prover F G) (o1 o2 : ProverObj F G) (w : Witness) :
    prove_st P o1 w = prove_st P o2 w := rfl

end Plonk
